import Mathlib

set_option maxRecDepth 8000

/-!
A verification development for the RustPLC compiler core.

The definitions below are a shallow embedding, in Lean, of the Rust
sources of the repository: the AST consumed by the semantic layer
(`src/ast/mod.rs`), the intermediate representation (`crates/rustplc_ir`),
the diagnostic type (`src/error/mod.rs`), the IR builders
(`src/semantic/mod.rs`) and the safety / liveness / timing verifiers
(`crates/rustplc_compiler/src/verification`).  Machine integers (`u64`,
`usize`) are embedded as `Nat` with explicit saturating arithmetic where
the source uses saturating operations; Rust `HashMap`s that are only ever
used through `insert` / `get` / `contains_key` are embedded as
association lists with replace-or-append insertion, matching the
last-write-wins semantics of `HashMap::insert`.
-/

namespace RustPLC

/-- `u64::MAX`, used by the saturating arithmetic of the source. -/
def U64_MAX : Nat := 2 ^ 64 - 1

/-- `u64::saturating_add`. -/
def satAdd (a b : Nat) : Nat := min (a + b) U64_MAX

/-- `u64::saturating_mul`. -/
def satMul (a b : Nat) : Nat := min (a * b) U64_MAX

/-! ## Association lists (embedding of `std::collections::HashMap`) -/

/-- `HashMap::insert`: replace the binding if the key is present,
otherwise append it.  (All maps in this development are built from `[]`
through `alInsert` only, so keys are unique and replacing the first
occurrence is replacing the only one.) -/
def alInsert {K V : Type} [DecidableEq K] : List (K × V) → K → V →
    List (K × V)
  | [], k, v => [(k, v)]
  | p :: rest, k, v =>
    if p.1 = k then (k, v) :: rest else p :: alInsert rest k v

/-- `HashMap::get`. -/
def alFind? {K V : Type} [DecidableEq K] : List (K × V) → K → Option V
  | [], _ => none
  | p :: rest, k => if p.1 = k then some p.2 else alFind? rest k

/-- `HashMap::contains_key`. -/
def alContains {K V : Type} [DecidableEq K] : List (K × V) → K → Bool
  | [], _ => false
  | p :: rest, k => p.1 = k || alContains rest k

/-! ## AST (`src/ast/mod.rs`) -/

inductive TimeUnit where
  | ms
  | s
  deriving DecidableEq

structure DurationValue where
  value : Nat
  unit : TimeUnit
  deriving DecidableEq

structure MeasuredValue where
  value : Float
  unit : String

structure StateReference where
  device : String
  state : String
  deriving DecidableEq

inductive DeviceType where
  | digitalOutput
  | digitalInput
  | solenoidValve
  | cylinder
  | sensor
  | motor
  deriving DecidableEq

structure DeviceAttributes where
  connected_to : Option String := none
  response_time : Option DurationValue := none
  stroke_time : Option DurationValue := none
  retract_time : Option DurationValue := none
  stroke : Option MeasuredValue := none
  type_tag : Option String := none
  detects : Option StateReference := none
  debounce : Option DurationValue := none
  inverted : Option Bool := none
  rated_speed : Option MeasuredValue := none
  ramp_time : Option DurationValue := none

structure DeviceDeclaration where
  line : Nat
  name : String
  device_type : DeviceType
  attributes : DeviceAttributes

structure TopologySection where
  devices : List DeviceDeclaration

inductive SafetyRelationAst where
  | conflictsWith
  | requires
  deriving DecidableEq

structure SafetyConstraint where
  line : Nat
  left : StateReference
  relation : SafetyRelationAst
  right : StateReference
  reason : Option String
  deriving DecidableEq

inductive TimingRelationAst where
  | mustCompleteWithin
  | mustStartAfter
  deriving DecidableEq

inductive TimingTarget where
  | task (task : String)
  | step (task : String) (step : String)
  deriving DecidableEq

structure TimingConstraint where
  line : Nat
  target : TimingTarget
  relation : TimingRelationAst
  duration : DurationValue
  reason : Option String
  deriving DecidableEq

structure CausalityConstraint where
  line : Nat
  chain : List StateReference
  reason : Option String
  deriving DecidableEq

structure ConstraintsSection where
  safety : List SafetyConstraint
  timing : List TimingConstraint
  causality : List CausalityConstraint
  deriving DecidableEq

inductive BinaryValueAst where
  | on
  | off
  deriving DecidableEq

inductive ActionStatement where
  | extend (target : String)
  | retract (target : String)
  | set (target : String) (value : BinaryValueAst)
  | log (message : String)
  deriving DecidableEq

inductive ComparisonOperator where
  | eq
  | neq
  deriving DecidableEq

inductive LiteralValue where
  | boolean (value : Bool)
  | number (value : Float)
  | string (value : String)
  | state (state : StateReference)

structure ConditionExpression where
  left : String
  operator : ComparisonOperator
  right : LiteralValue

structure WaitStatement where
  condition : ConditionExpression

structure GotoDirective where
  line : Nat
  step : String

structure TimeoutDirective where
  duration : DurationValue
  target : GotoDirective

mutual

inductive StepStatement where
  | action (a : ActionStatement)
  | wait (w : WaitStatement)
  | timeout (t : TimeoutDirective)
  | goto (g : GotoDirective)
  | parallel (b : ParallelBlock)
  | race (b : RaceBlock)
  | allowIndefiniteWait (value : Bool)

inductive ParallelBlock where
  | mk (branches : List Branch)

inductive RaceBlock where
  | mk (branches : List RaceBranch)

inductive Branch where
  | mk (statements : List StepStatement)

inductive RaceBranch where
  | mk (statements : List StepStatement) (then_goto : Option GotoDirective)

end

def ParallelBlock.branches : ParallelBlock → List Branch
  | .mk bs => bs

def RaceBlock.branches : RaceBlock → List RaceBranch
  | .mk bs => bs

def Branch.statements : Branch → List StepStatement
  | .mk ss => ss

def RaceBranch.statements : RaceBranch → List StepStatement
  | .mk ss _ => ss

def RaceBranch.then_goto : RaceBranch → Option GotoDirective
  | .mk _ g => g

structure StepDeclaration where
  line : Nat
  name : String
  statements : List StepStatement

inductive OnCompleteDirective where
  | goto (step : String)
  | unreachableTask

structure TaskDeclaration where
  line : Nat
  name : String
  steps : List StepDeclaration
  on_complete_line : Option Nat
  on_complete : Option OnCompleteDirective

structure TasksSection where
  tasks : List TaskDeclaration

structure PlcProgram where
  topology : TopologySection
  constraints : ConstraintsSection
  tasks : TasksSection

/-! ## IR (`crates/rustplc_ir/src/lib.rs`) -/

inductive DeviceKind where
  | digitalOutput
  | digitalInput
  | solenoidValve
  | cylinder
  | sensor
  | motor
  deriving DecidableEq

structure Device where
  name : String
  kind : DeviceKind
  deriving DecidableEq

inductive ConnectionType where
  | electrical
  | pneumatic
  | logical
  deriving DecidableEq

/-- One directed edge of the petgraph `DiGraph<Device, ConnectionType>`:
source node index, target node index, edge weight. -/
structure TopoEdge where
  src : Nat
  tgt : Nat
  kind : ConnectionType
  deriving DecidableEq

/-- `TopologyGraph { graph: DiGraph<Device, ConnectionType> }`; nodes are
indexed by insertion order exactly as petgraph node indices. -/
structure TopologyGraph where
  nodes : List Device
  edges : List TopoEdge
  deriving DecidableEq

def TopologyGraph.new : TopologyGraph := ⟨[], []⟩

/-- `TopologyGraph::add_device`: appends the node, returns its index. -/
def TopologyGraph.add_device (g : TopologyGraph) (d : Device) :
    TopologyGraph × Nat :=
  (⟨g.nodes ++ [d], g.edges⟩, g.nodes.length)

/-- `TopologyGraph::add_connection`. -/
def TopologyGraph.add_connection (g : TopologyGraph) (from_ to_ : Nat)
    (kind : ConnectionType) : TopologyGraph :=
  ⟨g.nodes, g.edges ++ [⟨from_, to_, kind⟩]⟩

structure State where
  task_name : String
  step_name : String
  deriving DecidableEq

inductive TransitionGuard where
  | always
  | condition (expression : String)
  | timeout (duration_ms : Nat)
  deriving DecidableEq

inductive BinaryValue where
  | on
  | off
  deriving DecidableEq

inductive TransitionAction where
  | extend (target : String)
  | retract (target : String)
  | set (target : String) (value : BinaryValue)
  | log (message : String)
  deriving DecidableEq

inductive TimerOperationKind where
  | start
  | cancel
  | reset
  deriving DecidableEq

structure TimerOperation where
  timer_name : String
  operation : TimerOperationKind
  duration_ms : Option Nat
  deriving DecidableEq

structure Transition where
  from_ : State
  to_ : State
  guard : TransitionGuard
  actions : List TransitionAction
  timers : List TimerOperation
  deriving DecidableEq

structure StateMachine where
  states : List State
  transitions : List Transition
  initial : State
  deriving DecidableEq

structure StateExpr where
  device : String
  state : String
  deriving DecidableEq

inductive SafetyRelation where
  | conflictsWith
  | requires
  deriving DecidableEq

structure SafetyRule where
  left : StateExpr
  relation : SafetyRelation
  right : StateExpr
  reason : Option String
  deriving DecidableEq

inductive TimingScope where
  | task (task : String)
  | step (task : String) (step : String)
  deriving DecidableEq

inductive TimingRelation where
  | mustCompleteWithin
  | mustStartAfter
  deriving DecidableEq

structure TimingRule where
  scope : TimingScope
  relation : TimingRelation
  duration_ms : Nat
  reason : Option String
  deriving DecidableEq

structure CausalityChain where
  devices : List String
  reason : Option String
  deriving DecidableEq

structure ConstraintSet where
  safety : List SafetyRule
  timing : List TimingRule
  causality : List CausalityChain
  deriving DecidableEq

inductive ActionKind where
  | extend
  | retract
  | set
  | log
  deriving DecidableEq

structure ActionRef where
  task_name : String
  step_name : String
  action_kind : ActionKind
  target : Option String
  deriving DecidableEq

structure TimeInterval where
  min_ms : Nat
  max_ms : Nat
  deriving DecidableEq

structure ActionTiming where
  action : ActionRef
  interval : TimeInterval
  deriving DecidableEq

/-- `TimingModel { intervals: BTreeMap<String, ActionTiming> }`; the map is
embedded as an association list (we never rely on key ordering). -/
structure TimingModel where
  intervals : List (String × ActionTiming)
  deriving DecidableEq

/-! ## Diagnostics (`src/error/mod.rs`) -/

structure SourceLocation where
  file : String
  line : Nat
  column : Nat
  deriving DecidableEq

def SourceLocation.from_line (line : Nat) : SourceLocation :=
  ⟨"<input>", line, 1⟩

inductive PlcError where
  | parseError (location : SourceLocation) (message : String)
      (reason : Option String)
  | semanticError (location : SourceLocation) (message : String)
      (reason : Option String)
  | undefinedReference (location : SourceLocation) (reference_type : String)
      (name : String) (reason : Option String)
  | typeMismatch (location : SourceLocation) (expected : String)
      (found : String) (context : Option String) (reason : Option String)
  | duplicateDefinition (location : SourceLocation) (definition_type : String)
      (name : String) (reason : Option String)
  deriving DecidableEq

def PlcError.semantic (line : Nat) (message : String) : PlcError :=
  .semanticError (SourceLocation.from_line line) message none

def PlcError.undefined_reference_with_reason (line : Nat)
    (reference_type name reason : String) : PlcError :=
  .undefinedReference (SourceLocation.from_line line) reference_type name
    (some reason)

def PlcError.type_mismatch_with_reason (line : Nat)
    (expected found context reason : String) : PlcError :=
  .typeMismatch (SourceLocation.from_line line) expected found (some context)
    (some reason)

def PlcError.duplicate_definition_with_reason (line : Nat)
    (definition_type name reason : String) : PlcError :=
  .duplicateDefinition (SourceLocation.from_line line) definition_type name
    (some reason)

/-! ## Topology builder (`src/semantic/mod.rs`, `build_topology_from_ast`) -/

structure DeviceNode where
  index : Nat
  kind : DeviceKind
  deriving DecidableEq

/-- `ast_type_to_ir_kind`. -/
def ast_type_to_ir_kind : DeviceType → DeviceKind
  | .digitalOutput => .digitalOutput
  | .digitalInput => .digitalInput
  | .solenoidValve => .solenoidValve
  | .cylinder => .cylinder
  | .sensor => .sensor
  | .motor => .motor

/-- `connection_type_for`: the legal (upstream, downstream) pair table. -/
def connection_type_for : DeviceKind → DeviceKind → Option ConnectionType
  | .digitalOutput, .solenoidValve => some .electrical
  | .digitalOutput, .motor => some .electrical
  | .digitalInput, .sensor => some .electrical
  | .solenoidValve, .cylinder => some .pneumatic
  | .digitalInput, .digitalInput => some .logical
  | .digitalOutput, .digitalOutput => some .logical
  | _, _ => none

/-- `device_kind_name`. -/
def device_kind_name : DeviceKind → String
  | .digitalOutput => "digital_output"
  | .digitalInput => "digital_input"
  | .solenoidValve => "solenoid_valve"
  | .cylinder => "cylinder"
  | .sensor => "sensor"
  | .motor => "motor"

/-- First pass of `build_topology_from_ast` (loop body as recursion): add
a node per declaration and record a name-to-node map (`HashMap` semantics:
duplicates overwrite). -/
def topologyFirstPassGo :
    List DeviceDeclaration → TopologyGraph × List (String × DeviceNode) →
    TopologyGraph × List (String × DeviceNode)
  | [], st => st
  | device :: rest, st =>
    let kind := ast_type_to_ir_kind device.device_type
    let added := st.1.add_device ⟨device.name, kind⟩
    topologyFirstPassGo rest
      (added.1, alInsert st.2 device.name ⟨added.2, kind⟩)

def topologyFirstPass (devices : List DeviceDeclaration) :
    TopologyGraph × List (String × DeviceNode) :=
  topologyFirstPassGo devices (TopologyGraph.new, [])

/-- The per-device body of the second pass of `build_topology_from_ast`:
resolve `connected_to` for one declaration. -/
def topologySecondPassStep (device_nodes : List (String × DeviceNode))
    (device : DeviceDeclaration) (st : TopologyGraph × List PlcError) :
    TopologyGraph × List PlcError :=
  (match device.attributes.connected_to with
      | none => st
      | some target_name =>
        match alFind? device_nodes target_name with
        | none =>
          (st.1, st.2 ++ [PlcError.undefined_reference_with_reason
            device.line "设备" target_name
            ("设备 " ++ device.name ++
              " 的 connected_to 引用了该名称，请先定义后再连接")])
        | some target_node =>
          match alFind? device_nodes device.name with
          | none => st
          | some current_node =>
            match connection_type_for target_node.kind current_node.kind with
            | none =>
              (st.1, st.2 ++ [PlcError.type_mismatch_with_reason device.line
                ("可作为 " ++ device_kind_name current_node.kind ++ " 上游的设备")
                (device_kind_name target_node.kind)
                ("设备 " ++ device.name ++ " 的 connected_to")
                ("请检查 " ++ target_name ++ " 与 " ++ device.name ++
                  " 的连接方向，或调整为兼容设备类型")])
            | some connection_type =>
              -- `A connected_to B` means B provides upstream linkage into A.
              (st.1.add_connection target_node.index current_node.index
                connection_type, st.2))

/-- Second pass of `build_topology_from_ast` (loop as recursion). -/
def topologySecondPassGo (device_nodes : List (String × DeviceNode)) :
    List DeviceDeclaration → TopologyGraph × List PlcError →
    TopologyGraph × List PlcError
  | [], st => st
  | device :: rest, st =>
    topologySecondPassGo device_nodes rest
      (topologySecondPassStep device_nodes device st)

def topologySecondPass (devices : List DeviceDeclaration)
    (device_nodes : List (String × DeviceNode)) (g0 : TopologyGraph) :
    TopologyGraph × List PlcError :=
  topologySecondPassGo device_nodes devices (g0, [])

/-- `build_topology_from_ast`. -/
def build_topology_from_ast (topology : TopologySection) :
    Except (List PlcError) TopologyGraph :=
  let fp := topologyFirstPass topology.devices
  let sp := topologySecondPass topology.devices fp.2 fp.1
  if sp.2.isEmpty then .ok sp.1 else .error sp.2

/-! ## State-machine builder (`src/semantic/mod.rs`) -/

structure StateMachineBuilder where
  states : List State
  transitions : List Transition
  seen_states : List (String × String)
  deriving DecidableEq

def StateMachineBuilder.empty : StateMachineBuilder := ⟨[], [], []⟩

/-- `StateMachineBuilder::add_state` (deduplicating via `seen_states`). -/
def StateMachineBuilder.add_state (b : StateMachineBuilder)
    (task_name step_name : String) : StateMachineBuilder × State :=
  let key := (task_name, step_name)
  if key ∈ b.seen_states then
    (b, ⟨task_name, step_name⟩)
  else
    ({ states := b.states ++ [⟨task_name, step_name⟩],
       transitions := b.transitions,
       seen_states := b.seen_states ++ [key] },
     ⟨task_name, step_name⟩)

/-- `StateMachineBuilder::add_transition`. -/
def StateMachineBuilder.add_transition (b : StateMachineBuilder)
    (from_ to_ : State) (guard : TransitionGuard)
    (actions : List TransitionAction) (timers : List TimerOperation) :
    StateMachineBuilder :=
  { b with transitions := b.transitions ++ [⟨from_, to_, guard, actions, timers⟩] }

structure AnalyzedStatements where
  actions : List TransitionAction := []
  waits : List String := []
  gotos : List GotoDirective := []
  timeouts : List TimeoutDirective := []
  parallel_blocks : List ParallelBlock := []
  race_blocks : List RaceBlock := []

/-- `action_to_transition_action`. -/
def action_to_transition_action : ActionStatement → TransitionAction
  | .extend target => .extend target
  | .retract target => .retract target
  | .set target value =>
    .set target (match value with | .on => .on | .off => .off)
  | .log message => .log message

/-- `literal_to_expression`. -/
def literal_to_expression : LiteralValue → String
  | .boolean value => toString value
  | .number value => toString value
  | .string value => "\"" ++ value ++ "\""
  | .state state => state.device ++ "." ++ state.state

/-- `condition_to_expression`. -/
def condition_to_expression (condition : ConditionExpression) : String :=
  let operator := match condition.operator with
    | .eq => "=="
    | .neq => "!="
  condition.left ++ " " ++ operator ++ " " ++
    literal_to_expression condition.right

/-- `wait_to_guard_expression`. -/
def wait_to_guard_expression (wait : WaitStatement) : String :=
  condition_to_expression wait.condition

/-- `analyze_statements`: partition a statement list into the per-step
control-flow ingredients, in statement order. -/
def analyze_statements (statements : List StepStatement) : AnalyzedStatements :=
  statements.foldl
    (fun an statement =>
      match statement with
      | .action action =>
        { an with actions := an.actions ++ [action_to_transition_action action] }
      | .wait wait =>
        { an with waits := an.waits ++ [wait_to_guard_expression wait] }
      | .timeout timeout => { an with timeouts := an.timeouts ++ [timeout] }
      | .goto goto => { an with gotos := an.gotos ++ [goto] }
      | .parallel block =>
        { an with parallel_blocks := an.parallel_blocks ++ [block] }
      | .race block => { an with race_blocks := an.race_blocks ++ [block] }
      | .allowIndefiniteWait _ => an)
    {}

/-- `duration_value_to_ms` (`u64::saturating_mul` for seconds). -/
def duration_value_to_ms (duration : DurationValue) : Nat :=
  match duration.unit with
  | .ms => duration.value
  | .s => satMul duration.value 1000

/-- `duration_to_ms`. -/
def duration_to_ms (timeout : TimeoutDirective) : Nat :=
  duration_value_to_ms timeout.duration

/-- `resolve_task_target`: look the task up in `task_initial_states`,
pushing an undefined-reference error when absent. -/
def resolve_task_target (target_task : String) (line : Nat)
    (task_initial_states : List (String × State)) (errors : List PlcError)
    (source : String) : Option State × List PlcError :=
  match alFind? task_initial_states target_task with
  | none =>
    (none, errors ++ [PlcError.undefined_reference_with_reason line " task"
      target_task (source ++ " 目标必须是已定义 task 名称")])
  | some state => (some state, errors)

/-- `completion_target_for_step`. -/
def completion_target_for_step (task : TaskDeclaration) (step_index : Nat)
    (task_on_complete_targets : List (String × Option State)) : Option State :=
  if step_index + 1 < task.steps.length then
    match task.steps.get? (step_index + 1) with
    | some step => some ⟨task.name, step.name⟩
    | none => none
  else
    (alFind? task_on_complete_targets task.name).getD none

/-- The timer name attached to a generated timeout transition: a
context prefix followed by `.timeout_<index+1>`. -/
def timeoutTimerName (pre : String) (timeout_index : Nat) : String :=
  pre ++ ".timeout_" ++ toString (timeout_index + 1)

/-! ## Shared statement-tree collectors -/

mutual

/-- `collect_actions` (`src/semantic/mod.rs`): every action in the tree,
descending into parallel and race branches, in traversal order. -/
def collect_actions : List StepStatement → List ActionStatement
  | [] => []
  | statement :: rest => collect_actions_one statement ++ collect_actions rest

def collect_actions_one : StepStatement → List ActionStatement
  | .action action => [action]
  | .parallel (.mk branches) => collect_actions_par_branches branches
  | .race (.mk branches) => collect_actions_race_branches branches
  | .wait _ => []
  | .timeout _ => []
  | .goto _ => []
  | .allowIndefiniteWait _ => []

def collect_actions_par_branches : List Branch → List ActionStatement
  | [] => []
  | .mk statements :: rest =>
    collect_actions statements ++ collect_actions_par_branches rest

def collect_actions_race_branches : List RaceBranch → List ActionStatement
  | [] => []
  | .mk statements _ :: rest =>
    collect_actions statements ++ collect_actions_race_branches rest

end

/-- Builder state threaded through the lowering functions: the
`&mut StateMachineBuilder` and the `&mut Vec<PlcError>` of the source. -/
abbrev BuildSt := StateMachineBuilder × List PlcError

mutual

/-- The `then -> goto` resolution of a race branch: the branch completion
target is the goto's resolved state when present and resolvable, and the
enclosing completion target otherwise. -/
def race_branch_completion (branch : RaceBranch)
    (completion_target : Option State)
    (task_initial_states : List (String × State)) (errors : List PlcError) :
    Option State × List PlcError :=
  match branch.then_goto with
  | some goto =>
    match resolve_task_target goto.step goto.line task_initial_states
        errors "race then goto" with
    | (some target, errors) => (some target, errors)
    | (none, errors) => (completion_target, errors)
  | none => (completion_target, errors)

/-- The per-branch loop body of `build_parallel_block`. -/
def build_parallel_branch (fuel : Nat) (task : TaskDeclaration)
    (step_name : String) (block_index : Nat) (fork_state join_state : State)
    (task_initial_states : List (String × State)) (st : BuildSt)
    (p : Nat × Branch) : BuildSt :=
  match fuel with
  | 0 => st
  | fuel + 1 =>
  let branch_index := p.1
  let branch := p.2
  let branch_state_name :=
    step_name ++ "__parallel_" ++ toString (block_index + 1) ++
      "_branch_" ++ toString (branch_index + 1)
  let added := st.1.add_state task.name branch_state_name
  let branch_state := added.2
  let b := added.1.add_transition fork_state branch_state .always [] []
  let analyzed := analyze_statements branch.statements
  let st :=
    analyzed.gotos.foldl
      (fun (st : BuildSt) goto =>
        match resolve_task_target goto.step goto.line
            task_initial_states st.2 "goto" with
        | (some target, errors) =>
          (st.1.add_transition branch_state target .always
            analyzed.actions [], errors)
        | (none, errors) => (st.1, errors))
      (b, st.2)
  let st :=
    analyzed.timeouts.enum.foldl
      (fun (st : BuildSt) (q : Nat × TimeoutDirective) =>
        let timeout_index := q.1
        let timeout := q.2
        match resolve_task_target timeout.target.step
            timeout.target.line task_initial_states st.2
            "timeout -> goto" with
        | (some target, errors) =>
          let duration_ms := duration_to_ms timeout
          (st.1.add_transition branch_state target
            (.timeout duration_ms) []
            [⟨timeoutTimerName
                (task.name ++ "." ++ step_name ++ ".parallel_" ++
                  toString (block_index + 1) ++ "_branch_" ++
                  toString (branch_index + 1)) timeout_index,
              .start, some duration_ms⟩], errors)
        | (none, errors) => (st.1, errors))
      st
  let st :=
    analyzed.waits.foldl
      (fun (st : BuildSt) wait_expression =>
        (st.1.add_transition branch_state join_state
          (.condition wait_expression) analyzed.actions [], st.2))
      st
  let st :=
    analyzed.parallel_blocks.enum.foldl
      (fun (st : BuildSt) (q : Nat × ParallelBlock) =>
        build_parallel_block fuel task
          (step_name ++ "__parallel_" ++ toString (block_index + 1) ++
            "_branch_" ++ toString (branch_index + 1))
          branch_state q.1 q.2 (some join_state) task_initial_states
          analyzed.actions st)
      st
  let st :=
    analyzed.race_blocks.enum.foldl
      (fun (st : BuildSt) (q : Nat × RaceBlock) =>
        build_race_block fuel task
          (step_name ++ "__parallel_" ++ toString (block_index + 1) ++
            "_branch_" ++ toString (branch_index + 1))
          branch_state q.1 q.2 (some join_state) task_initial_states
          analyzed.actions st)
      st
  let has_control_flow := !analyzed.waits.isEmpty ||
    !analyzed.gotos.isEmpty || !analyzed.parallel_blocks.isEmpty ||
    !analyzed.race_blocks.isEmpty
  if has_control_flow then st
  else
    (st.1.add_transition branch_state join_state .always
      analyzed.actions [], st.2)
termination_by structural fuel

/-- `build_parallel_block`.  The `fuel` argument bounds the recursion into
nested blocks (the Rust recursion is bounded by the statement-nesting depth
of the input); when the fuel runs out the builder state is returned
unchanged.  All theorems below quantify over the fuel, and any concrete
input is handled exactly as in the source once the fuel exceeds its
nesting depth. -/
def build_parallel_block (fuel : Nat) (task : TaskDeclaration)
    (step_name : String) (source_state : State) (block_index : Nat)
    (block : ParallelBlock) (completion_target : Option State)
    (task_initial_states : List (String × State))
    (parent_actions : List TransitionAction) (st : BuildSt) : BuildSt :=
  match fuel with
  | 0 => st
  | fuel + 1 =>
    let fork_state_name :=
      step_name ++ "__parallel_" ++ toString (block_index + 1) ++ "_fork"
    let join_state_name :=
      step_name ++ "__parallel_" ++ toString (block_index + 1) ++ "_join"
    let addedFork := st.1.add_state task.name fork_state_name
    let fork_state := addedFork.2
    let addedJoin := addedFork.1.add_state task.name join_state_name
    let join_state := addedJoin.2
    let b := addedJoin.1.add_transition source_state fork_state .always
      parent_actions []
    let looped :=
      block.branches.enum.foldl
        (fun (st : BuildSt) (p : Nat × Branch) =>
          build_parallel_branch fuel task step_name block_index fork_state
            join_state task_initial_states st p)
        (b, st.2)
    match completion_target with
    | some target =>
      (looped.1.add_transition join_state target .always [] [], looped.2)
    | none => looped
termination_by structural fuel

/-- The per-branch loop body of `build_race_block`. -/
def build_race_branch (fuel : Nat) (task : TaskDeclaration)
    (step_name : String) (block_index : Nat) (decision_state : State)
    (completion_target : Option State)
    (task_initial_states : List (String × State)) (st : BuildSt)
    (p : Nat × RaceBranch) : BuildSt :=
  match fuel with
  | 0 => st
  | fuel + 1 =>
  let branch_index := p.1
  let branch := p.2
  let branch_state_name :=
    step_name ++ "__race_" ++ toString (block_index + 1) ++ "_branch_" ++
      toString (branch_index + 1)
  let added := st.1.add_state task.name branch_state_name
  let branch_state := added.2
  let b := added.1.add_transition decision_state branch_state .always [] []
  let analyzed := analyze_statements branch.statements
  let resolved := race_branch_completion branch completion_target
    task_initial_states st.2
  let branch_completion_target := resolved.1
  let st := (b, resolved.2)
  let st :=
    analyzed.gotos.foldl
      (fun (st : BuildSt) goto =>
        match resolve_task_target goto.step goto.line
            task_initial_states st.2 "goto" with
        | (some target, errors) =>
          (st.1.add_transition branch_state target .always
            analyzed.actions [], errors)
        | (none, errors) => (st.1, errors))
      st
  let st :=
    analyzed.timeouts.enum.foldl
      (fun (st : BuildSt) (q : Nat × TimeoutDirective) =>
        let timeout_index := q.1
        let timeout := q.2
        match resolve_task_target timeout.target.step
            timeout.target.line task_initial_states st.2
            "timeout -> goto" with
        | (some target, errors) =>
          let duration_ms := duration_to_ms timeout
          (st.1.add_transition branch_state target
            (.timeout duration_ms) []
            [⟨timeoutTimerName
                (task.name ++ "." ++ step_name ++ ".race_" ++
                  toString (block_index + 1) ++ "_branch_" ++
                  toString (branch_index + 1)) timeout_index,
              .start, some duration_ms⟩], errors)
        | (none, errors) => (st.1, errors))
      st
  let st :=
    analyzed.waits.foldl
      (fun (st : BuildSt) wait_expression =>
        match branch_completion_target with
        | some target =>
          (st.1.add_transition branch_state target
            (.condition wait_expression) analyzed.actions [], st.2)
        | none => st)
      st
  let st :=
    analyzed.parallel_blocks.enum.foldl
      (fun (st : BuildSt) (q : Nat × ParallelBlock) =>
        build_parallel_block fuel task
          (step_name ++ "__race_" ++ toString (block_index + 1) ++
            "_branch_" ++ toString (branch_index + 1))
          branch_state q.1 q.2 branch_completion_target
          task_initial_states analyzed.actions st)
      st
  let st :=
    analyzed.race_blocks.enum.foldl
      (fun (st : BuildSt) (q : Nat × RaceBlock) =>
        build_race_block fuel task
          (step_name ++ "__race_" ++ toString (block_index + 1) ++
            "_branch_" ++ toString (branch_index + 1))
          branch_state q.1 q.2 branch_completion_target
          task_initial_states analyzed.actions st)
      st
  let has_control_flow := !analyzed.waits.isEmpty ||
    !analyzed.gotos.isEmpty || !analyzed.parallel_blocks.isEmpty ||
    !analyzed.race_blocks.isEmpty
  if has_control_flow then st
  else
    match branch_completion_target with
    | some target =>
      (st.1.add_transition branch_state target .always
        analyzed.actions [], st.2)
    | none => st
termination_by structural fuel

/-- `build_race_block` (same fuel discipline as `build_parallel_block`). -/
def build_race_block (fuel : Nat) (task : TaskDeclaration)
    (step_name : String) (source_state : State) (block_index : Nat)
    (block : RaceBlock) (completion_target : Option State)
    (task_initial_states : List (String × State))
    (parent_actions : List TransitionAction) (st : BuildSt) : BuildSt :=
  match fuel with
  | 0 => st
  | fuel + 1 =>
    let decision_state_name :=
      step_name ++ "__race_" ++ toString (block_index + 1) ++ "_decision"
    let added := st.1.add_state task.name decision_state_name
    let decision_state := added.2
    let b := added.1.add_transition source_state decision_state .always
      parent_actions []
    block.branches.enum.foldl
      (fun (st : BuildSt) (p : Nat × RaceBranch) =>
        build_race_branch fuel task step_name block_index decision_state
          completion_target task_initial_states st p)
      (b, st.2)
termination_by structural fuel

end

/-- One iteration of the first loop of `build_state_machine_from_ast`:
duplicate-task detection, `task_initial_states`, and one builder state per
declared step of the task. -/
def smFirstPassStep
    (st : List (String × State) × StateMachineBuilder × List PlcError)
    (task : TaskDeclaration) :
    List (String × State) × StateMachineBuilder × List PlcError :=
  match task.steps with
  | [] =>
    (st.1, st.2.1, st.2.2 ++ [PlcError.semantic task.line
      ("task " ++ task.name ++ " 至少需要一个 step")])
  | step0 :: _ =>
    let initial_state : State := ⟨task.name, step0.name⟩
    let had := alContains st.1 task.name
    let task_initial_states := alInsert st.1 task.name initial_state
    let errors :=
      if had then
        st.2.2 ++ [PlcError.duplicate_definition_with_reason task.line
          "task" task.name "请确保每个 task 名称唯一"]
      else st.2.2
    let b := task.steps.foldl
      (fun b step => (b.add_state task.name step.name).1) st.2.1
    (task_initial_states, b, errors)

/-- The first loop of `build_state_machine_from_ast`, as explicit
recursion over the task list. -/
def smFirstPassGo (tasks : List TaskDeclaration)
    (st : List (String × State) × StateMachineBuilder × List PlcError) :
    List (String × State) × StateMachineBuilder × List PlcError :=
  match tasks with
  | [] => st
  | task :: rest => smFirstPassGo rest (smFirstPassStep st task)

/-- First loop of `build_state_machine_from_ast`: duplicate-task detection,
`task_initial_states`, and one builder state per declared step. -/
def smFirstPass (tasks : List TaskDeclaration) :
    List (String × State) × StateMachineBuilder × List PlcError :=
  smFirstPassGo tasks ([], StateMachineBuilder.empty, [])

/-- One iteration of the `task_on_complete_targets` loop. -/
def smOnCompleteStep (task_initial_states : List (String × State))
    (st : List (String × Option State) × List PlcError)
    (task : TaskDeclaration) :
    List (String × Option State) × List PlcError :=
  match task.on_complete with
  | some (.goto step) =>
    let line := task.on_complete_line.getD task.line
    let resolved := resolve_task_target step line
      task_initial_states st.2 "on_complete"
    (alInsert st.1 task.name resolved.1, resolved.2)
  | _ => (alInsert st.1 task.name none, st.2)

/-- The `task_on_complete_targets` loop, as explicit recursion. -/
def smOnCompleteGo (task_initial_states : List (String × State))
    (tasks : List TaskDeclaration)
    (st : List (String × Option State) × List PlcError) :
    List (String × Option State) × List PlcError :=
  match tasks with
  | [] => st
  | task :: rest =>
    smOnCompleteGo task_initial_states rest
      (smOnCompleteStep task_initial_states st task)

/-- The `task_on_complete_targets` loop of `build_state_machine_from_ast`. -/
def smOnCompleteTargets (tasks : List TaskDeclaration)
    (task_initial_states : List (String × State)) (errors : List PlcError) :
    List (String × Option State) × List PlcError :=
  smOnCompleteGo task_initial_states tasks ([], errors)

/-- The transition-generation loop body of `build_state_machine_from_ast`
for a single step. -/
def smBuildStep (fuel : Nat) (task : TaskDeclaration) (step_index : Nat)
    (step : StepDeclaration) (task_initial_states : List (String × State))
    (task_on_complete_targets : List (String × Option State)) (st : BuildSt) :
    BuildSt :=
  let from_state : State := ⟨task.name, step.name⟩
  let completion_target :=
    completion_target_for_step task step_index task_on_complete_targets
  let analyzed := analyze_statements step.statements
  let st :=
    analyzed.parallel_blocks.enum.foldl
      (fun (st : BuildSt) (p : Nat × ParallelBlock) =>
        build_parallel_block fuel task step.name from_state p.1 p.2
          completion_target task_initial_states analyzed.actions st)
      st
  let st :=
    analyzed.race_blocks.enum.foldl
      (fun (st : BuildSt) (p : Nat × RaceBlock) =>
        build_race_block fuel task step.name from_state p.1 p.2
          completion_target task_initial_states analyzed.actions st)
      st
  let st :=
    analyzed.gotos.foldl
      (fun (st : BuildSt) goto =>
        match resolve_task_target goto.step goto.line task_initial_states
            st.2 "goto" with
        | (some target, errors) =>
          (st.1.add_transition from_state target .always analyzed.actions [],
            errors)
        | (none, errors) => (st.1, errors))
      st
  let st :=
    analyzed.timeouts.enum.foldl
      (fun (st : BuildSt) (q : Nat × TimeoutDirective) =>
        let timeout_index := q.1
        let timeout := q.2
        match resolve_task_target timeout.target.step timeout.target.line
            task_initial_states st.2 "timeout -> goto" with
        | (some target, errors) =>
          let duration_ms := duration_to_ms timeout
          (st.1.add_transition from_state target (.timeout duration_ms) []
            [⟨timeoutTimerName (task.name ++ "." ++ step.name) timeout_index,
              .start, some duration_ms⟩],
            errors)
        | (none, errors) => (st.1, errors))
      st
  let st :=
    analyzed.waits.foldl
      (fun (st : BuildSt) wait_expression =>
        match completion_target with
        | some target =>
          (st.1.add_transition from_state target
            (.condition wait_expression) analyzed.actions [], st.2)
        | none => st)
      st
  let has_control_flow := !analyzed.waits.isEmpty ||
    !analyzed.gotos.isEmpty || !analyzed.parallel_blocks.isEmpty ||
    !analyzed.race_blocks.isEmpty
  if has_control_flow then st
  else
    match completion_target with
    | some target =>
      (st.1.add_transition from_state target .always analyzed.actions [],
        st.2)
    | none => st

/-- `build_state_machine_from_ast`. -/
def build_state_machine_from_ast (fuel : Nat) (tasks : TasksSection) :
    Except (List PlcError) StateMachine :=
  match tasks.tasks with
  | [] => .error [PlcError.semantic 1 "[tasks] 段至少需要一个 task"]
  | _ =>
    let first := smFirstPass tasks.tasks
    let task_initial_states := first.1
    match tasks.tasks.findSome?
        (fun task => task.steps.head?.map
          (fun step => (⟨task.name, step.name⟩ : State))) with
    | none =>
      .error (first.2.2 ++
        [PlcError.semantic 1 "未找到可执行的 task/step 初始状态"])
    | some initial =>
      let oc := smOnCompleteTargets tasks.tasks task_initial_states first.2.2
      let task_on_complete_targets := oc.1
      let final :=
        tasks.tasks.foldl
          (fun (st : BuildSt) task =>
            task.steps.enum.foldl
              (fun (st : BuildSt) (p : Nat × StepDeclaration) =>
                smBuildStep fuel task p.1 p.2 task_initial_states
                  task_on_complete_targets st)
              st)
          (first.2.1, oc.2)
      if final.2.isEmpty then
        .ok ⟨final.1.states, final.1.transitions, initial⟩
      else
        .error final.2

/-! ## Timing-model builder (`src/semantic/mod.rs`) -/

structure DeviceTimingProfile where
  response_ms : Option Nat := none
  stroke_ms : Option Nat := none
  retract_ms : Option Nat := none
  ramp_ms : Option Nat := none
  deriving DecidableEq

/-- `collect_device_timing_profiles` (`HashMap` collect: duplicates
overwrite). -/
def collect_device_timing_profiles (topology : TopologySection) :
    List (String × DeviceTimingProfile) :=
  topology.devices.foldl
    (fun m device =>
      alInsert m device.name
        ⟨device.attributes.response_time.map duration_value_to_ms,
         device.attributes.stroke_time.map duration_value_to_ms,
         device.attributes.retract_time.map duration_value_to_ms,
         device.attributes.ramp_time.map duration_value_to_ms⟩)
    []

/-- `action_kind_name`. -/
def action_kind_name : ActionKind → String
  | .extend => "extend"
  | .retract => "retract"
  | .set => "set"
  | .log => "log"

/-- `action_to_timing`: returns the optional timing entry together with the
(possibly extended) error list. -/
def action_to_timing (task_name step_name : String) (line : Nat)
    (action : ActionStatement)
    (profiles : List (String × DeviceTimingProfile))
    (errors : List PlcError) : Option ActionTiming × List PlcError :=
  let kindTarget : ActionKind × Option String :=
    match action with
    | .extend target => (.extend, some target)
    | .retract target => (.retract, some target)
    | .set target _ => (.set, some target)
    | .log _ => (.log, none)
  match kindTarget.2 with
  | none => (none, errors)
  | some target =>
    match alFind? profiles target with
    | none =>
      (none, errors ++ [PlcError.undefined_reference_with_reason line "设备"
        target "请先在 [topology] 段定义该设备并补充物理参数"])
    | some profile =>
      let duration_ms : Option Nat :=
        match kindTarget.1 with
        | .extend => (profile.stroke_ms.or profile.response_ms).or
            profile.ramp_ms
        | .retract => (profile.retract_ms.or profile.response_ms).or
            profile.ramp_ms
        | .set => profile.ramp_ms.or profile.response_ms
        | .log => none
      match duration_ms with
      | none => (none, errors)
      | some duration_ms =>
        (some ⟨⟨task_name, step_name, kindTarget.1, some target⟩,
          ⟨duration_ms, duration_ms⟩⟩, errors)

/-- The duplicate-suffix search of `insert_action_timing`: the smallest
index `i ≥ 2` whose key `base.i` is still free.  Among the first
`intervals.length + 1` candidates at least one is free, so the search
never fails on real inputs; the default value is never reached. -/
def duplicateSuffixKey (intervals : List (String × ActionTiming))
    (base_key : String) : String :=
  match (List.range (intervals.length + 1)).find?
      (fun i => !(alContains intervals (base_key ++ "." ++ toString (i + 2))))
    with
  | some i => base_key ++ "." ++ toString (i + 2)
  | none => base_key

/-- `insert_action_timing`. -/
def insert_action_timing (intervals : List (String × ActionTiming))
    (timing : ActionTiming) : List (String × ActionTiming) :=
  let action_name := action_kind_name timing.action.action_kind
  let target := timing.action.target.getD "_"
  let base_key := timing.action.task_name ++ "." ++ timing.action.step_name ++
    "." ++ action_name ++ "." ++ target
  if !(alContains intervals base_key) then
    intervals ++ [(base_key, timing)]
  else
    intervals ++ [(duplicateSuffixKey intervals base_key, timing)]

/-- `build_timing_model_from_ast`. -/
def build_timing_model_from_ast (topology : TopologySection)
    (tasks : TasksSection) : Except (List PlcError) TimingModel :=
  let device_profiles := collect_device_timing_profiles topology
  let folded :=
    tasks.tasks.foldl
      (fun (st : List (String × ActionTiming) × List PlcError) task =>
        task.steps.foldl
          (fun (st : List (String × ActionTiming) × List PlcError) step =>
            let actions := collect_actions step.statements
            actions.foldl
              (fun (st : List (String × ActionTiming) × List PlcError)
                  action =>
                match action_to_timing task.name step.name step.line action
                    device_profiles st.2 with
                | (some action_timing, errors) =>
                  (insert_action_timing st.1 action_timing, errors)
                | (none, errors) => (st.1, errors))
              st)
          st)
      ([], [])
  if folded.2.isEmpty then .ok ⟨folded.1⟩ else .error folded.2

/-! ## Liveness verifier, wait-without-escape check
(`crates/rustplc_compiler/src/verification/liveness.rs`) -/

structure LivenessDiagnostic where
  line : Nat
  reason : String
  physical_analysis : String
  suggestion : String
  deriving DecidableEq

structure StepLivenessFacts where
  waits : List String := []
  has_timeout : Bool := false
  has_allow_indefinite_wait : Bool := false
  deriving DecidableEq

/-- `literal_to_text` (liveness). -/
def literal_to_text : LiteralValue → String
  | .boolean value => toString value
  | .number value => toString value
  | .string value => "\"" ++ value ++ "\""
  | .state state => state.device ++ "." ++ state.state

/-- `comparison_operator_text`. -/
def comparison_operator_text : ComparisonOperator → String
  | .eq => "=="
  | .neq => "!="

/-- `wait_to_text`. -/
def wait_to_text (wait : WaitStatement) : String :=
  wait.condition.left ++ " " ++ comparison_operator_text wait.condition.operator
    ++ " " ++ literal_to_text wait.condition.right

mutual

/-- `collect_step_liveness_facts`: accumulates wait texts and the
timeout / allow-indefinite-wait flags, descending into parallel and race
branches. -/
def collect_step_liveness_facts :
    List StepStatement → StepLivenessFacts → StepLivenessFacts
  | [], facts => facts
  | statement :: rest, facts =>
    collect_step_liveness_facts rest (collect_liveness_fact statement facts)

def collect_liveness_fact : StepStatement → StepLivenessFacts →
    StepLivenessFacts
  | .wait wait, facts => { facts with waits := facts.waits ++ [wait_to_text wait] }
  | .timeout _, facts => { facts with has_timeout := true }
  | .allowIndefiniteWait value, facts =>
    if value then { facts with has_allow_indefinite_wait := true } else facts
  | .parallel (.mk branches), facts => collect_liveness_par branches facts
  | .race (.mk branches), facts => collect_liveness_race branches facts
  | .action _, facts => facts
  | .goto _, facts => facts

def collect_liveness_par :
    List Branch → StepLivenessFacts → StepLivenessFacts
  | [], facts => facts
  | .mk statements :: rest, facts =>
    collect_liveness_par rest (collect_step_liveness_facts statements facts)

def collect_liveness_race :
    List RaceBranch → StepLivenessFacts → StepLivenessFacts
  | [], facts => facts
  | .mk statements _ :: rest, facts =>
    collect_liveness_race rest (collect_step_liveness_facts statements facts)

end

/-- The diagnostic built for one offending wait in
`check_wait_timeout_or_allow`. -/
def mkWaitDiagnostic (task : TaskDeclaration) (step : StepDeclaration)
    (wait : String) : LivenessDiagnostic :=
  { line := max step.line 1,
    reason := "task " ++ task.name ++ "." ++ step.name ++ " 的 wait 条件 `" ++
      wait ++ "` 缺少 timeout 分支，且未设置 allow_indefinite_wait",
    physical_analysis :=
      "若传感器信号长期不满足（线路故障/执行器卡滞/设备离线），控制逻辑会永久停留在该等待点",
    suggestion :=
      "请为该 step 添加 `timeout: <时长> -> goto <恢复 task>`，或在人工等待场景显式设置 `allow_indefinite_wait: true`" }

/-- The per-step body of `check_wait_timeout_or_allow`. -/
def stepWaitDiagnostics (task : TaskDeclaration) (step : StepDeclaration) :
    List LivenessDiagnostic :=
  let facts := collect_step_liveness_facts step.statements {}
  if facts.waits.isEmpty || facts.has_timeout ||
      facts.has_allow_indefinite_wait then
    []
  else
    facts.waits.map (mkWaitDiagnostic task step)

/-- `check_wait_timeout_or_allow`: the diagnostics appended by the check,
in emission order. -/
def check_wait_timeout_or_allow (program : PlcProgram) :
    List LivenessDiagnostic :=
  program.tasks.tasks.foldl
    (fun diagnostics task =>
      task.steps.foldl
        (fun diagnostics step => diagnostics ++ stepWaitDiagnostics task step)
        diagnostics)
    []

/-! ## Timing verifier (`crates/rustplc_compiler/src/verification/timing.rs`) -/

structure TimingDiagnostic where
  line : Nat
  constraint : String
  analysis : String
  conclusion : String
  deriving DecidableEq

structure StepTimingEstimate where
  action_max_ms : Nat := 0
  timeout_max_ms : Nat := 0
  worst_case_ms : Nat := 0
  action_details : List String := []
  deriving DecidableEq

/-- `TimingContext`: device timing profiles plus the reverse adjacency of
the topology graph (`A connected_to B` lowers to `B -> A`). -/
structure TimingContext where
  profiles : List (String × DeviceTimingProfile) := []
  upstream_by_target : List (String × List String) := []
  deriving DecidableEq

/-- `HashMap::entry(..).or_default().push(..)`. -/
def alPush {K : Type} [DecidableEq K] (m : List (K × List String)) (k : K)
    (v : String) : List (K × List String) :=
  match alFind? m k with
  | some vs => alInsert m k (vs ++ [v])
  | none => alInsert m k [v]

/-- `TimingContext::from_inputs`. -/
def TimingContext.from_inputs (program : PlcProgram)
    (topology : TopologyGraph) : TimingContext :=
  let profiles :=
    program.topology.devices.foldl
      (fun m device =>
        alInsert m device.name
          (⟨device.attributes.response_time.map duration_value_to_ms,
            device.attributes.stroke_time.map duration_value_to_ms,
            device.attributes.retract_time.map duration_value_to_ms,
            device.attributes.ramp_time.map duration_value_to_ms⟩ :
            DeviceTimingProfile))
      []
  let upstream_by_target :=
    topology.edges.foldl
      (fun m edge =>
        match topology.nodes.get? edge.src, topology.nodes.get? edge.tgt with
        | some source, some target => alPush m target.name source.name
        | _, _ => m)
      []
  ⟨profiles, upstream_by_target⟩

/-- `TimingContext::max_upstream_response_ms`: DFS along the reverse
adjacency, marking the current path in `visited`.  The `fuel` bounds the
path length (any fuel larger than the device count reproduces the source
exactly, since paths never revisit a device). -/
def max_upstream_response_ms (fuel : Nat) (ctx : TimingContext)
    (target : String) (visited : List String) : Nat :=
  match fuel with
  | 0 => 0
  | fuel + 1 =>
    if target ∈ visited then 0
    else
      let visited := visited ++ [target]
      match alFind? ctx.upstream_by_target target with
      | none => 0
      | some upstream_nodes =>
        upstream_nodes.foldl
          (fun best upstream =>
            let own_response :=
              ((alFind? ctx.profiles upstream).bind
                (fun p => p.response_ms)).getD 0
            let chain_response :=
              max_upstream_response_ms fuel ctx upstream visited
            max best (satAdd own_response chain_response))
          0

/-- `binary_value_text`. -/
def binary_value_text : BinaryValueAst → String
  | .on => "on"
  | .off => "off"

/-- `TimingContext::action_duration_ms`. -/
def action_duration_ms (fuel : Nat) (ctx : TimingContext)
    (action : ActionStatement) : Option (String × Nat) :=
  let own? : Option (String × String × Nat) :=
    match action with
    | .extend target =>
      (alFind? ctx.profiles target).bind (fun profile =>
        ((profile.stroke_ms.or profile.response_ms).or profile.ramp_ms).map
          (fun own => (target, "extend " ++ target, own)))
    | .retract target =>
      (alFind? ctx.profiles target).bind (fun profile =>
        ((profile.retract_ms.or profile.response_ms).or profile.ramp_ms).map
          (fun own => (target, "retract " ++ target, own)))
    | .set target value =>
      (alFind? ctx.profiles target).bind (fun profile =>
        (profile.ramp_ms.or profile.response_ms).map
          (fun own => (target, "set " ++ target ++ " " ++
            binary_value_text value, own)))
    | .log _ => none
  own?.map (fun own =>
    let target := own.1
    let action_name := own.2.1
    let own_duration_ms := own.2.2
    let upstream_response_ms := max_upstream_response_ms fuel ctx target []
    let total_ms := satAdd own_duration_ms upstream_response_ms
    let detail :=
      if upstream_response_ms > 0 then
        action_name ++ " = 动作本体 " ++ toString own_duration_ms ++
          "ms + 上游 response_time " ++ toString upstream_response_ms ++
          "ms = " ++ toString total_ms ++ "ms"
      else
        action_name ++ " = " ++ toString total_ms ++ "ms"
    (detail, total_ms))

mutual

/-- `max_timeout_ms`: the maximum timeout duration in the statement tree. -/
def max_timeout_ms : List StepStatement → Nat
  | [] => 0
  | statement :: rest => max (max_timeout_one statement) (max_timeout_ms rest)

def max_timeout_one : StepStatement → Nat
  | .timeout timeout => duration_value_to_ms timeout.duration
  | .parallel (.mk branches) => max_timeout_par branches
  | .race (.mk branches) => max_timeout_race branches
  | .action _ => 0
  | .wait _ => 0
  | .goto _ => 0
  | .allowIndefiniteWait _ => 0

def max_timeout_par : List Branch → Nat
  | [] => 0
  | .mk statements :: rest =>
    max (max_timeout_ms statements) (max_timeout_par rest)

def max_timeout_race : List RaceBranch → Nat
  | [] => 0
  | .mk statements _ :: rest =>
    max (max_timeout_ms statements) (max_timeout_race rest)

end

/-- `step_key`. -/
def step_key (task step : String) : String := task ++ "." ++ step

/-- `build_step_estimates`. -/
def build_step_estimates (fuel : Nat) (program : PlcProgram)
    (context : TimingContext) : List (String × StepTimingEstimate) :=
  program.tasks.tasks.foldl
    (fun estimates task =>
      task.steps.foldl
        (fun estimates step =>
          let actions := collect_actions step.statements
          let folded :=
            actions.foldl
              (fun (st : Nat × List String) action =>
                match action_duration_ms fuel context action with
                | some (detail, duration_ms) =>
                  (max st.1 duration_ms, st.2 ++ [detail])
                | none => st)
              (0, [])
          let action_max_ms := folded.1
          let timeout_max_ms := max_timeout_ms step.statements
          let worst_case_ms := max action_max_ms timeout_max_ms
          alInsert estimates (step_key task.name step.name)
            ⟨action_max_ms, timeout_max_ms, worst_case_ms, folded.2⟩)
        estimates)
    []

/-- `build_task_worst_case`. -/
def build_task_worst_case (program : PlcProgram)
    (step_estimates : List (String × StepTimingEstimate)) :
    List (String × Nat) :=
  program.tasks.tasks.foldl
    (fun task_worst_case task =>
      let total :=
        task.steps.foldl
          (fun acc step =>
            satAdd acc
              (((alFind? step_estimates (step_key task.name step.name)).map
                (fun e => e.worst_case_ms)).getD 0))
          0
      alInsert task_worst_case task.name total)
    []

/-- `initial_step_for_task`. -/
def initial_step_for_task (program : PlcProgram) (task_name : String) :
    Option String :=
  ((program.tasks.tasks.find? (fun task => task.name = task_name)).bind
    (fun task => task.steps.head?)).map (fun step => step.name)

/-- `transition_guard_min_interval_ms`. -/
def transition_guard_min_interval_ms : TransitionGuard → Nat
  | .timeout duration_ms => duration_ms
  | .always => 0
  | .condition _ => 0

/-- `transition_guard_name`. -/
def transition_guard_name : TransitionGuard → String
  | .always => "always"
  | .condition expression => "condition(" ++ expression ++ ")"
  | .timeout duration_ms => "timeout(" ++ toString duration_ms ++ "ms)"

/-- The scope-resolution step of `shortest_predecessor_interval_ms`: a
task scope resolves to its first step, a step scope to itself. -/
def scope_target_state (scope : TimingScope) (program : PlcProgram) :
    Option (String × String) :=
  match scope with
  | .task task =>
    match initial_step_for_task program task with
    | none => none
    | some step => some (task, step)
  | .step task step => some (task, step)

/-- The transition scan of `shortest_predecessor_interval_ms`: keep the
(first) transition into the target state whose guard has the smallest
minimum interval. -/
def best_predecessor (target_task target_step : String)
    (transitions : List Transition) (best0 : Option (Nat × String)) :
    Option (Nat × String) :=
  transitions.foldl
    (fun (best : Option (Nat × String)) transition =>
      if transition.to_.task_name = target_task ∧
          transition.to_.step_name = target_step then
        let interval_ms := transition_guard_min_interval_ms transition.guard
        let detail := transition.from_.task_name ++ "." ++
          transition.from_.step_name ++ ", guard=" ++
          transition_guard_name transition.guard ++ " -> " ++
          transition.to_.task_name ++ "." ++ transition.to_.step_name
        let replace : Bool := match best with
          | some b => decide (interval_ms < b.1)
          | none => true
        if replace then some (interval_ms, detail) else best
      else best)
    best0

/-- `shortest_predecessor_interval_ms`. -/
def shortest_predecessor_interval_ms (scope : TimingScope)
    (program : PlcProgram) (state_machine : StateMachine) : Nat × String :=
  let resolved := scope_target_state scope program
  match scope, resolved with
  | .task task, none =>
    (0, "未找到 task " ++ task ++ " 的初始 step，按 0ms 处理")
  | _, none => (0, "未找到前驱转移，按 0ms 处理")
  | _, some (target_task, target_step) =>
    let best := best_predecessor target_task target_step
      state_machine.transitions none
    match best with
    | some result => result
    | none =>
      if state_machine.initial.task_name = target_task ∧
          state_machine.initial.step_name = target_step then
        (0, "目标是状态机初始状态，无前驱延迟")
      else
        (0, "未找到前驱转移，按 0ms 处理")

/-- `format_scope`. -/
def format_scope : TimingScope → String
  | .task task => "task." ++ task
  | .step task step => "task." ++ task ++ "." ++ step

/-- `format_relation`. -/
def format_relation : TimingRelation → String
  | .mustCompleteWithin => "must_complete_within"
  | .mustStartAfter => "must_start_after"

/-- `format_timing_constraint`. -/
def format_timing_constraint (rule : TimingRule) : String :=
  format_scope rule.scope ++ " " ++ format_relation rule.relation ++ " " ++
    toString rule.duration_ms ++ "ms"

/-- `timing_constraint_line`. -/
def timing_constraint_line (program : PlcProgram) (index : Nat) : Nat :=
  ((program.constraints.timing.get? index).map
    (fun constraint => max constraint.line 1)).getD 1

/-- The loop body of `verify_timing` for one timing rule. -/
def timing_rule_diagnostics (program : PlcProgram)
    (step_estimates : List (String × StepTimingEstimate))
    (task_worst_case : List (String × Nat)) (state_machine : StateMachine)
    (index : Nat) (rule : TimingRule) : List TimingDiagnostic :=
  let line := timing_constraint_line program index
  let constraint_text := format_timing_constraint rule
  match rule.relation with
  | .mustCompleteWithin =>
    let observedAnalysis : Nat × String :=
      match rule.scope with
      | .task task =>
        let observed := ((alFind? task_worst_case task)).getD 0
        (observed, "task " ++ task ++ " 的最坏关键路径时间 = " ++
          toString observed ++ "ms（顺序 step 累加）")
      | .step task step =>
        let estimate :=
          ((alFind? step_estimates (step_key task step))).getD {}
        let analysis := "step " ++ task ++ "." ++ step ++
          " 的最坏关键路径时间 = " ++ toString estimate.worst_case_ms ++
          "ms（同 step 动作并行取最大值 " ++ toString estimate.action_max_ms ++
          "ms，timeout 上界 " ++ toString estimate.timeout_max_ms ++ "ms）"
        let analysis :=
          if estimate.action_details.isEmpty then analysis
          else analysis ++ "；动作明细: " ++
            String.intercalate "；" estimate.action_details
        (estimate.worst_case_ms, analysis)
    if observedAnalysis.1 > rule.duration_ms then
      [⟨line, constraint_text, observedAnalysis.2,
        "最坏情况下无法在 " ++ toString rule.duration_ms ++
          "ms 内完成，当前关键路径为 " ++ toString observedAnalysis.1 ++ "ms"⟩]
    else []
  | .mustStartAfter =>
    let intervalDetail :=
      shortest_predecessor_interval_ms rule.scope program state_machine
    if intervalDetail.1 < rule.duration_ms then
      [⟨line, constraint_text,
        "前驱结束到当前开始的最短间隔 = " ++ toString intervalDetail.1 ++
          "ms（" ++ intervalDetail.2 ++ "）",
        "无法保证 " ++ format_scope rule.scope ++ " 在 " ++
          toString rule.duration_ms ++ "ms 后才开始，当前最短间隔为 " ++
          toString intervalDetail.1 ++ "ms"⟩]
    else []

/-- `verify_timing`: the diagnostics produced, in emission order (the Rust
function returns `Ok(())` exactly when this list is empty). -/
def verify_timing (fuel : Nat) (program : PlcProgram)
    (topology : TopologyGraph) (constraints : ConstraintSet)
    (state_machine : StateMachine) : List TimingDiagnostic :=
  let context := TimingContext.from_inputs program topology
  let step_estimates := build_step_estimates fuel program context
  let task_worst_case := build_task_worst_case program step_estimates
  constraints.timing.enum.foldl
    (fun diagnostics (p : Nat × TimingRule) =>
      diagnostics ++ timing_rule_diagnostics program step_estimates
        task_worst_case state_machine p.1 p.2)
    []

/-! ## Safety verifier (`crates/rustplc_compiler/src/verification/safety.rs`) -/

/-- Char-list prefix test (kernel-computable replacement for the string
primitives used by `str::contains` / `str::ends_with`). -/
def prefixOfCL : List Char → List Char → Bool
  | [], _ => true
  | _ :: _, [] => false
  | a :: as, b :: bs => a = b && prefixOfCL as bs

/-- Char-list substring test. -/
def containsCL : List Char → List Char → Bool
  | _, [] => true
  | [], _ :: _ => false
  | h :: t, s :: ss => prefixOfCL (s :: ss) (h :: t) || containsCL t (s :: ss)

/-- `str::contains` (substring). -/
def strContains (s sub : String) : Bool := containsCL s.data sub.data

/-- `str::ends_with`. -/
def strEndsWith (s suffix : String) : Bool :=
  prefixOfCL suffix.data.reverse s.data.reverse

structure SafetyConfig where
  bmc_max_depth : Option Nat := none
  deriving DecidableEq

inductive SafetyProofLevel where
  | complete
  | bounded
  deriving DecidableEq

structure SafetyReport where
  level : SafetyProofLevel
  explored_depth : Nat
  warnings : List String
  deriving DecidableEq

structure SafetyDiagnostic where
  line : Nat
  constraint : String
  violation_path : List String
  suggestion : String
  deriving DecidableEq

structure DeviceDomain where
  name : String
  states : List String
  default_state : Nat
  deriving DecidableEq

structure ModelEdge where
  from_ : Nat
  to_ : Nat
  effects : List (Nat × Nat)
  label : String
  deriving DecidableEq

def defaultModelEdge : ModelEdge := ⟨0, 0, [], ""⟩

structure SafetyModel where
  states : List State
  initial_state : Nat
  edges : List ModelEdge
  outgoing : List (List Nat)
  devices : List DeviceDomain
  device_index : List (String × Nat)
  device_state_index : List (List (String × Nat))
  suggested_depth : Nat
  max_scc_depth : Nat
  deriving DecidableEq

structure RuleBinding where
  left_device : Nat
  left_state : Nat
  right_device : Nat
  right_state : Nat
  deriving DecidableEq

structure DepthPlan where
  effective_depth : Nat
  warnings : List String
  truncated : Bool
  deriving DecidableEq

structure ConcreteState where
  control_state : Nat
  device_states : List Nat
  deriving DecidableEq

structure SearchNode where
  state : ConcreteState
  depth : Nat
  parent : Option Nat
  via_edge : Option Nat
  deriving DecidableEq

def defaultSearchNode : SearchNode := ⟨⟨0, []⟩, 0, none, none⟩

structure Counterexample where
  path : List String
  deriving DecidableEq

structure SearchOutcome where
  counterexample : Option Counterexample
  fully_explored : Bool
  deriving DecidableEq

/-- `ensure_device_state`. -/
def ensure_device_state (domain : DeviceDomain) (state_name : String) :
    DeviceDomain :=
  if domain.states.any (fun state => state = state_name) then domain
  else { domain with states := domain.states ++ [state_name] }

/-- Apply `ensure_device_state` at an index of the domain list. -/
def ensureDeviceStateAt (devices : List DeviceDomain) (index : Nat)
    (state_name : String) : List DeviceDomain :=
  match devices.get? index with
  | some domain => devices.set index (ensure_device_state domain state_name)
  | none => devices

/-- `collect_device_domains`. -/
def collect_device_domains (program : PlcProgram)
    (constraints : ConstraintSet) :
    List DeviceDomain × List (String × Nat) × List (List (String × Nat)) :=
  let base :=
    program.topology.devices.foldl
      (fun (st : List DeviceDomain × List (String × Nat)) device =>
        let (devices, device_index) := st
        let states : List String :=
          match device.device_type with
          | .cylinder => ["extended", "retracted"]
          | _ => ["on", "off"]
        let default_state_name : String :=
          match device.device_type with
          | .cylinder => "retracted"
          | _ => "off"
        let default_state :=
          (states.findIdx? (fun state => state = default_state_name)).getD 0
        let index := devices.length
        (devices ++ [⟨device.name, states, default_state⟩],
         alInsert device_index device.name index))
      ([], [])
  let devices := base.1
  let device_index := base.2
  let devices :=
    constraints.safety.foldl
      (fun devices rule =>
        match alFind? device_index rule.left.device with
        | none => devices
        | some left_device =>
          let devices := ensureDeviceStateAt devices left_device
            rule.left.state
          match alFind? device_index rule.right.device with
          | none => devices
          | some right_device =>
            ensureDeviceStateAt devices right_device rule.right.state)
      devices
  let state_index :=
    devices.map
      (fun domain =>
        domain.states.enum.foldl
          (fun (m : List (String × Nat)) p => alInsert m p.2 p.1) [])
  (devices, device_index, state_index)

/-- `action_effect`. -/
def action_effect : TransitionAction → Option (String × String)
  | .extend target => some (target, "extended")
  | .retract target => some (target, "retracted")
  | .set target value =>
    some (target, match value with | .on => "on" | .off => "off")
  | .log _ => none

/-- `transition_effects`. -/
def transition_effects (transition : Transition)
    (device_index : List (String × Nat))
    (device_state_index : List (List (String × Nat))) : List (Nat × Nat) :=
  transition.actions.foldl
    (fun effects action =>
      match action_effect action with
      | none => effects
      | some (target_device, target_state) =>
        match alFind? device_index target_device with
        | none => effects
        | some device_id =>
          match alFind? (device_state_index.getD device_id []) target_state
            with
          | none => effects
          | some state_id => alInsert effects device_id state_id)
    []

/-- `guard_name`. -/
def guard_name : TransitionGuard → String
  | .always => "always"
  | .condition _ => "condition"
  | .timeout _ => "timeout"

/-- `action_name`. -/
def action_name : TransitionAction → Option String
  | .extend target => some ("extend " ++ target)
  | .retract target => some ("retract " ++ target)
  | .set target value =>
    some ("set " ++ target ++ " " ++
      (match value with | .on => "on" | .off => "off"))
  | .log message => some ("log \"" ++ message ++ "\"")

/-- `transition_label`. -/
def transition_label (transition : Transition) : String :=
  let guard := guard_name transition.guard
  let action_text := transition.actions.filterMap action_name
  if action_text.isEmpty then guard
  else guard ++ "；动作: " ++ String.intercalate ", " action_text

/-- `is_parallel_branch_state`. -/
def is_parallel_branch_state : Option State → Bool
  | some state =>
    strContains state.step_name "__parallel_" &&
      strContains state.step_name "_branch_"
  | none => false

/-- `is_parallel_join_state`. -/
def is_parallel_join_state : Option State → Bool
  | some state =>
    strContains state.step_name "__parallel_" &&
      strEndsWith state.step_name "_join"
  | none => false

/-- `merge_parallel_join_effects`. -/
def merge_parallel_join_effects (states : List State)
    (edges : List ModelEdge) : List ModelEdge :=
  let join_effects : List (Nat × List (Nat × Nat)) :=
    edges.foldl
      (fun join_effects edge =>
        if is_parallel_branch_state (states.get? edge.from_) &&
            is_parallel_join_state (states.get? edge.to_) then
          let merged := (alFind? join_effects edge.to_).getD []
          let merged :=
            edge.effects.foldl
              (fun (m : List (Nat × Nat)) p => alInsert m p.1 p.2) merged
          alInsert join_effects edge.to_ merged
        else join_effects)
      []
  edges.map
    (fun edge =>
      if is_parallel_branch_state (states.get? edge.from_) &&
          is_parallel_join_state (states.get? edge.to_) then
        match alFind? join_effects edge.to_ with
        | some merged => { edge with effects := merged }
        | none => edge
      else edge)

/-- One expansion step of ≥0-length reachability along the filtered edge
list. -/
def reachExpand (edges : List (Nat × Nat)) (cur : List Nat) : List Nat :=
  edges.foldl
    (fun cur e => if e.1 ∈ cur ∧ ¬ e.2 ∈ cur then cur ++ [e.2] else cur)
    cur

/-- Nodes reachable from `i` (including `i`) after `n` expansion rounds;
`n` rounds reach a fixpoint on a graph with `n` nodes. -/
def reachSet (n : Nat) (edges : List (Nat × Nat)) (i : Nat) : List Nat :=
  Nat.rec [i] (fun _ cur => reachExpand edges cur) n

/-- Reachability (length ≥ 0) used to characterise the strongly connected
components computed by petgraph's `kosaraju_scc` (external library code,
embedded by its mathematical contract). -/
def reachB (n : Nat) (edges : List (Nat × Nat)) (i j : Nat) : Bool :=
  j ∈ reachSet n edges i

/-- The strongly connected component of node `i`. -/
def sccOf (n : Nat) (edges : List (Nat × Nat)) (i : Nat) : List Nat :=
  (List.range n).filter
    (fun j => reachB n edges i j && reachB n edges j i)

/-- `scc_minimum_depth`: `max(|SCC| + 1)` over the SCCs that contain a
cycle (size > 1, or a self-loop on a singleton), `0` when there is none.
Edges with an endpoint out of range are skipped, as in the source. -/
def scc_minimum_depth (state_count : Nat) (edges : List ModelEdge) : Nat :=
  if state_count = 0 then 1
  else
    let filtered :=
      (edges.filter
        (fun edge => edge.from_ < state_count && edge.to_ < state_count)).map
        (fun edge => (edge.from_, edge.to_))
    (List.range state_count).foldl
      (fun depth_requirement i =>
        let component := sccOf state_count filtered i
        let has_cycle := component.length > 1 ||
          filtered.any (fun e => e.1 = i && e.2 = i)
        if has_cycle then max depth_requirement (component.length + 1)
        else depth_requirement)
      0

/-- Append a value to the inner list at `index`. -/
def pushAt (outgoing : List (List Nat)) (index value : Nat) :
    List (List Nat) :=
  match outgoing.get? index with
  | some inner => outgoing.set index (inner ++ [value])
  | none => outgoing

/-- `SafetyModel::from_inputs`. -/
def SafetyModel.from_inputs (program : PlcProgram)
    (constraints : ConstraintSet) (state_machine : StateMachine) :
    SafetyModel :=
  let states :=
    if state_machine.states.isEmpty then
      state_machine.states ++ [state_machine.initial]
    else state_machine.states
  let state_index : List ((String × String) × Nat) :=
    states.enum.foldl
      (fun m p => alInsert m (p.2.task_name, p.2.step_name) p.1) []
  let initial_state :=
    (alFind? state_index
      (state_machine.initial.task_name, state_machine.initial.step_name)).getD
      0
  let domains := collect_device_domains program constraints
  let devices := domains.1
  let device_index := domains.2.1
  let device_state_index := domains.2.2
  let edgesOutgoing :=
    state_machine.transitions.foldl
      (fun (st : List ModelEdge × List (List Nat)) transition =>
        let (edges, outgoing) := st
        match alFind? state_index
            (transition.from_.task_name, transition.from_.step_name) with
        | none => st
        | some from_ =>
          match alFind? state_index
              (transition.to_.task_name, transition.to_.step_name) with
          | none => st
          | some to_ =>
            let effects :=
              transition_effects transition device_index device_state_index
            let edge_index := edges.length
            (edges ++ [⟨from_, to_, effects, transition_label transition⟩],
             pushAt outgoing from_ edge_index))
      ([], List.replicate states.length [])
  let edgesOutgoing :=
    (List.range states.length).foldl
      (fun (st : List ModelEdge × List (List Nat)) state_id =>
        let (edges, outgoing) := st
        if (outgoing.getD state_id []).isEmpty then
          let edge_index := edges.length
          (edges ++ [⟨state_id, state_id, [], "无出边，保持当前状态"⟩],
           pushAt outgoing state_id edge_index)
        else st)
      edgesOutgoing
  let edges := merge_parallel_join_effects states edgesOutgoing.1
  let outgoing := edgesOutgoing.2
  let max_scc_depth := scc_minimum_depth states.length edges
  let suggested_depth := max (max states.length max_scc_depth) 1
  ⟨states, initial_state, edges, outgoing, devices, device_index,
    device_state_index, suggested_depth, max_scc_depth⟩

/-- The truncation warning naming the SCC floor. -/
def scc_truncation_warning (user_limit max_scc_depth : Nat) : String :=
  "WARNING: bmc_max_depth=" ++ toString user_limit ++
    " 小于 SCC 建议深度 " ++ toString max_scc_depth ++
    "，Safety 搜索将截断至 " ++ toString user_limit ++ "（有界验证）"

/-- The truncation warning naming the overall target depth. -/
def target_truncation_warning (user_limit target_depth : Nat) : String :=
  "WARNING: bmc_max_depth=" ++ toString user_limit ++
    " 小于建议展开深度 " ++ toString target_depth ++
    "，Safety 搜索将截断至 " ++ toString user_limit ++ "（有界验证）"

/-- `build_depth_plan`. -/
def build_depth_plan (model : SafetyModel) (config : SafetyConfig) :
    DepthPlan :=
  let target_depth := model.suggested_depth
  let planned : Nat × List String × Bool :=
    match config.bmc_max_depth with
    | some user_limit =>
      if user_limit < target_depth then
        let reason :=
          if model.max_scc_depth > 0 ∧ user_limit < model.max_scc_depth then
            scc_truncation_warning user_limit model.max_scc_depth
          else
            target_truncation_warning user_limit target_depth
        (user_limit, [reason], true)
      else (user_limit, [], false)
    | none => (target_depth, [], false)
  ⟨max planned.1 1, planned.2.1, planned.2.2⟩

/-- `bind_rule`. -/
def bind_rule (model : SafetyModel) (left_device left_state : String)
    (right_device right_state : String) : Option RuleBinding :=
  match alFind? model.device_index left_device with
  | none => none
  | some left_device_id =>
    match alFind? model.device_index right_device with
    | none => none
    | some right_device_id =>
      match alFind? (model.device_state_index.getD left_device_id [])
          left_state with
      | none => none
      | some left_state_id =>
        match alFind? (model.device_state_index.getD right_device_id [])
            right_state with
        | none => none
        | some right_state_id =>
          some ⟨left_device_id, left_state_id, right_device_id,
            right_state_id⟩

/-- `initial_concrete_state`. -/
def initial_concrete_state (model : SafetyModel) : ConcreteState :=
  ⟨model.initial_state, model.devices.map (fun device => device.default_state)⟩

/-- `apply_edge`. -/
def apply_edge (edge : ModelEdge) (current : ConcreteState) : ConcreteState :=
  let device_states :=
    edge.effects.foldl
      (fun (device_states : List Nat) (p : Nat × Nat) =>
        if p.1 < device_states.length then device_states.set p.1 p.2
        else device_states)
      current.device_states
  ⟨edge.to_, device_states⟩

/-- `conflicts`: both sides of the rule hold in the device vector. -/
def conflictsRule (state : ConcreteState) (rule : RuleBinding) : Prop :=
  state.device_states.get? rule.left_device = some rule.left_state ∧
    state.device_states.get? rule.right_device = some rule.right_state

instance (state : ConcreteState) (rule : RuleBinding) :
    Decidable (conflictsRule state rule) := by
  unfold conflictsRule; infer_instance

/-- `state_name`. -/
def state_name (state : State) : String :=
  state.task_name ++ "." ++ state.step_name

/-- The parent chain of `render_path` (root first after reversal); the
parent pointer of a node always references an earlier node, so
`nodes.length` bounds the chain. -/
def ancestorChain (nodes : List SearchNode) : Nat → Nat → List Nat
  | 0, _ => []
  | fuel + 1, node_id =>
    node_id ::
      (match (nodes.getD node_id defaultSearchNode).parent with
       | some parent => ancestorChain nodes fuel parent
       | none => [])

/-- `render_path`. -/
def render_path (model : SafetyModel) (nodes : List SearchNode)
    (terminal_node : Nat) (rule : RuleBinding) : List String :=
  let order := (ancestorChain nodes nodes.length terminal_node).reverse
  let head_id := order.headD 0
  let initial := (nodes.getD head_id defaultSearchNode).state
  let first_line :=
    "初始状态 " ++
      state_name ((model.states.getD initial.control_state ⟨"", ""⟩))
  let step_lines :=
    (order.zip order.tail).map
      (fun (w : Nat × Nat) =>
        let from_ := (nodes.getD w.1 defaultSearchNode).state
        let to_node := nodes.getD w.2 defaultSearchNode
        let to_ := to_node.state
        let edge_id :=
          to_node.via_edge.getD
            (((model.outgoing.getD from_.control_state []).head?).getD 0)
        let edge := model.edges.getD edge_id defaultModelEdge
        let from_name :=
          state_name (model.states.getD from_.control_state ⟨"", ""⟩)
        let to_name :=
          state_name (model.states.getD to_.control_state ⟨"", ""⟩)
        from_name ++ " --[" ++ edge.label ++ "]--> " ++ to_name)
  let conflict_state := (nodes.getD terminal_node defaultSearchNode).state
  let conflict_state_name :=
    state_name (model.states.getD conflict_state.control_state ⟨"", ""⟩)
  let left_domain := model.devices.getD rule.left_device ⟨"", [], 0⟩
  let right_domain := model.devices.getD rule.right_device ⟨"", [], 0⟩
  (first_line :: step_lines) ++
    ["在 " ++ conflict_state_name ++ " 检测到冲突：" ++ left_domain.name ++
      "." ++ (left_domain.states.getD rule.left_state "") ++ " 与 " ++
      right_domain.name ++ "." ++
      (right_domain.states.getD rule.right_state "") ++ " 同时为真"]

/-- One frontier check of the BFS at maximum depth: keep the
`fully_explored` flag only when the candidate successor has already been
recorded. -/
def bfsFrontierCheck (model : SafetyModel)
    (sd : List (ConcreteState × Nat)) (node : SearchNode) (fe : Bool)
    (edge_id : Nat) : Bool :=
  let edge := model.edges.getD edge_id defaultModelEdge
  let candidate := apply_edge edge node.state
  if alContains sd candidate then fe else false

/-- One expansion step of the BFS below maximum depth: skip successors
already recorded at an equal-or-smaller depth, otherwise record them and
enqueue a fresh node. -/
def bfsExpandStep (model : SafetyModel) (node : SearchNode)
    (node_id : Nat)
    (st : List SearchNode × List Nat × List (ConcreteState × Nat))
    (edge_id : Nat) :
    List SearchNode × List Nat × List (ConcreteState × Nat) :=
  let edge := model.edges.getD edge_id defaultModelEdge
  let next_state := apply_edge edge node.state
  let next_depth := node.depth + 1
  if (alFind? st.2.2 next_state).any (fun depth => depth ≤ next_depth) then
    st
  else
    (st.1 ++ [⟨next_state, next_depth, some node_id, some edge_id⟩],
     st.2.1 ++ [st.1.length], alInsert st.2.2 next_state next_depth)

/-- The BFS worklist loop of `analyze_rule`.  `fuel` bounds the number of
loop iterations; `none` marks fuel exhaustion (the caller treats it as a
non-fully-explored outcome, which can only make the verdict more
conservative). -/
def bfsLoop (model : SafetyModel) (rule : RuleBinding) (max_depth : Nat) :
    Nat → List SearchNode → List Nat → List (ConcreteState × Nat) → Bool →
    Option SearchOutcome
  | 0, _, _, _, _ => none
  | _ + 1, _, [], _, fully_explored => some ⟨none, fully_explored⟩
  | fuel + 1, nodes, node_id :: queue, shortest_depth, fully_explored =>
    let node := nodes.getD node_id defaultSearchNode
    if conflictsRule node.state rule then
      some ⟨some ⟨render_path model nodes node_id rule⟩, fully_explored⟩
    else
      let outgoing := model.outgoing.getD node.state.control_state []
      if node.depth = max_depth then
        bfsLoop model rule max_depth fuel nodes queue shortest_depth
          (outgoing.foldl (bfsFrontierCheck model shortest_depth node)
            fully_explored)
      else
        let st :=
          outgoing.foldl (bfsExpandStep model node node_id)
            (nodes, queue, shortest_depth)
        bfsLoop model rule max_depth fuel st.1 st.2.1 st.2.2 fully_explored

/-- `analyze_rule` (fuel-bounded; exhaustion degrades to a
not-fully-explored outcome). -/
def analyze_rule (fuel : Nat) (model : SafetyModel) (rule : RuleBinding)
    (max_depth : Nat) : SearchOutcome :=
  let initial_state := initial_concrete_state model
  (bfsLoop model rule max_depth fuel [⟨initial_state, 0, none, none⟩] [0]
    [(initial_state, 0)] true).getD ⟨none, false⟩

/-- `state_expr_text`. -/
def state_expr_text (device state : String) : String :=
  device ++ "." ++ state

/-- One rule of the `verify_safety_with_config` loop: check a
`conflicts_with` rule that binds, accumulating diagnostics, the
all-complete flag, and the checked-rule count. -/
def safetyRuleStep (fuel : Nat) (model : SafetyModel)
    (program : PlcProgram) (effective_depth : Nat)
    (st : List SafetyDiagnostic × Bool × Nat) (p : Nat × SafetyRule) :
    List SafetyDiagnostic × Bool × Nat :=
  if p.2.relation ≠ .conflictsWith then st
  else
    match bind_rule model p.2.left.device p.2.left.state
        p.2.right.device p.2.right.state with
    | none => st
    | some binding =>
      let rule_text := p.2.left.device ++ "." ++ p.2.left.state ++
        " conflicts_with " ++ p.2.right.device ++ "." ++ p.2.right.state
      let line :=
        (((program.constraints.safety.get? p.1)).map
          (fun node => max node.line 1)).getD 1
      let outcome := analyze_rule fuel model binding effective_depth
      match outcome.counterexample with
      | some counterexample =>
        (st.1 ++ [⟨line, rule_text, counterexample.path,
          "请在触发 " ++
            state_expr_text p.2.right.device p.2.right.state ++
            " 之前确保 " ++
            state_expr_text p.2.left.device p.2.left.state ++
            " 已复位，或调整并行/跳转逻辑避免两者同时成立"⟩],
         st.2.1, st.2.2 + 1)
      | none =>
        if outcome.fully_explored then (st.1, st.2.1, st.2.2 + 1)
        else (st.1, false, st.2.2 + 1)

/-- `verify_safety_with_config`. -/
def verify_safety_with_config (fuel : Nat) (program : PlcProgram)
    (constraints : ConstraintSet) (state_machine : StateMachine)
    (config : SafetyConfig) :
    Except (List SafetyDiagnostic) SafetyReport :=
  let model := SafetyModel.from_inputs program constraints state_machine
  let depth_plan := build_depth_plan model config
  let loop :=
    constraints.safety.enum.foldl
      (safetyRuleStep fuel model program depth_plan.effective_depth)
      ([], true, 0)
  let diagnostics := loop.1
  let all_complete := if depth_plan.truncated then false else loop.2.1
  let checked_rules := loop.2.2
  if !diagnostics.isEmpty then .error diagnostics
  else
    let levelWarnings : SafetyProofLevel × List String :=
      if checked_rules = 0 ∨ all_complete then
        (.complete, depth_plan.warnings)
      else
        (.bounded, depth_plan.warnings ++
          ["WARNING: Safety 在深度 " ++ toString depth_plan.effective_depth ++
            " 内未发现反例，但未获得完备证明。建议增大 bmc_max_depth 以提升有界覆盖，或调整模型以帮助 k-induction 收敛"])
    .ok ⟨levelWarnings.1, depth_plan.effective_depth, levelWarnings.2⟩

/-- Reachability in the safety model: the initial concrete state, closed
under following any outgoing edge of the current control state (the
successor relation used by the BFS of `analyze_rule`). -/
inductive Reach (model : SafetyModel) : ConcreteState → Prop where
  | init : Reach model (initial_concrete_state model)
  | step {s : ConcreteState} {edge_id : Nat} :
      Reach model s →
      edge_id ∈ model.outgoing.getD s.control_state [] →
      Reach model (apply_edge (model.edges.getD edge_id defaultModelEdge) s)

/-- A concrete state is pending in the BFS worklist: some queued node id
refers to a stored node carrying it. -/
def Pending (nodes : List SearchNode) (queue : List Nat)
    (s : ConcreteState) : Prop :=
  ∃ nid, nid ∈ queue ∧ nid < nodes.length ∧
    (nodes.getD nid defaultSearchNode).state = s

/-- A concrete state has been processed by the BFS: it is conflict-free
and all its successors are recorded in `shortest_depth`. -/
def ProcessedB (model : SafetyModel) (rule : RuleBinding)
    (sd : List (ConcreteState × Nat)) (s : ConcreteState) : Prop :=
  ¬ conflictsRule s rule ∧
    ∀ eid ∈ model.outgoing.getD s.control_state [],
      apply_edge (model.edges.getD eid defaultModelEdge) s ∈
        sd.map Prod.fst

/-- The BFS loop invariant: the initial concrete state is recorded, and
every recorded state is pending or processed. -/
def BfsInv (model : SafetyModel) (rule : RuleBinding)
    (nodes : List SearchNode) (queue : List Nat)
    (sd : List (ConcreteState × Nat)) : Prop :=
  initial_concrete_state model ∈ sd.map Prod.fst ∧
    ∀ s ∈ sd.map Prod.fst,
      Pending nodes queue s ∨ ProcessedB model rule sd s

/-! ## Specification-level definitions

These definitions follow the wording of the specification (not the code);
the theorems below compare the embedded implementation against them. -/

mutual

/-- Spec 4.6(1): the wait expressions occurring anywhere in a statement
tree, in traversal order (rendered with `wait_to_text`). -/
def spec_wait_texts : List StepStatement → List String
  | [] => []
  | statement :: rest => spec_wait_texts_one statement ++ spec_wait_texts rest

def spec_wait_texts_one : StepStatement → List String
  | .wait wait => [wait_to_text wait]
  | .parallel (.mk branches) => spec_wait_texts_par branches
  | .race (.mk branches) => spec_wait_texts_race branches
  | .action _ => []
  | .timeout _ => []
  | .goto _ => []
  | .allowIndefiniteWait _ => []

def spec_wait_texts_par : List Branch → List String
  | [] => []
  | .mk statements :: rest =>
    spec_wait_texts statements ++ spec_wait_texts_par rest

def spec_wait_texts_race : List RaceBranch → List String
  | [] => []
  | .mk statements _ :: rest =>
    spec_wait_texts statements ++ spec_wait_texts_race rest

end

mutual

/-- Spec 4.6(1): the statement tree contains a timeout directive. -/
def spec_has_timeout : List StepStatement → Bool
  | [] => false
  | statement :: rest => spec_has_timeout_one statement || spec_has_timeout rest

def spec_has_timeout_one : StepStatement → Bool
  | .timeout _ => true
  | .parallel (.mk branches) => spec_has_timeout_par branches
  | .race (.mk branches) => spec_has_timeout_race branches
  | .action _ => false
  | .wait _ => false
  | .goto _ => false
  | .allowIndefiniteWait _ => false

def spec_has_timeout_par : List Branch → Bool
  | [] => false
  | .mk statements :: rest =>
    spec_has_timeout statements || spec_has_timeout_par rest

def spec_has_timeout_race : List RaceBranch → Bool
  | [] => false
  | .mk statements _ :: rest =>
    spec_has_timeout statements || spec_has_timeout_race rest

end

mutual

/-- Spec 4.6(1): the statement tree contains `allow_indefinite_wait: true`. -/
def spec_has_allow_true : List StepStatement → Bool
  | [] => false
  | statement :: rest =>
    spec_has_allow_true_one statement || spec_has_allow_true rest

def spec_has_allow_true_one : StepStatement → Bool
  | .allowIndefiniteWait value => value
  | .parallel (.mk branches) => spec_has_allow_true_par branches
  | .race (.mk branches) => spec_has_allow_true_race branches
  | .action _ => false
  | .wait _ => false
  | .goto _ => false
  | .timeout _ => false

def spec_has_allow_true_par : List Branch → Bool
  | [] => false
  | .mk statements :: rest =>
    spec_has_allow_true statements || spec_has_allow_true_par rest

def spec_has_allow_true_race : List RaceBranch → Bool
  | [] => false
  | .mk statements _ :: rest =>
    spec_has_allow_true statements || spec_has_allow_true_race rest

end

/-- Spec 4.7.3: the transitions whose target state is the given state. -/
def spec_predecessors (transitions : List Transition)
    (target_task target_step : String) : List Transition :=
  transitions.filter
    (fun transition => transition.to_.task_name = target_task ∧
      transition.to_.step_name = target_step)

/-- Spec 4.7.3: the minimum of the guards' minimum intervals over a
non-empty transition list (`0` for an empty one). -/
def spec_min_guard_interval (transitions : List Transition) : Nat :=
  match transitions.map
      (fun transition => transition_guard_min_interval_ms transition.guard)
    with
  | [] => 0
  | x :: xs => xs.foldl min x

/-- Helper for `lastDeclNode`: the last declaration of `name` in the
suffix, indices counted from `offset`. -/
def lastDeclAux (name : String) : List DeviceDeclaration → Nat →
    Option (Nat × DeviceKind)
  | [], _ => none
  | device :: rest, offset =>
    match lastDeclAux name rest (offset + 1) with
    | some found => some found
    | none =>
      if device.name = name then
        some (offset, ast_type_to_ir_kind device.device_type)
      else none

/-- Spec 3.1 / 8.1: the index of the LAST declaration carrying a name
(unique names make it the device's own declaration), with its kind. -/
def lastDeclNode (devices : List DeviceDeclaration) (name : String) :
    Option (Nat × DeviceKind) :=
  lastDeclAux name devices 0

/-- Spec 8.1: the expected edge list of the topology graph: one edge per
device with a `connected_to` attribute, from the upstream device's node to
the declaring name's node, kinded by the compatibility table. -/
def spec_topo_edges (topology : TopologySection) : List TopoEdge :=
  topology.devices.filterMap
    (fun device =>
      device.attributes.connected_to.bind (fun target_name =>
        (lastDeclNode topology.devices target_name).bind (fun target =>
          (lastDeclNode topology.devices device.name).bind (fun current =>
            (connection_type_for target.2 current.2).map (fun kind =>
              (⟨target.1, current.1, kind⟩ : TopoEdge))))))

/-! ### Shadow traversal for the synthesized parallel-join states

`shadow_parallel_block` / `shadow_race_block` / `shadow_tasks` retrace the
state-machine builder and enumerate, without building anything, (a) the
synthesized parallel-join states paired with their enclosing completion
targets and (b) every other state the builder ever uses as the source of a
transition (declared step states, fork / branch / decision states).  They
burn fuel exactly like the builder, so the two traversals stay aligned. -/

mutual

/-- Shadow of `build_parallel_branch`: the joins (with completion
targets) and other source states of one parallel branch. -/
def shadow_parallel_branch (fuel : Nat) (task : TaskDeclaration)
    (step_name : String) (block_index : Nat) (join_state : State)
    (task_initial_states : List (String × State)) (p : Nat × Branch) :
    List (State × Option State) × List State :=
  match fuel with
  | 0 => ([], [])
  | fuel + 1 =>
    let branch_state : State := ⟨task.name,
      step_name ++ "__parallel_" ++ toString (block_index + 1) ++
        "_branch_" ++ toString (p.1 + 1)⟩
    let analyzed := analyze_statements p.2.statements
    let acc : List (State × Option State) × List State :=
      ([], [branch_state])
    let acc :=
      analyzed.parallel_blocks.enum.foldl
        (fun (acc : List (State × Option State) × List State)
            (q : Nat × ParallelBlock) =>
          let sub := shadow_parallel_block fuel task
            (step_name ++ "__parallel_" ++ toString (block_index + 1) ++
              "_branch_" ++ toString (p.1 + 1)) q.1 q.2
            (some join_state) task_initial_states
          (acc.1 ++ sub.1, acc.2 ++ sub.2))
        acc
    analyzed.race_blocks.enum.foldl
      (fun (acc : List (State × Option State) × List State)
          (q : Nat × RaceBlock) =>
        let sub := shadow_race_block fuel task
          (step_name ++ "__parallel_" ++ toString (block_index + 1) ++
            "_branch_" ++ toString (p.1 + 1)) q.1 q.2
          (some join_state) task_initial_states
        (acc.1 ++ sub.1, acc.2 ++ sub.2))
      acc
termination_by structural fuel

/-- Shadow of `build_parallel_block`. -/
def shadow_parallel_block (fuel : Nat) (task : TaskDeclaration)
    (step_name : String) (block_index : Nat) (block : ParallelBlock)
    (completion_target : Option State)
    (task_initial_states : List (String × State)) :
    List (State × Option State) × List State :=
  match fuel with
  | 0 => ([], [])
  | fuel + 1 =>
    let fork_state : State := ⟨task.name,
      step_name ++ "__parallel_" ++ toString (block_index + 1) ++ "_fork"⟩
    let join_state : State := ⟨task.name,
      step_name ++ "__parallel_" ++ toString (block_index + 1) ++ "_join"⟩
    block.branches.enum.foldl
      (fun (acc : List (State × Option State) × List State)
          (p : Nat × Branch) =>
        let sub := shadow_parallel_branch fuel task step_name block_index
          join_state task_initial_states p
        (acc.1 ++ sub.1, acc.2 ++ sub.2))
      ([(join_state, completion_target)], [fork_state])
termination_by structural fuel

/-- Shadow of `build_race_branch`. -/
def shadow_race_branch (fuel : Nat) (task : TaskDeclaration)
    (step_name : String) (block_index : Nat)
    (completion_target : Option State)
    (task_initial_states : List (String × State)) (p : Nat × RaceBranch) :
    List (State × Option State) × List State :=
  match fuel with
  | 0 => ([], [])
  | fuel + 1 =>
    let branch_state : State := ⟨task.name,
      step_name ++ "__race_" ++ toString (block_index + 1) ++
        "_branch_" ++ toString (p.1 + 1)⟩
    let branch_completion_target :=
      (race_branch_completion p.2 completion_target task_initial_states
        []).1
    let analyzed := analyze_statements p.2.statements
    let acc : List (State × Option State) × List State :=
      ([], [branch_state])
    let acc :=
      analyzed.parallel_blocks.enum.foldl
        (fun (acc : List (State × Option State) × List State)
            (q : Nat × ParallelBlock) =>
          let sub := shadow_parallel_block fuel task
            (step_name ++ "__race_" ++ toString (block_index + 1) ++
              "_branch_" ++ toString (p.1 + 1)) q.1 q.2
            branch_completion_target task_initial_states
          (acc.1 ++ sub.1, acc.2 ++ sub.2))
        acc
    analyzed.race_blocks.enum.foldl
      (fun (acc : List (State × Option State) × List State)
          (q : Nat × RaceBlock) =>
        let sub := shadow_race_block fuel task
          (step_name ++ "__race_" ++ toString (block_index + 1) ++
            "_branch_" ++ toString (p.1 + 1)) q.1 q.2
          branch_completion_target task_initial_states
        (acc.1 ++ sub.1, acc.2 ++ sub.2))
      acc
termination_by structural fuel

/-- Shadow of `build_race_block`. -/
def shadow_race_block (fuel : Nat) (task : TaskDeclaration)
    (step_name : String) (block_index : Nat) (block : RaceBlock)
    (completion_target : Option State)
    (task_initial_states : List (String × State)) :
    List (State × Option State) × List State :=
  match fuel with
  | 0 => ([], [])
  | fuel + 1 =>
    let decision_state : State := ⟨task.name,
      step_name ++ "__race_" ++ toString (block_index + 1) ++ "_decision"⟩
    block.branches.enum.foldl
      (fun (acc : List (State × Option State) × List State)
          (p : Nat × RaceBranch) =>
        let sub := shadow_race_branch fuel task step_name block_index
          completion_target task_initial_states p
        (acc.1 ++ sub.1, acc.2 ++ sub.2))
      ([], [decision_state])
termination_by structural fuel

end

/-- Shadow of `smBuildStep`: joins and other transition-source states
contributed by one declared step. -/
def shadow_step (fuel : Nat) (task : TaskDeclaration) (step_index : Nat)
    (step : StepDeclaration) (task_initial_states : List (String × State))
    (task_on_complete_targets : List (String × Option State)) :
    List (State × Option State) × List State :=
  let from_state : State := ⟨task.name, step.name⟩
  let completion_target :=
    completion_target_for_step task step_index task_on_complete_targets
  let analyzed := analyze_statements step.statements
  let acc : List (State × Option State) × List State := ([], [from_state])
  let acc :=
    analyzed.parallel_blocks.enum.foldl
      (fun (acc : List (State × Option State) × List State)
          (q : Nat × ParallelBlock) =>
        let sub := shadow_parallel_block fuel task step.name q.1 q.2
          completion_target task_initial_states
        (acc.1 ++ sub.1, acc.2 ++ sub.2))
      acc
  analyzed.race_blocks.enum.foldl
    (fun (acc : List (State × Option State) × List State)
        (q : Nat × RaceBlock) =>
      let sub := shadow_race_block fuel task step.name q.1 q.2
        completion_target task_initial_states
      (acc.1 ++ sub.1, acc.2 ++ sub.2))
    acc

/-- The shadow traversal over a whole tasks section: all synthesized join
states (with their enclosing completion targets) and all other
transition-source states. -/
def shadow_tasks (fuel : Nat) (tasks : TasksSection) :
    List (State × Option State) × List State :=
  let task_initial_states := (smFirstPass tasks.tasks).1
  let targets := (smOnCompleteTargets tasks.tasks task_initial_states
    (smFirstPass tasks.tasks).2.2).1
  tasks.tasks.foldl
    (fun (acc : List (State × Option State) × List State) task =>
      task.steps.enum.foldl
        (fun (acc : List (State × Option State) × List State)
            (p : Nat × StepDeclaration) =>
          let sub := shadow_step fuel task p.1 p.2 task_initial_states
            targets
          (acc.1 ++ sub.1, acc.2 ++ sub.2))
        acc)
    ([], [])

/-! ### Builder invariants

Properties of the running `StateMachineBuilder`, maintained by every
construction step and used to settle the closure, uniqueness, and
timeout-shape claims about `build_state_machine_from_ast`. -/

/-- The `(task_name, step_name)` key under which `add_state`
deduplicates a state. -/
def statePair (s : State) : String × String := (s.task_name, s.step_name)

/-- Builder well-formedness: the dedup key set mirrors the states list,
which contains no duplicates. -/
def BWF (b : StateMachineBuilder) : Prop :=
  b.seen_states = b.states.map statePair ∧ b.states.Nodup

/-- The shape of a timeout transition: whenever the guard is
`timeout d`, the transition carries no actions and exactly one timer
operation, a `start` of the same duration. -/
def TimerShape (t : Transition) : Prop :=
  ∀ d, t.guard = .timeout d →
    t.actions = [] ∧ ∃ name, t.timers = [⟨name, .start, some d⟩]

/-- A transition is good relative to a states list: both endpoints are
members, and the timeout shape holds. -/
def GoodTrans (S : List State) (t : Transition) : Prop :=
  t.from_ ∈ S ∧ t.to_ ∈ S ∧ TimerShape t

/-- Relation between a builder and a later build state produced from
it: well-formedness is kept, the states list grows only at the tail,
and every new transition is good relative to the new states list. -/
def BInv (b0 : StateMachineBuilder) (st : BuildSt) : Prop :=
  BWF st.1 ∧ (∃ Δ, st.1.states = b0.states ++ Δ) ∧
    ∀ t ∈ st.1.transitions, t ∈ b0.transitions ∨ GoodTrans st.1.states t

/-- `BInv` together with a set of pinned states that must stay in the
states list (the membership facts threaded through the build loops). -/
def BInvK (b0 : StateMachineBuilder) (keep : List State) (st : BuildSt) :
    Prop :=
  BInv b0 st ∧ ∀ s ∈ keep, s ∈ st.1.states

/-- Purity of a fixed join state `J` with completion association `ct`:
every transition out of `J` is an `always` edge with no actions and no
timers, into the state `ct` points at. -/
def JPure (J : State) (ct : Option State) (st : BuildSt) : Prop :=
  ∀ t ∈ st.1.transitions, t.from_ = J →
    t.guard = .always ∧ t.actions = [] ∧ t.timers = [] ∧ ct = some t.to_

/-- Decidable equality on `Except`, used to evaluate the builder on the
concrete witness inputs. -/
instance {E A : Type _} [DecidableEq E] [DecidableEq A] :
    DecidableEq (Except E A) := fun x y =>
  match x, y with
  | .error a, .error b =>
    if h : a = b then isTrue (h ▸ rfl)
    else isFalse (fun he => h (by injection he))
  | .error _, .ok _ => isFalse (fun he => nomatch he)
  | .ok _, .error _ => isFalse (fun he => nomatch he)
  | .ok a, .ok b =>
    if h : a = b then isTrue (h ▸ rfl)
    else isFalse (fun he => h (by injection he))

/-! ## Concrete example inputs (used to instantiate the theorems below) -/

def noAttrs : DeviceAttributes := {}

def connAttrs (target : String) : DeviceAttributes :=
  { connected_to := some target }

/-- A topology section declaring the name `d` twice. -/
def dupTopology : TopologySection :=
  ⟨[⟨1, "d", .digitalOutput, noAttrs⟩, ⟨2, "d", .digitalOutput, noAttrs⟩]⟩

/-- A topology with an unresolvable `connected_to` reference. -/
def badRefTopology : TopologySection :=
  ⟨[⟨3, "Y0", .digitalOutput, noAttrs⟩,
    ⟨5, "valve_A", .solenoidValve, connAttrs "Y9"⟩]⟩

/-- Duplicate names combined with `connected_to`: the first `d` declares
the connection, but the name-lookup map retains the last `d`. -/
def dupEdgeTopology : TopologySection :=
  ⟨[⟨1, "Y0", .digitalOutput, noAttrs⟩,
    ⟨2, "d", .solenoidValve, connAttrs "Y0"⟩,
    ⟨3, "d", .solenoidValve, noAttrs⟩]⟩

/-- The PRD 5.3-style topology (valid, unique names). -/
def exTopology : TopologySection :=
  ⟨[⟨4, "Y0", .digitalOutput, noAttrs⟩,
    ⟨5, "Y1", .digitalOutput, noAttrs⟩,
    ⟨7, "valve_A", .solenoidValve,
      { connected_to := some "Y0", response_time := some ⟨20, .ms⟩ }⟩,
    ⟨11, "valve_B", .solenoidValve,
      { connected_to := some "Y1", response_time := some ⟨20, .ms⟩ }⟩,
    ⟨15, "cyl_A", .cylinder,
      { connected_to := some "valve_A", stroke_time := some ⟨200, .ms⟩,
        retract_time := some ⟨180, .ms⟩ }⟩,
    ⟨21, "cyl_B", .cylinder,
      { connected_to := some "valve_B", stroke_time := some ⟨300, .ms⟩,
        retract_time := some ⟨250, .ms⟩ }⟩]⟩

/-- A one-task, one-step program driving one cylinder. -/
def extendTasks : TasksSection :=
  ⟨[⟨30, "init", [⟨31, "s1", [.action (.extend "cyl_A")]⟩], none, none⟩]⟩

/-- The PRD §9 race example tasks. -/
def raceTasks : TasksSection :=
  ⟨[⟨1, "search",
      [⟨2, "start_motor", [.action (.set "motor_ctrl" .on)]⟩,
       ⟨3, "detect",
        [.race (.mk
          [⟨[.wait ⟨⟨"sensor_A", .eq, .boolean true⟩⟩], some ⟨6, "process_A"⟩⟩,
           ⟨[.wait ⟨⟨"sensor_B", .eq, .boolean true⟩⟩,
             .action (.log "B")], some ⟨9, "process_B"⟩⟩]),
         .timeout ⟨⟨800, .ms⟩, ⟨10, "motor_fault"⟩⟩]⟩], none, none⟩,
    ⟨12, "process_A", [⟨13, "stop_motor", [.action (.set "motor_ctrl" .off)]⟩],
      some 14, some (.goto "ready")⟩,
    ⟨15, "process_B", [⟨16, "stop_motor", [.action (.set "motor_ctrl" .off)]⟩],
      some 17, some (.goto "ready")⟩,
    ⟨18, "motor_fault",
      [⟨19, "emergency_stop", [.action (.set "motor_ctrl" .off)]⟩],
      some 20, some (.goto "ready")⟩,
    ⟨21, "ready",
      [⟨22, "wait_start",
        [.wait ⟨⟨"start_button", .eq, .boolean true⟩⟩,
         .allowIndefiniteWait true]⟩],
      some 24, some (.goto "search")⟩]⟩

def raceSM : StateMachine :=
  match build_state_machine_from_ast 10 raceTasks with
  | .ok sm => sm
  | .error _ => ⟨[], [], ⟨"", ""⟩⟩

/-- A parallel block whose synthesized join name `work__parallel_1_join`
is also a declared step carrying an action and a goto. -/
def captureTasks : TasksSection :=
  ⟨[⟨1, "t",
      [⟨2, "work", [.parallel (.mk [⟨[]⟩])]⟩,
       ⟨3, "work__parallel_1_join",
        [.action (.extend "c"), .goto ⟨4, "t"⟩]⟩], none, none⟩]⟩

def captureSM : StateMachine :=
  match build_state_machine_from_ast 10 captureTasks with
  | .ok sm => sm
  | .error _ => ⟨[], [], ⟨"", ""⟩⟩

/-- The parallel two-cylinder demo tasks (spec scenario S3). -/
def parTasks : TasksSection :=
  ⟨[⟨33, "parallel_demo",
      [⟨34, "move_together",
        [.parallel (.mk [⟨[.action (.extend "cyl_A")]⟩,
                         ⟨[.action (.extend "cyl_B")]⟩])]⟩], none, none⟩]⟩

def parSM : StateMachine :=
  match build_state_machine_from_ast 10 parTasks with
  | .ok sm => sm
  | .error _ => ⟨[], [], ⟨"", ""⟩⟩

/-- An empty program (topology and constraints empty). -/
def emptyProgram : PlcProgram := ⟨⟨[]⟩, ⟨[], [], []⟩, ⟨[]⟩⟩

/-- A hand-written two-state loop machine (`a → b → a`). -/
def loopSM : StateMachine :=
  ⟨[⟨"t", "a"⟩, ⟨"t", "b"⟩],
   [⟨⟨"t", "a"⟩, ⟨"t", "b"⟩, .always, [], []⟩,
    ⟨⟨"t", "b"⟩, ⟨"t", "a"⟩, .always, [], []⟩],
   ⟨"t", "a"⟩⟩

/-- A hand-written four-state chain `a → b → c → d` (the terminal state
receives a synthetic self-loop in the safety model). -/
def chainSM : StateMachine :=
  ⟨[⟨"t", "a"⟩, ⟨"t", "b"⟩, ⟨"t", "c"⟩, ⟨"t", "d"⟩],
   [⟨⟨"t", "a"⟩, ⟨"t", "b"⟩, .always, [], []⟩,
    ⟨⟨"t", "b"⟩, ⟨"t", "c"⟩, .always, [], []⟩,
    ⟨⟨"t", "c"⟩, ⟨"t", "d"⟩, .always, [], []⟩],
   ⟨"t", "a"⟩⟩

/-- A program with one cylinder and a rule that can never fire (a cylinder
is never extended and retracted at once). -/
def safeProgram : PlcProgram :=
  ⟨⟨[⟨1, "c", .cylinder, noAttrs⟩]⟩,
   ⟨[⟨3, ⟨"c", "extended"⟩, .conflictsWith, ⟨"c", "retracted"⟩, none⟩],
    [], []⟩,
   ⟨[⟨5, "t", [⟨6, "s", []⟩], none, none⟩]⟩⟩

def safeCS : ConstraintSet :=
  ⟨[⟨⟨"c", "extended"⟩, .conflictsWith, ⟨"c", "retracted"⟩, none⟩], [], []⟩

def safeSM : StateMachine := ⟨[⟨"t", "s"⟩], [], ⟨"t", "s"⟩⟩

/-- Tasks for the `must_start_after` scenario S6. -/
def msTasks : TasksSection :=
  ⟨[⟨1, "pre", [⟨2, "hold", [.timeout ⟨⟨100, .ms⟩, ⟨3, "cooldown"⟩⟩]⟩],
      none, none⟩,
    ⟨4, "cooldown", [⟨5, "begin", [.action (.log "ok")]⟩], none, none⟩]⟩

def msProgram : PlcProgram :=
  ⟨⟨[]⟩,
   ⟨[], [⟨7, .task "cooldown", .mustStartAfter, ⟨200, .ms⟩, none⟩], []⟩,
   msTasks⟩

def msSM : StateMachine :=
  match build_state_machine_from_ast 10 msTasks with
  | .ok sm => sm
  | .error _ => ⟨[], [], ⟨"", ""⟩⟩

def msRule : TimingRule := ⟨.task "cooldown", .mustStartAfter, 200, none⟩

/-- The edges produced by the second topology pass relative to an
arbitrary name-to-node map (proof device for relating the pass to
`spec_topo_edges`). -/
def specEdgesRel (device_nodes : List (String × DeviceNode))
    (devices : List DeviceDeclaration) : List TopoEdge :=
  devices.filterMap
    (fun device =>
      device.attributes.connected_to.bind (fun target_name =>
        (alFind? device_nodes target_name).bind (fun tn =>
          (alFind? device_nodes device.name).bind (fun cn =>
            (connection_type_for tn.kind cn.kind).map (fun ct =>
              (⟨tn.index, cn.index, ct⟩ : TopoEdge))))))

/-! ### Additional concrete objects used by the theorems -/

def c10Model : TimingModel :=
  match build_timing_model_from_ast exTopology extendTasks with
  | .ok model => model
  | .error _ => ⟨[]⟩

/-- The only diagnostic kinds the topology builder can produce. -/
def is_undefined_or_type_mismatch : PlcError → Prop
  | .undefinedReference _ _ _ _ => True
  | .typeMismatch _ _ _ _ _ => True
  | _ => False

instance (e : PlcError) : Decidable (is_undefined_or_type_mismatch e) := by
  unfold is_undefined_or_type_mismatch
  cases e <;> infer_instance

def dupEdgeGraph : TopologyGraph :=
  match build_topology_from_ast dupEdgeTopology with
  | .ok g => g
  | .error _ => TopologyGraph.new

def exGraph : TopologyGraph :=
  match build_topology_from_ast exTopology with
  | .ok g => g
  | .error _ => TopologyGraph.new

/-- One step of the running minimum over an optional accumulator. -/
def minStep (acc : Option Nat) (i : Nat) : Option Nat :=
  some (match acc with | none => i | some a => min a i)

def c8Preds : List Transition :=
  spec_predecessors msSM.transitions "cooldown" "begin"

/-- A tasks section where the parallel join has a genuine completion
target and no name capture. -/
def c6Tasks : TasksSection :=
  ⟨[⟨1, "t",
      [⟨2, "work", [.parallel (.mk [⟨[]⟩])]⟩,
       ⟨3, "done", []⟩], none, none⟩]⟩

def c6SM : StateMachine :=
  match build_state_machine_from_ast 10 c6Tasks with
  | .ok sm => sm
  | .error _ => ⟨[], [], ⟨"", ""⟩⟩

/-! # Theorems -/

/-! ## Association-list lemmas -/

theorem alFind?_alInsert {K V : Type} [DecidableEq K] (m : List (K × V))
    (k : K) (v : V) (k' : K) :
    alFind? (alInsert m k v) k' = if k' = k then some v else alFind? m k' := by
  induction m with
  | nil =>
    by_cases h : k' = k
    · simp [alInsert, alFind?, h]
    · have h2 : ¬(k = k') := fun hh => h (Eq.symm hh)
      simp [alInsert, alFind?, h, h2]
  | cons p rest ih =>
    by_cases hpk : p.1 = k
    · by_cases h : k' = k
      · subst h; simp [alInsert, alFind?, hpk]
      · have h2 : ¬(k = k') := fun hh => h (Eq.symm hh)
        have hp : ¬(p.1 = k') := fun hh => h (hh ▸ hpk : k' = k)
        simp [alInsert, alFind?, hpk, h, h2, hp]
    · by_cases hpk' : p.1 = k'
      · have hk : ¬(k' = k) := fun hh => hpk (hpk'.trans hh)
        simp [alInsert, alFind?, hpk, hpk', hk]
      · simp [alInsert, alFind?, hpk, hpk', ih]

theorem alContains_iff_find {K V : Type} [DecidableEq K]
    (m : List (K × V)) (k : K) :
    alContains m k = (alFind? m k).isSome := by
  induction m with
  | nil => simp [alContains, alFind?]
  | cons p rest ih =>
    by_cases h : p.1 = k
    · simp [alContains, alFind?, h]
    · simp [alContains, alFind?, h, ih]

/-- A `foldl` preserves any invariant preserved by its step function. -/
theorem foldl_preserves {α σ : Type _} {P : σ → Prop} (f : σ → α → σ)
    (l : List α) (s : σ) (h0 : P s)
    (hstep : ∀ s a, a ∈ l → P s → P (f s a)) : P (l.foldl f s) := by
  induction l generalizing s with
  | nil => exact h0
  | cons a l ih =>
    exact ih (f s a) (hstep s a (List.mem_cons_self a l) h0)
      (fun s b hb hP => hstep s b (List.mem_cons_of_mem a hb) hP)

theorem action_to_timing_degenerate (task_name step_name : String)
    (line : Nat) (action : ActionStatement)
    (profiles : List (String × DeviceTimingProfile)) (errors : List PlcError)
    (t : ActionTiming)
    (h : (action_to_timing task_name step_name line action profiles
      errors).1 = some t) :
    t.interval.min_ms = t.interval.max_ms := by
  simp only [action_to_timing] at h
  cases action <;> simp only at h
  case log _ => exact absurd h (by simp)
  all_goals
    split at h
    · exact absurd h (by simp)
    · split at h
      · exact absurd h (by simp)
      · simp only [Option.some.injEq] at h
        subst h
        rfl

theorem insert_action_timing_mem
    (intervals : List (String × ActionTiming)) (timing : ActionTiming)
    (p : String × ActionTiming) (h : p ∈ insert_action_timing intervals timing) :
    p ∈ intervals ∨ p.2 = timing := by
  simp only [insert_action_timing] at h
  split at h <;> simp only [List.mem_append, List.mem_singleton] at h <;>
    rcases h with h | h <;> simp_all

/-- C10: every interval stored by the timing-model builder is degenerate:
`min_ms = max_ms` (both are the single duration selected from the device's
attribute profile), even though `TimeInterval` allows `min_ms < max_ms`. -/
theorem timing_model_intervals_degenerate (topology : TopologySection)
    (tasks : TasksSection) (model : TimingModel)
    (h : build_timing_model_from_ast topology tasks = .ok model) :
    ∀ p ∈ model.intervals, p.2.interval.min_ms = p.2.interval.max_ms := by
  simp only [build_timing_model_from_ast] at h
  split at h
  case isTrue =>
    cases h
    refine foldl_preserves
      (P := fun (st : List (String × ActionTiming) × List PlcError) =>
        ∀ p ∈ st.1, p.2.interval.min_ms = p.2.interval.max_ms)
      _ tasks.tasks ([], []) (by simp) ?_
    intro st task _ hP
    refine foldl_preserves
      (P := fun (st : List (String × ActionTiming) × List PlcError) =>
        ∀ p ∈ st.1, p.2.interval.min_ms = p.2.interval.max_ms)
      _ task.steps st hP ?_
    intro st step _ hP
    refine foldl_preserves
      (P := fun (st : List (String × ActionTiming) × List PlcError) =>
        ∀ p ∈ st.1, p.2.interval.min_ms = p.2.interval.max_ms)
      _ (collect_actions step.statements) st hP ?_
    intro st action _ hP
    split
    case h_1 action_timing errors heq =>
      intro p hp
      rcases insert_action_timing_mem st.1 action_timing p hp with hmem | hval
      · exact hP p hmem
      · rw [hval]
        exact action_to_timing_degenerate task.name step.name step.line
          action _ st.2 action_timing (by rw [heq])
    case h_2 errors heq => exact hP
  case isFalse => cases h

/-- Witness for C10 at a concrete program: the builder succeeds and the
stored `extend cyl_A` entry has `min_ms = max_ms`. -/
theorem timing_model_intervals_degenerate_witness :
    build_timing_model_from_ast exTopology extendTasks = .ok c10Model ∧
      ("init.s1.extend.cyl_A",
        (⟨⟨"init", "s1", .extend, some "cyl_A"⟩, ⟨200, 200⟩⟩ : ActionTiming))
        ∈ c10Model.intervals ∧
      (200 : Nat) = 200 :=
  ⟨rfl, by decide,
    timing_model_intervals_degenerate exTopology extendTasks c10Model rfl
      ("init.s1.extend.cyl_A", ⟨⟨"init", "s1", .extend, some "cyl_A"⟩,
        ⟨200, 200⟩⟩) (by decide)⟩

/-! ## C4: duplicate device names and the topology builder -/

theorem topologySecondPassGo_errors
    (device_nodes : List (String × DeviceNode))
    (devices : List DeviceDeclaration) :
    ∀ st : TopologyGraph × List PlcError,
      (∀ e ∈ st.2, is_undefined_or_type_mismatch e) →
      ∀ e ∈ (topologySecondPassGo device_nodes devices st).2,
        is_undefined_or_type_mismatch e := by
  induction devices with
  | nil => intro st hP; exact hP
  | cons device rest ih =>
    intro st hP
    refine ih _ ?_
    unfold topologySecondPassStep
    split
    · exact hP
    case h_2 target_name =>
      split
      · intro e he
        rcases List.mem_append.mp he with h | h
        · exact hP e h
        · rcases List.mem_singleton.mp h with rfl
          trivial
      case h_2 target_node =>
        split
        · exact hP
        case h_2 current_node =>
          split
          · intro e he
            rcases List.mem_append.mp he with h | h
            · exact hP e h
            · rcases List.mem_singleton.mp h with rfl
              trivial
          · exact hP

theorem topologySecondPass_errors (devices : List DeviceDeclaration)
    (device_nodes : List (String × DeviceNode)) (g0 : TopologyGraph) :
    ∀ e ∈ (topologySecondPass devices device_nodes g0).2,
      is_undefined_or_type_mismatch e :=
  topologySecondPassGo_errors device_nodes devices (g0, []) (by simp)

/-- Counterexample to C4 as stated: a topology section declaring the same
device name `d` twice builds successfully, with NO diagnostic at all — in
particular no duplicate-definition diagnostic is emitted, and both
declarations become graph nodes (so the graph's device names do not form a
set). -/
theorem c4_counterexample_no_duplicate_diagnostic :
    dupTopology.devices.map (fun d => d.name) = ["d", "d"] ∧
      build_topology_from_ast dupTopology =
        .ok ⟨[⟨"d", .digitalOutput⟩, ⟨"d", .digitalOutput⟩], []⟩ :=
  ⟨rfl, rfl⟩

/-- C4 (amended): the topology builder emits no duplicate-definition
diagnostic for duplicate device names (each duplicate declaration still
adds a node); every diagnostic it can produce is an undefined-reference or
type-mismatch error. -/
theorem topology_builder_emits_no_duplicate_definition
    (topology : TopologySection) (errs : List PlcError)
    (h : build_topology_from_ast topology = .error errs) :
    ∀ e ∈ errs, is_undefined_or_type_mismatch e := by
  simp only [build_topology_from_ast] at h
  split at h
  · cases h
  · cases h
    exact topologySecondPass_errors topology.devices
      (topologyFirstPass topology.devices).2
      (topologyFirstPass topology.devices).1

/-- Witness for the amended C4 theorem at a concrete failing topology. -/
theorem topology_builder_emits_no_duplicate_definition_witness :
    build_topology_from_ast badRefTopology =
      .error [PlcError.undefined_reference_with_reason 5 "设备" "Y9"
        "设备 valve_A 的 connected_to 引用了该名称，请先定义后再连接"] ∧
    is_undefined_or_type_mismatch
      (PlcError.undefined_reference_with_reason 5 "设备" "Y9"
        "设备 valve_A 的 connected_to 引用了该名称，请先定义后再连接") :=
  ⟨rfl,
    topology_builder_emits_no_duplicate_definition badRefTopology _ rfl
      _ (by decide)⟩

/-! ## C9: topology round-trip -/

theorem filterMap_congr_mem {α β : Type _} (l : List α) (f g : α → Option β)
    (h : ∀ a ∈ l, f a = g a) : l.filterMap f = l.filterMap g := by
  induction l with
  | nil => rfl
  | cons a l ih =>
    simp only [List.filterMap_cons]
    rw [h a (List.mem_cons_self a l),
      ih (fun b hb => h b (List.mem_cons_of_mem a hb))]

theorem filterMap_length_eq_filter {α β : Type _} (l : List α)
    (f : α → Option β) (p : α → Bool) (h : ∀ a ∈ l, (f a).isSome = p a) :
    (l.filterMap f).length = (l.filter p).length := by
  induction l with
  | nil => rfl
  | cons a l ih =>
    have ha := h a (List.mem_cons_self a l)
    have ih' := ih (fun b hb => h b (List.mem_cons_of_mem a hb))
    cases hfa : f a with
    | none =>
      rw [hfa] at ha
      simp only [List.filterMap_cons, hfa, List.filter_cons, ← ha,
        Option.isSome_none, cond_false]
      exact ih'
    | some b =>
      rw [hfa] at ha
      simp only [List.filterMap_cons, hfa, List.filter_cons, ← ha,
        Option.isSome_some, cond_true, List.length_cons]
      exact congrArg Nat.succ ih'

theorem topologyFirstPassGo_spec (devices : List DeviceDeclaration) :
    ∀ (g : TopologyGraph) (m : List (String × DeviceNode)),
      (topologyFirstPassGo devices (g, m)).1.nodes =
          g.nodes ++ devices.map
            (fun d => ⟨d.name, ast_type_to_ir_kind d.device_type⟩) ∧
        (topologyFirstPassGo devices (g, m)).1.edges = g.edges ∧
        ∀ name, alFind? (topologyFirstPassGo devices (g, m)).2 name =
          (match lastDeclAux name devices g.nodes.length with
           | some found => some ⟨found.1, found.2⟩
           | none => alFind? m name) := by
  induction devices with
  | nil =>
    intro g m
    exact ⟨by simp [topologyFirstPassGo], rfl,
      fun name => by simp [topologyFirstPassGo, lastDeclAux]⟩
  | cons device rest ih =>
    intro g m
    have step : topologyFirstPassGo (device :: rest) (g, m) =
        topologyFirstPassGo rest
          (⟨g.nodes ++ [⟨device.name, ast_type_to_ir_kind device.device_type⟩],
            g.edges⟩,
           alInsert m device.name
             ⟨g.nodes.length, ast_type_to_ir_kind device.device_type⟩) := rfl
    rw [step]
    obtain ⟨h1, h2, h3⟩ := ih
      ⟨g.nodes ++ [⟨device.name, ast_type_to_ir_kind device.device_type⟩],
        g.edges⟩
      (alInsert m device.name
        ⟨g.nodes.length, ast_type_to_ir_kind device.device_type⟩)
    refine ⟨by rw [h1]; simp, h2, ?_⟩
    intro name
    rw [h3 name]
    have hlen : (⟨g.nodes ++
        [⟨device.name, ast_type_to_ir_kind device.device_type⟩], g.edges⟩ :
        TopologyGraph).nodes.length = g.nodes.length + 1 := by simp
    rw [hlen]
    rcases haux : lastDeclAux name rest (g.nodes.length + 1) with _ | found
    · have hcons : lastDeclAux name (device :: rest) g.nodes.length =
          (if device.name = name then
            some (g.nodes.length, ast_type_to_ir_kind device.device_type)
          else none) := by
        show (match lastDeclAux name rest (g.nodes.length + 1) with
          | some found => some found
          | none =>
            if device.name = name then
              some (g.nodes.length, ast_type_to_ir_kind device.device_type)
            else none) = _
        rw [haux]
      rw [hcons]
      by_cases hdn : device.name = name
      · subst hdn
        simp [alFind?_alInsert]
      · have hnd : ¬(name = device.name) := fun hh => hdn hh.symm
        simp [alFind?_alInsert, hdn, hnd]
    · have hcons : lastDeclAux name (device :: rest) g.nodes.length =
          some found := by
        show (match lastDeclAux name rest (g.nodes.length + 1) with
          | some found => some found
          | none =>
            if device.name = name then
              some (g.nodes.length, ast_type_to_ir_kind device.device_type)
            else none) = _
        rw [haux]
      rw [hcons]

theorem topologySecondPassStep_errors
    (device_nodes : List (String × DeviceNode)) (device : DeviceDeclaration)
    (st : TopologyGraph × List PlcError) :
    ∃ new, (topologySecondPassStep device_nodes device st).2 =
      st.2 ++ new := by
  unfold topologySecondPassStep
  split
  · exact ⟨[], (List.append_nil _).symm⟩
  · split
    · exact ⟨_, rfl⟩
    · split
      · exact ⟨[], (List.append_nil _).symm⟩
      · split
        · exact ⟨_, rfl⟩
        · exact ⟨[], (List.append_nil _).symm⟩

theorem topologySecondPassGo_errors_mono
    (device_nodes : List (String × DeviceNode))
    (devices : List DeviceDeclaration) :
    ∀ st : TopologyGraph × List PlcError,
      ∃ new, (topologySecondPassGo device_nodes devices st).2 =
        st.2 ++ new := by
  induction devices with
  | nil => exact fun st => ⟨[], by simp [topologySecondPassGo]⟩
  | cons device rest ih =>
    intro st
    obtain ⟨new1, hnew1⟩ :=
      topologySecondPassStep_errors device_nodes device st
    have hstep : topologySecondPassGo device_nodes (device :: rest) st =
        topologySecondPassGo device_nodes rest
          (topologySecondPassStep device_nodes device st) := rfl
    obtain ⟨new2, hnew2⟩ := ih (topologySecondPassStep device_nodes device st)
    exact ⟨new1 ++ new2, by rw [hstep, hnew2, hnew1, List.append_assoc]⟩

theorem topologySecondPassGo_ok (device_nodes : List (String × DeviceNode))
    (devices : List DeviceDeclaration) :
    ∀ (g : TopologyGraph) (errs : List PlcError),
      (topologySecondPassGo device_nodes devices (g, errs)).2 = errs →
      (topologySecondPassGo device_nodes devices (g, errs)).1.nodes =
          g.nodes ∧
        (topologySecondPassGo device_nodes devices (g, errs)).1.edges =
          g.edges ++ specEdgesRel device_nodes devices ∧
        ∀ device ∈ devices, ∀ t, device.attributes.connected_to = some t →
          ∃ tn, alFind? device_nodes t = some tn ∧
            ∀ cn, alFind? device_nodes device.name = some cn →
              ∃ ct, connection_type_for tn.kind cn.kind = some ct := by
  induction devices with
  | nil =>
    intro g errs _
    exact ⟨rfl, by simp [specEdgesRel, topologySecondPassGo], by simp⟩
  | cons device rest ih =>
    intro g errs hok
    have hok' : (topologySecondPassGo device_nodes rest
        (topologySecondPassStep device_nodes device (g, errs))).2 = errs := hok
    rcases hct : device.attributes.connected_to with _ | target_name
    · have hstep : topologySecondPassStep device_nodes device (g, errs) =
          (g, errs) := by
        unfold topologySecondPassStep
        rw [hct]
      rw [hstep] at hok'
      have hgoal : topologySecondPassGo device_nodes (device :: rest)
          (g, errs) = topologySecondPassGo device_nodes rest (g, errs) := by
        show topologySecondPassGo device_nodes rest
          (topologySecondPassStep device_nodes device (g, errs)) = _
        rw [hstep]
      rw [hgoal]
      obtain ⟨h1, h2, h3⟩ := ih g errs hok'
      refine ⟨h1, ?_, ?_⟩
      · rw [h2]
        simp [specEdgesRel, List.filterMap_cons, hct]
      · intro d hd t hdt
        rcases List.mem_cons.mp hd with rfl | hd
        · rw [hct] at hdt; cases hdt
        · exact h3 d hd t hdt
    · rcases hft : alFind? device_nodes target_name with _ | target_node
      · exfalso
        have hstep : topologySecondPassStep device_nodes device (g, errs) =
            (g, errs ++ [PlcError.undefined_reference_with_reason device.line
              "设备" target_name ("设备 " ++ device.name ++
                " 的 connected_to 引用了该名称，请先定义后再连接")]) := by
          unfold topologySecondPassStep
          simp only [hct, hft]
        obtain ⟨new, hnew⟩ := topologySecondPassGo_errors_mono device_nodes
          rest (topologySecondPassStep device_nodes device (g, errs))
        rw [hnew, hstep] at hok'
        have hlen := congrArg List.length hok'
        simp at hlen
      · rcases hfc : alFind? device_nodes device.name with _ | current_node
        · have hstep : topologySecondPassStep device_nodes device (g, errs) =
              (g, errs) := by
            unfold topologySecondPassStep
            simp only [hct, hft, hfc]
          rw [hstep] at hok'
          have hgoal : topologySecondPassGo device_nodes (device :: rest)
              (g, errs) = topologySecondPassGo device_nodes rest (g, errs) := by
            show topologySecondPassGo device_nodes rest
              (topologySecondPassStep device_nodes device (g, errs)) = _
            rw [hstep]
          rw [hgoal]
          obtain ⟨h1, h2, h3⟩ := ih g errs hok'
          refine ⟨h1, ?_, ?_⟩
          · rw [h2]
            simp [specEdgesRel, List.filterMap_cons, hct, hft, hfc]
          · intro d hd t hdt
            rcases List.mem_cons.mp hd with rfl | hd
            · rw [hct] at hdt
              cases hdt
              exact ⟨target_node, hft, fun cn hcn => by
                rw [hfc] at hcn; cases hcn⟩
            · exact h3 d hd t hdt
        · rcases hctf : connection_type_for target_node.kind
              current_node.kind with _ | ct
          · exfalso
            have hstep : topologySecondPassStep device_nodes device
                (g, errs) = (g, errs ++
                  [PlcError.type_mismatch_with_reason device.line
                    ("可作为 " ++ device_kind_name current_node.kind ++
                      " 上游的设备")
                    (device_kind_name target_node.kind)
                    ("设备 " ++ device.name ++ " 的 connected_to")
                    ("请检查 " ++ target_name ++ " 与 " ++ device.name ++
                      " 的连接方向，或调整为兼容设备类型")]) := by
              unfold topologySecondPassStep
              simp only [hct, hft, hfc, hctf]
            obtain ⟨new, hnew⟩ := topologySecondPassGo_errors_mono
              device_nodes rest
              (topologySecondPassStep device_nodes device (g, errs))
            rw [hnew, hstep] at hok'
            have hlen := congrArg List.length hok'
            simp at hlen
          · have hstep : topologySecondPassStep device_nodes device
                (g, errs) = (⟨g.nodes, g.edges ++
                  [⟨target_node.index, current_node.index, ct⟩]⟩, errs) := by
              unfold topologySecondPassStep
              simp only [hct, hft, hfc, hctf]
              rfl
            rw [hstep] at hok'
            have hgoal : topologySecondPassGo device_nodes (device :: rest)
                (g, errs) = topologySecondPassGo device_nodes rest
                  (⟨g.nodes, g.edges ++
                    [⟨target_node.index, current_node.index, ct⟩]⟩, errs) := by
              show topologySecondPassGo device_nodes rest
                (topologySecondPassStep device_nodes device (g, errs)) = _
              rw [hstep]
            rw [hgoal]
            obtain ⟨h1, h2, h3⟩ := ih
              ⟨g.nodes, g.edges ++
                [⟨target_node.index, current_node.index, ct⟩]⟩ errs hok'
            refine ⟨h1, ?_, ?_⟩
            · rw [h2]
              simp [specEdgesRel, List.filterMap_cons, hct, hft, hfc, hctf]
            · intro d hd t hdt
              rcases List.mem_cons.mp hd with rfl | hd
              · rw [hct] at hdt
                cases hdt
                exact ⟨target_node, hft, fun cn hcn => by
                  rw [hfc] at hcn
                  cases hcn
                  exact ⟨ct, hctf⟩⟩
              · exact h3 d hd t hdt

theorem lastDeclAux_self (name : String) (devices : List DeviceDeclaration) :
    ∀ offset, (∃ d ∈ devices, d.name = name) →
      (lastDeclAux name devices offset).isSome = true := by
  induction devices with
  | nil => intro offset h; rcases h with ⟨d, hd, _⟩; cases hd
  | cons device rest ih =>
    intro offset h
    show (match lastDeclAux name rest (offset + 1) with
      | some found => some found
      | none =>
        if device.name = name then
          some (offset, ast_type_to_ir_kind device.device_type)
        else none).isSome = true
    rcases haux : lastDeclAux name rest (offset + 1) with _ | found
    · rcases h with ⟨d, hd, hdn⟩
      rcases List.mem_cons.mp hd with rfl | hd
      · simp [hdn]
      · have := ih (offset + 1) ⟨d, hd, hdn⟩
        rw [haux] at this
        cases this
    · simp

theorem topologyFirstPass_find (topology : TopologySection) :
    ∀ name, alFind? (topologyFirstPass topology.devices).2 name =
      (lastDeclNode topology.devices name).map
        (fun f => (⟨f.1, f.2⟩ : DeviceNode)) := by
  intro name
  obtain ⟨_, _, f3⟩ :=
    topologyFirstPassGo_spec topology.devices TopologyGraph.new []
  show alFind?
    (topologyFirstPassGo topology.devices (TopologyGraph.new, [])).2 name = _
  rw [f3 name]
  show (match lastDeclAux name topology.devices 0 with
    | some found => some (⟨found.1, found.2⟩ : DeviceNode)
    | none => alFind? ([] : List (String × DeviceNode)) name) = _
  rcases haux : lastDeclAux name topology.devices 0 with _ | found
  · simp [lastDeclNode, haux, alFind?]
  · simp [lastDeclNode, haux]

/-- C9 (amended): on a topology section the builder accepts, the node list
mirrors the declarations in order, and each device declared with
`connected_to: U` yields exactly one edge — from the node of the LAST
declaration named `U` to the node of the LAST declaration named after the
declaring device (for unique names, the devices' own nodes), kinded by the
compatibility table — so the edge count equals the number of devices with
a `connected_to` attribute. -/
theorem topology_edges_from_last_declarations (topology : TopologySection)
    (g : TopologyGraph) (h : build_topology_from_ast topology = .ok g) :
    g.nodes = topology.devices.map
        (fun d => ⟨d.name, ast_type_to_ir_kind d.device_type⟩) ∧
      g.edges = spec_topo_edges topology ∧
      g.edges.length = (topology.devices.filter
        (fun d => d.attributes.connected_to.isSome)).length := by
  simp only [build_topology_from_ast] at h
  split at h
  case isFalse => cases h
  case isTrue hemp =>
  cases h
  have hnil : (topologySecondPass topology.devices
      (topologyFirstPass topology.devices).2
      (topologyFirstPass topology.devices).1).2 = [] := by
    rcases hl : (topologySecondPass topology.devices
        (topologyFirstPass topology.devices).2
        (topologyFirstPass topology.devices).1).2 with _ | ⟨a, l⟩
    · rfl
    · rw [hl] at hemp
      simp [List.isEmpty] at hemp
  have hnil' : (topologySecondPassGo (topologyFirstPass topology.devices).2
      topology.devices ((topologyFirstPass topology.devices).1, [])).2 =
      [] := hnil
  obtain ⟨h1, h2, h3⟩ := topologySecondPassGo_ok
    (topologyFirstPass topology.devices).2 topology.devices
    (topologyFirstPass topology.devices).1 [] hnil'
  obtain ⟨f1, f2, _⟩ :=
    topologyFirstPassGo_spec topology.devices TopologyGraph.new []
  have ffind := topologyFirstPass_find topology
  have hnodes : (topologySecondPass topology.devices
      (topologyFirstPass topology.devices).2
      (topologyFirstPass topology.devices).1).1.nodes =
      topology.devices.map
        (fun d => ⟨d.name, ast_type_to_ir_kind d.device_type⟩) := by
    have hfn : (topologyFirstPass topology.devices).1.nodes =
        topology.devices.map
          (fun d => ⟨d.name, ast_type_to_ir_kind d.device_type⟩) := by
      show (topologyFirstPassGo topology.devices
        (TopologyGraph.new, [])).1.nodes = _
      rw [f1]
      rfl
    exact h1.trans hfn
  have hspec : specEdgesRel (topologyFirstPass topology.devices).2
      topology.devices = spec_topo_edges topology := by
    refine filterMap_congr_mem _ _ _ ?_
    intro device _
    rcases hct : device.attributes.connected_to with _ | t
    · rfl
    · simp only [ffind, Option.some_bind]
      rcases lastDeclNode topology.devices t with _ | tf
      · rfl
      · simp only [Option.map_some', Option.some_bind]
        rcases lastDeclNode topology.devices device.name with _ | cf
        · rfl
        · rfl
  have hedges : (topologySecondPass topology.devices
      (topologyFirstPass topology.devices).2
      (topologyFirstPass topology.devices).1).1.edges =
      spec_topo_edges topology := by
    have hfe : (topologyFirstPass topology.devices).1.edges = [] := by
      show (topologyFirstPassGo topology.devices
        (TopologyGraph.new, [])).1.edges = _
      rw [f2]
      rfl
    rw [show (topologySecondPass topology.devices
        (topologyFirstPass topology.devices).2
        (topologyFirstPass topology.devices).1).1.edges =
        (topologySecondPassGo (topologyFirstPass topology.devices).2
          topology.devices
          ((topologyFirstPass topology.devices).1, [])).1.edges from rfl,
      h2, hfe, hspec]
    rfl
  refine ⟨hnodes, hedges, ?_⟩
  rw [hedges]
  unfold spec_topo_edges
  refine filterMap_length_eq_filter _ _ _ ?_
  intro device hdev
  rcases hct : device.attributes.connected_to with _ | t
  · simp [hct]
  · obtain ⟨tn, htn, hrest⟩ := h3 device hdev t hct
    have hself : (lastDeclNode topology.devices device.name).isSome = true :=
      lastDeclAux_self device.name topology.devices 0
        ⟨device, hdev, rfl⟩
    rcases hcn : lastDeclNode topology.devices device.name with _ | cf
    · rw [hcn] at hself; cases hself
    · have hcn' : alFind? (topologyFirstPass topology.devices).2
          device.name = some ⟨cf.1, cf.2⟩ := by
        rw [ffind, hcn]; rfl
      obtain ⟨ct, hctf⟩ := hrest ⟨cf.1, cf.2⟩ hcn'
      rw [ffind] at htn
      rcases htf : lastDeclNode topology.devices t with _ | tf
      · rw [htf] at htn; cases htn
      · rw [htf] at htn
        simp only [Option.map] at htn
        cases htn
        dsimp only at hctf
        simp [hct, htf, hcn, hctf]

/-- Counterexample to C9 as stated: with duplicate names, the edge created
for the first declaration of `d` (node 1) has the LAST declaration's node
(node 2) as its sink, so no edge has the declaring device's node as sink,
although the builder succeeds. -/
theorem c9_counterexample_duplicate_name_sink :
    build_topology_from_ast dupEdgeTopology = .ok dupEdgeGraph ∧
      dupEdgeGraph.edges = [⟨0, 2, .electrical⟩] ∧
      (dupEdgeTopology.devices.get? 1).map
        (fun d => d.attributes.connected_to) = some (some "Y0") ∧
      ∀ e ∈ dupEdgeGraph.edges, e.tgt ≠ 1 :=
  ⟨rfl, rfl, rfl, by decide⟩

/-- Witness for the amended C9 theorem at the PRD topology: four
`connected_to` declarations, four edges. -/
theorem topology_edges_from_last_declarations_witness :
    build_topology_from_ast exTopology = .ok exGraph ∧
      exGraph.edges.length = 4 :=
  ⟨rfl,
    ((topology_edges_from_last_declarations exTopology exGraph rfl).2.2).trans
      (by decide)⟩

/-! ## C7: wait-without-escape -/

mutual

theorem collect_facts_spec : (ss : List StepStatement) →
    ∀ facts : StepLivenessFacts,
      collect_step_liveness_facts ss facts =
        ⟨facts.waits ++ spec_wait_texts ss,
         facts.has_timeout || spec_has_timeout ss,
         facts.has_allow_indefinite_wait || spec_has_allow_true ss⟩
  | [], facts => by
    simp [collect_step_liveness_facts, spec_wait_texts, spec_has_timeout,
      spec_has_allow_true]
  | s :: rest, facts => by
    rw [show collect_step_liveness_facts (s :: rest) facts =
      collect_step_liveness_facts rest (collect_liveness_fact s facts)
      from rfl]
    rw [collect_facts_spec rest, collect_fact_one_spec s]
    simp [spec_wait_texts, spec_has_timeout, spec_has_allow_true,
      List.append_assoc, Bool.or_assoc]

theorem collect_fact_one_spec : (s : StepStatement) →
    ∀ facts : StepLivenessFacts,
      collect_liveness_fact s facts =
        ⟨facts.waits ++ spec_wait_texts_one s,
         facts.has_timeout || spec_has_timeout_one s,
         facts.has_allow_indefinite_wait || spec_has_allow_true_one s⟩
  | .wait w, facts => by
    simp [collect_liveness_fact, spec_wait_texts_one, spec_has_timeout_one,
      spec_has_allow_true_one]
  | .timeout t, facts => by
    simp [collect_liveness_fact, spec_wait_texts_one, spec_has_timeout_one,
      spec_has_allow_true_one]
  | .goto g, facts => by
    simp [collect_liveness_fact, spec_wait_texts_one, spec_has_timeout_one,
      spec_has_allow_true_one]
  | .action a, facts => by
    simp [collect_liveness_fact, spec_wait_texts_one, spec_has_timeout_one,
      spec_has_allow_true_one]
  | .allowIndefiniteWait value, facts => by
    cases value <;>
      simp [collect_liveness_fact, spec_wait_texts_one,
        spec_has_timeout_one, spec_has_allow_true_one]
  | .parallel (.mk branches), facts => by
    rw [show collect_liveness_fact (.parallel (.mk branches)) facts =
      collect_liveness_par branches facts from rfl]
    rw [collect_par_spec branches]
    simp [spec_wait_texts_one, spec_has_timeout_one, spec_has_allow_true_one]
  | .race (.mk branches), facts => by
    rw [show collect_liveness_fact (.race (.mk branches)) facts =
      collect_liveness_race branches facts from rfl]
    rw [collect_race_spec branches]
    simp [spec_wait_texts_one, spec_has_timeout_one, spec_has_allow_true_one]

theorem collect_par_spec : (bs : List Branch) →
    ∀ facts : StepLivenessFacts,
      collect_liveness_par bs facts =
        ⟨facts.waits ++ spec_wait_texts_par bs,
         facts.has_timeout || spec_has_timeout_par bs,
         facts.has_allow_indefinite_wait || spec_has_allow_true_par bs⟩
  | [], facts => by
    simp [collect_liveness_par, spec_wait_texts_par, spec_has_timeout_par,
      spec_has_allow_true_par]
  | .mk statements :: rest, facts => by
    rw [show collect_liveness_par (.mk statements :: rest) facts =
      collect_liveness_par rest
        (collect_step_liveness_facts statements facts) from rfl]
    rw [collect_par_spec rest, collect_facts_spec statements]
    simp [spec_wait_texts_par, spec_has_timeout_par, spec_has_allow_true_par,
      List.append_assoc, Bool.or_assoc]

theorem collect_race_spec : (bs : List RaceBranch) →
    ∀ facts : StepLivenessFacts,
      collect_liveness_race bs facts =
        ⟨facts.waits ++ spec_wait_texts_race bs,
         facts.has_timeout || spec_has_timeout_race bs,
         facts.has_allow_indefinite_wait || spec_has_allow_true_race bs⟩
  | [], facts => by
    simp [collect_liveness_race, spec_wait_texts_race, spec_has_timeout_race,
      spec_has_allow_true_race]
  | .mk statements g :: rest, facts => by
    rw [show collect_liveness_race (.mk statements g :: rest) facts =
      collect_liveness_race rest
        (collect_step_liveness_facts statements facts) from rfl]
    rw [collect_race_spec rest, collect_facts_spec statements]
    simp [spec_wait_texts_race, spec_has_timeout_race,
      spec_has_allow_true_race, List.append_assoc, Bool.or_assoc]

end

theorem stepWaitDiagnostics_spec (task : TaskDeclaration)
    (step : StepDeclaration) :
    stepWaitDiagnostics task step =
      if spec_wait_texts step.statements ≠ [] ∧
          spec_has_timeout step.statements = false ∧
          spec_has_allow_true step.statements = false then
        (spec_wait_texts step.statements).map (mkWaitDiagnostic task step)
      else [] := by
  unfold stepWaitDiagnostics
  rw [collect_facts_spec step.statements {}]
  cases hw : spec_wait_texts step.statements <;>
    cases hht : spec_has_timeout step.statements <;>
      cases hha : spec_has_allow_true step.statements <;>
        simp [List.isEmpty]

theorem foldl_append_flat {α β : Type _} (l : List α) (f : α → List β) :
    ∀ init : List β,
      l.foldl (fun acc a => acc ++ f a) init = init ++ l.flatMap f := by
  induction l with
  | nil => intro init; simp
  | cons a l ih => intro init; simp [ih, List.append_assoc]

/-- C7: the liveness verifier's wait-without-escape check emits, for each
step, one diagnostic per wait expression found anywhere in the step's
statement tree (parallel and race branches included) exactly when the tree
contains at least one wait and contains neither a timeout directive nor an
`allow_indefinite_wait: true` flag; otherwise it emits nothing for that
step. -/
theorem wait_without_escape_iff (program : PlcProgram) :
    check_wait_timeout_or_allow program =
      program.tasks.tasks.flatMap (fun task =>
        task.steps.flatMap (fun step =>
          if spec_wait_texts step.statements ≠ [] ∧
              spec_has_timeout step.statements = false ∧
              spec_has_allow_true step.statements = false then
            (spec_wait_texts step.statements).map
              (mkWaitDiagnostic task step)
          else [])) := by
  unfold check_wait_timeout_or_allow
  have hfun : (fun (diagnostics : List LivenessDiagnostic)
      (task : TaskDeclaration) =>
      task.steps.foldl
        (fun diagnostics step => diagnostics ++ stepWaitDiagnostics task step)
        diagnostics) =
      (fun (diagnostics : List LivenessDiagnostic)
        (task : TaskDeclaration) => diagnostics ++
        task.steps.flatMap (fun step => stepWaitDiagnostics task step)) := by
    funext diagnostics task
    exact foldl_append_flat task.steps _ diagnostics
  rw [hfun, foldl_append_flat]
  simp only [List.nil_append]
  congr 1
  funext task
  congr 1
  funext step
  exact stepWaitDiagnostics_spec task step

/-! ## C8: `must_start_after` minimum-interval analysis -/

theorem best_predecessor_min (target_task target_step : String)
    (transitions : List Transition) :
    ∀ best0 : Option (Nat × String),
      (best_predecessor target_task target_step transitions best0).map
          Prod.fst =
        ((spec_predecessors transitions target_task target_step).map
          (fun transition =>
            transition_guard_min_interval_ms transition.guard)).foldl minStep
          (best0.map Prod.fst) := by
  induction transitions with
  | nil => intro best0; simp [best_predecessor, spec_predecessors]
  | cons transition rest ih =>
    intro best0
    by_cases hc : transition.to_.task_name = target_task ∧
        transition.to_.step_name = target_step
    · have hstep : best_predecessor target_task target_step
          (transition :: rest) best0 =
          best_predecessor target_task target_step rest
            (if (match best0 with
                | some b => decide
                    (transition_guard_min_interval_ms transition.guard < b.1)
                | none => true) then
              some (transition_guard_min_interval_ms transition.guard,
                transition.from_.task_name ++ "." ++
                  transition.from_.step_name ++ ", guard=" ++
                  transition_guard_name transition.guard ++ " -> " ++
                  transition.to_.task_name ++ "." ++
                  transition.to_.step_name)
            else best0) := by
        simp [best_predecessor, hc]
      rw [hstep, ih]
      have hfilter : spec_predecessors (transition :: rest) target_task
          target_step = transition ::
            spec_predecessors rest target_task target_step := by
        simp [spec_predecessors, List.filter_cons, hc]
      rw [hfilter]
      simp only [List.map_cons, List.foldl_cons]
      congr 1
      rcases best0 with _ | b
      · simp [minStep]
      · simp only [Option.map_some]
        by_cases hlt :
            transition_guard_min_interval_ms transition.guard < b.1
        · simp [minStep, hlt, Nat.min_eq_right (Nat.le_of_lt hlt)]
        · simp [minStep, hlt, Nat.min_eq_left (Nat.le_of_not_lt hlt)]
    · have hstep : best_predecessor target_task target_step
          (transition :: rest) best0 =
          best_predecessor target_task target_step rest best0 := by
        simp [best_predecessor, hc]
      have hfilter : spec_predecessors (transition :: rest) target_task
          target_step = spec_predecessors rest target_task target_step := by
        simp [spec_predecessors, List.filter_cons, hc]
      rw [hstep, hfilter, ih]

theorem foldl_minStep_some (xs : List Nat) :
    ∀ a : Nat, xs.foldl minStep (some a) = some (xs.foldl min a) := by
  induction xs with
  | nil => intro a; rfl
  | cons x xs ih => intro a; simp [minStep, ih]

theorem best_predecessor_spec_min (target_task target_step : String)
    (transitions : List Transition)
    (h : spec_predecessors transitions target_task target_step ≠ []) :
    (best_predecessor target_task target_step transitions none).map
        Prod.fst =
      some (spec_min_guard_interval
        (spec_predecessors transitions target_task target_step)) := by
  rw [best_predecessor_min]
  rcases hp : (spec_predecessors transitions target_task target_step) with
    _ | ⟨t0, ts⟩
  · exact absurd hp h
  · simp only [List.map_cons, List.foldl_cons]
    have h0 : minStep (Option.map Prod.fst (none : Option (Nat × String)))
        (transition_guard_min_interval_ms t0.guard) =
        some (transition_guard_min_interval_ms t0.guard) := rfl
    rw [h0, foldl_minStep_some]
    simp [spec_min_guard_interval, hp]

theorem best_predecessor_none_iff (target_task target_step : String)
    (transitions : List Transition) :
    best_predecessor target_task target_step transitions none = none ↔
      spec_predecessors transitions target_task target_step = [] := by
  constructor
  · intro h
    rcases hp : spec_predecessors transitions target_task target_step with
      _ | ⟨t0, ts⟩
    · rfl
    · exfalso
      have := best_predecessor_spec_min target_task target_step transitions
        (by rw [hp]; exact List.cons_ne_nil t0 ts)
      rw [h] at this
      cases this
  · intro hp
    have := best_predecessor_min target_task target_step transitions none
    rw [hp] at this
    simp only [List.map_nil, List.foldl_nil, Option.map_none] at this
    rcases hb : best_predecessor target_task target_step transitions none
      with _ | b
    · rfl
    · rw [hb] at this
      cases this

/-- C8: for a `must_start_after D` rule, the timing verifier computes the
minimum, over all transitions into the scope's first-step state, of the
guard's minimum interval (`timeout(d) → d`, `always | condition → 0`), and
emits a diagnostic exactly when that minimum is strictly below `D`; when no
such transition exists and the scope state is the machine's initial state,
the interval is 0 with the note "目标是状态机初始状态，无前驱延迟". -/
theorem must_start_after_minimum (program : PlcProgram)
    (step_estimates : List (String × StepTimingEstimate))
    (task_worst_case : List (String × Nat)) (sm : StateMachine)
    (index : Nat) (rule : TimingRule)
    (hrel : rule.relation = .mustStartAfter) :
    (timing_rule_diagnostics program step_estimates task_worst_case sm index
        rule ≠ [] ↔
      (shortest_predecessor_interval_ms rule.scope program sm).1 <
        rule.duration_ms) ∧
    ∀ target_task target_step,
      scope_target_state rule.scope program =
          some (target_task, target_step) →
      (spec_predecessors sm.transitions target_task target_step ≠ [] →
        (shortest_predecessor_interval_ms rule.scope program sm).1 =
          spec_min_guard_interval
            (spec_predecessors sm.transitions target_task target_step)) ∧
      (spec_predecessors sm.transitions target_task target_step = [] →
        sm.initial.task_name = target_task →
        sm.initial.step_name = target_step →
        shortest_predecessor_interval_ms rule.scope program sm =
          (0, "目标是状态机初始状态，无前驱延迟")) := by
  constructor
  · unfold timing_rule_diagnostics
    rw [hrel]
    by_cases hlt : (shortest_predecessor_interval_ms rule.scope program
        sm).1 < rule.duration_ms
    · simp [hlt]
    · simp [hlt]
  · intro target_task target_step hres
    have hms : shortest_predecessor_interval_ms rule.scope program sm =
        (match best_predecessor target_task target_step sm.transitions none
          with
        | some result => result
        | none =>
          if sm.initial.task_name = target_task ∧
              sm.initial.step_name = target_step then
            (0, "目标是状态机初始状态，无前驱延迟")
          else
            (0, "未找到前驱转移，按 0ms 处理")) := by
      rcases hscope : rule.scope with t | ⟨t, u⟩
      · rw [hscope] at hres
        unfold shortest_predecessor_interval_ms
        rw [hres]
      · rw [hscope] at hres
        unfold shortest_predecessor_interval_ms
        rw [hres]
    constructor
    · intro hne
      have hsome := best_predecessor_spec_min target_task target_step
        sm.transitions hne
      rcases hb : best_predecessor target_task target_step sm.transitions
        none with _ | result
      · rw [hb] at hsome; cases hsome
      · rw [hb] at hsome
        simp only [Option.map_some', Option.some.injEq] at hsome
        rw [hms, hb]
        exact hsome
    · intro hnil hti hsi
      have hnone := (best_predecessor_none_iff target_task target_step
        sm.transitions).mpr hnil
      rw [hms, hnone]
      simp [hti, hsi]

/-- Witness for C8 at scenario S6: the only predecessor of
`cooldown.begin` is the `timeout(100ms)` transition, the computed minimum
is 100, and the rule `must_start_after 200ms` produces a diagnostic. -/
theorem must_start_after_minimum_witness :
    timing_rule_diagnostics msProgram [] [] msSM 0 msRule ≠ [] ∧
      (shortest_predecessor_interval_ms msRule.scope msProgram msSM).1 =
        spec_min_guard_interval c8Preds ∧
      spec_min_guard_interval c8Preds = 100 :=
  ⟨(must_start_after_minimum msProgram [] [] msSM 0 msRule rfl).1.mpr
      (by decide),
    ((must_start_after_minimum msProgram [] [] msSM 0 msRule rfl).2
      "cooldown" "begin" (by decide)).1 (by decide),
    by decide⟩

/-! ## C2: depth policy -/

theorem from_inputs_states_nonempty (program : PlcProgram)
    (constraints : ConstraintSet) (sm : StateMachine) :
    1 ≤ (SafetyModel.from_inputs program constraints sm).states.length := by
  have hstates : (SafetyModel.from_inputs program constraints sm).states =
      (if sm.states.isEmpty then sm.states ++ [sm.initial]
       else sm.states) := rfl
  rcases h : sm.states with _ | ⟨a, l⟩ <;>
    simp [hstates, h, List.isEmpty]

/-- C2 (amended): the target exploration depth is
`max(|states|, max over cyclic SCCs of (|SCC| + 1))`; when the user's
`bmc_max_depth` is strictly below that target, the plan is truncated with
effective depth `max(limit, 1)` (the user's limit, floored at 1) and
exactly one warning, which names the SCC floor when the limit is below it
and otherwise names the overall target depth. -/
theorem depth_plan_spec (program : PlcProgram) (constraints : ConstraintSet)
    (sm : StateMachine) (config : SafetyConfig) (limit : Nat)
    (hl : config.bmc_max_depth = some limit)
    (hlt : limit <
      (SafetyModel.from_inputs program constraints sm).suggested_depth) :
    (SafetyModel.from_inputs program constraints sm).suggested_depth =
        max (SafetyModel.from_inputs program constraints sm).states.length
          (SafetyModel.from_inputs program constraints sm).max_scc_depth ∧
      (SafetyModel.from_inputs program constraints sm).max_scc_depth =
        scc_minimum_depth
          (SafetyModel.from_inputs program constraints sm).states.length
          (SafetyModel.from_inputs program constraints sm).edges ∧
      (build_depth_plan (SafetyModel.from_inputs program constraints sm)
          config).effective_depth = max limit 1 ∧
      (build_depth_plan (SafetyModel.from_inputs program constraints sm)
          config).truncated = true ∧
      (build_depth_plan (SafetyModel.from_inputs program constraints sm)
          config).warnings =
        [if limit <
            (SafetyModel.from_inputs program constraints sm).max_scc_depth
          then
            scc_truncation_warning limit
              (SafetyModel.from_inputs program constraints sm).max_scc_depth
          else
            target_truncation_warning limit
              (SafetyModel.from_inputs program constraints
                sm).suggested_depth] := by
  have h1 : (SafetyModel.from_inputs program constraints sm).suggested_depth
      = max (max
          (SafetyModel.from_inputs program constraints sm).states.length
          (SafetyModel.from_inputs program constraints sm).max_scc_depth)
        1 := rfl
  have hlen := from_inputs_states_nonempty program constraints sm
  have hcollapse : (SafetyModel.from_inputs program constraints
      sm).suggested_depth = max
        (SafetyModel.from_inputs program constraints sm).states.length
        (SafetyModel.from_inputs program constraints sm).max_scc_depth := by
    rw [h1]
    exact Nat.max_eq_left (le_trans hlen (Nat.le_max_left _ _))
  refine ⟨hcollapse, rfl, ?_, ?_, ?_⟩
  · show (build_depth_plan _ config).effective_depth = _
    unfold build_depth_plan
    rw [hl]
    simp only [hlt, if_pos]
  · unfold build_depth_plan
    rw [hl]
    simp only [hlt, if_pos]
  · unfold build_depth_plan
    rw [hl]
    simp only [hlt, if_pos]
    by_cases hscc : limit <
        (SafetyModel.from_inputs program constraints sm).max_scc_depth
    · have hpos : 0 <
          (SafetyModel.from_inputs program constraints sm).max_scc_depth :=
        Nat.lt_of_le_of_lt (Nat.zero_le limit) hscc
      simp [hscc, hpos]
    · simp [hscc]

/-- Counterexample to C2 as stated: on a two-state loop machine the target
depth is 3, and with `bmc_max_depth = 0` the effective depth is 1, not the
user's limit 0. -/
theorem c2_counterexample_effective_depth_floor :
    0 < (SafetyModel.from_inputs emptyProgram ⟨[], [], []⟩
        loopSM).suggested_depth ∧
      (build_depth_plan
        (SafetyModel.from_inputs emptyProgram ⟨[], [], []⟩ loopSM)
        ⟨some 0⟩).effective_depth = 1 ∧
      (build_depth_plan
        (SafetyModel.from_inputs emptyProgram ⟨[], [], []⟩ loopSM)
        ⟨some 0⟩).effective_depth ≠ 0 :=
  ⟨by decide, by decide, by decide⟩

/-- Witness for the amended C2 theorem on the four-state chain machine:
target 4, SCC floor 2, user limit 3 → truncated to 3 with the
overall-target warning. -/
theorem depth_plan_spec_witness :
    (3 : Nat) < (SafetyModel.from_inputs emptyProgram ⟨[], [], []⟩
        chainSM).suggested_depth ∧
      (build_depth_plan
          (SafetyModel.from_inputs emptyProgram ⟨[], [], []⟩ chainSM)
          ⟨some 3⟩).effective_depth = max 3 1 :=
  ⟨by decide,
    (depth_plan_spec emptyProgram ⟨[], [], []⟩ chainSM ⟨some 3⟩ 3 rfl
      (by decide)).2.2.1⟩

/-! ## Builder-invariant lemmas (shared by C3, C5, C6) -/

theorem alFind?_some_mem {K V : Type} [DecidableEq K] :
    ∀ (l : List (K × V)) (k : K) (v : V),
      alFind? l k = some v → v ∈ l.map Prod.snd := by
  intro l
  induction l with
  | nil => intro k v h; exact absurd h (by simp [alFind?])
  | cons p rest ih =>
    intro k v h
    unfold alFind? at h
    split at h
    · injection h with h
      exact h ▸ List.mem_cons_self _ _
    · exact List.mem_cons_of_mem _ (ih k v h)

theorem snd_mem_of_mem_enumFrom {α : Type _} :
    ∀ (l : List α) (n : Nat) (p : Nat × α), p ∈ l.enumFrom n → p.2 ∈ l := by
  intro l
  induction l with
  | nil => intro n p h; exact absurd h (by simp)
  | cons a l ih =>
    intro n p h
    rcases List.mem_cons.mp h with rfl | h
    · exact List.mem_cons_self _ _
    · exact List.mem_cons_of_mem _ (ih (n + 1) p h)

theorem snd_mem_of_mem_enum {α : Type _} {l : List α} {p : Nat × α}
    (h : p ∈ l.enum) : p.2 ∈ l :=
  snd_mem_of_mem_enumFrom l 0 p h

theorem statePair_inj {s1 s2 : State} (h : statePair s1 = statePair s2) :
    s1 = s2 := by
  cases s1; cases s2; simp_all [statePair]

/-- `add_state` always returns the state it was asked for. -/
theorem add_state_snd (b : StateMachineBuilder) (tn sn : String) :
    (b.add_state tn sn).2 = ⟨tn, sn⟩ := by
  unfold StateMachineBuilder.add_state
  dsimp only
  split <;> rfl

/-- `add_state` keeps the builder well-formed, only appends to the
states list, returns a member, and leaves transitions unchanged. -/
theorem add_state_spec (b : StateMachineBuilder) (tn sn : String)
    (h : BWF b) :
    BWF (b.add_state tn sn).1 ∧
      (∃ d, (b.add_state tn sn).1.states = b.states ++ d) ∧
      (⟨tn, sn⟩ : State) ∈ (b.add_state tn sn).1.states ∧
      (b.add_state tn sn).1.transitions = b.transitions := by
  obtain ⟨hseen, hnd⟩ := h
  unfold StateMachineBuilder.add_state
  by_cases hmem : (tn, sn) ∈ b.seen_states
  · rw [if_pos hmem]
    refine ⟨⟨hseen, hnd⟩, ⟨[], (List.append_nil _).symm⟩, ?_, rfl⟩
    rw [hseen] at hmem
    obtain ⟨s, hs, hps⟩ := List.mem_map.mp hmem
    have heq : s = ⟨tn, sn⟩ := by cases s; simp_all [statePair]
    exact heq ▸ hs
  · rw [if_neg hmem]
    have hnotin : (⟨tn, sn⟩ : State) ∉ b.states := by
      intro hin
      exact hmem (hseen ▸ List.mem_map_of_mem statePair hin)
    refine ⟨⟨?_, ?_⟩, ⟨[⟨tn, sn⟩], rfl⟩, ?_, rfl⟩
    · simp [hseen, statePair]
    · simp [List.nodup_append, hnd, hnotin]
    · simp

theorem BInv_self (st : BuildSt) (h : BWF st.1) : BInv st.1 st :=
  ⟨h, ⟨[], (List.append_nil _).symm⟩, fun _ ht => .inl ht⟩

theorem BInv_trans {b0 : StateMachineBuilder} {st st2 : BuildSt}
    (h1 : BInv b0 st) (h2 : BInv st.1 st2) : BInv b0 st2 := by
  obtain ⟨hw1, ⟨d1, hd1⟩, ht1⟩ := h1
  obtain ⟨hw2, ⟨d2, hd2⟩, ht2⟩ := h2
  refine ⟨hw2, ⟨d1 ++ d2, by rw [hd2, hd1, List.append_assoc]⟩, ?_⟩
  intro t ht
  rcases ht2 t ht with hold | hgood
  · rcases ht1 t hold with h | ⟨hf, htt, hs⟩
    · exact .inl h
    · exact .inr ⟨hd2 ▸ List.mem_append_left _ hf,
        hd2 ▸ List.mem_append_left _ htt, hs⟩
  · exact .inr hgood

theorem BInv_states_mono {b0 : StateMachineBuilder} {st : BuildSt}
    (h : BInv b0 st) {s : State} (hs : s ∈ b0.states) : s ∈ st.1.states := by
  obtain ⟨-, ⟨d, hd⟩, -⟩ := h
  exact hd ▸ List.mem_append_left _ hs

theorem BInv_bwf {b0 : StateMachineBuilder} {st : BuildSt}
    (h : BInv b0 st) : BWF st.1 := h.1

theorem BInv_add_transition {b0 b : StateMachineBuilder}
    {E0 : List PlcError} {E : List PlcError} {f t : State}
    {g : TransitionGuard} {a : List TransitionAction}
    {ti : List TimerOperation}
    (h : BInv b0 (b, E0)) (hf : f ∈ b.states) (ht : t ∈ b.states)
    (hsh : TimerShape ⟨f, t, g, a, ti⟩) :
    BInv b0 (b.add_transition f t g a ti, E) := by
  obtain ⟨hw, hpre, htr⟩ := h
  refine ⟨hw, hpre, ?_⟩
  intro x hx
  rcases List.mem_append.mp hx with h1 | h2
  · exact htr x h1
  · rcases List.mem_singleton.mp h2 with rfl
    exact .inr ⟨hf, ht, hsh⟩

theorem timerShape_always (f t : State) (a : List TransitionAction) :
    TimerShape ⟨f, t, .always, a, []⟩ := fun _ hd => nomatch hd

theorem timerShape_condition (f t : State) (e : String)
    (a : List TransitionAction) :
    TimerShape ⟨f, t, .condition e, a, []⟩ := fun _ hd => nomatch hd

theorem timerShape_timeout (f t : State) (d : Nat) (name : String) :
    TimerShape ⟨f, t, .timeout d, [], [⟨name, .start, some d⟩]⟩ := by
  intro d2 hd
  injection hd with h
  subst h
  exact ⟨rfl, name, rfl⟩

theorem BInvK_binv (keep : List State) {b0 : StateMachineBuilder}
    {st : BuildSt} (h : BInvK b0 keep st) : BInv b0 st := h.1

/-- Base case for threading `BInvK` through a build phase: the builder
reached so far is well-formed, extends `b0` without new transitions, and
already contains every pinned state. -/
theorem BInvK_base (E : List PlcError) {b0 : StateMachineBuilder}
    {keep : List State} {b : StateMachineBuilder}
    (hWF : BWF b) (hpre : ∃ d, b.states = b0.states ++ d)
    (htr : b.transitions = b0.transitions)
    (hkeep : ∀ s ∈ keep, s ∈ b.states) : BInvK b0 keep (b, E) :=
  ⟨⟨hWF, hpre, fun t ht => .inl (htr ▸ ht)⟩, hkeep⟩

theorem BInvK_add_transition {b0 : StateMachineBuilder} {keep : List State}
    {b : StateMachineBuilder} {E0 E : List PlcError} {f t : State}
    {g : TransitionGuard} {a : List TransitionAction}
    {ti : List TimerOperation}
    (h : BInvK b0 keep (b, E0)) (hf : f ∈ keep) (ht : t ∈ keep)
    (hsh : TimerShape ⟨f, t, g, a, ti⟩) :
    BInvK b0 keep (b.add_transition f t g a ti, E) := by
  obtain ⟨hB, hkeep⟩ := h
  exact ⟨BInv_add_transition hB (hkeep f hf) (hkeep t ht) hsh, hkeep⟩

/-- Folding any loop body that satisfies `BInv` relative to its own input
preserves `BInvK`. -/
theorem BInvK_fold {b0 : StateMachineBuilder} {keep : List State}
    {α : Type _} {F : BuildSt → α → BuildSt} {l : List α} {st : BuildSt}
    (h : BInvK b0 keep st)
    (hstep : ∀ st2 a, a ∈ l → BWF st2.1 →
      (∀ s ∈ keep, s ∈ st2.1.states) → BInv st2.1 (F st2 a)) :
    BInvK b0 keep (l.foldl F st) := by
  refine foldl_preserves (P := BInvK b0 keep) F l st h ?_
  intro s a ha hP
  obtain ⟨hB, hK⟩ := hP
  have hstep2 := hstep s a ha (BInv_bwf hB) hK
  exact ⟨BInv_trans hB hstep2,
    fun x hx => BInv_states_mono hstep2 (hK x hx)⟩

/-- The final edge of a branch body when it has no control flow: an
`always` edge added under an `if`. -/
theorem BInvK_ite_add_transition {b0 : StateMachineBuilder}
    {keep : List State} {c : Bool} {st : BuildSt} {f t : State}
    {g : TransitionGuard} {a : List TransitionAction}
    {ti : List TimerOperation}
    (h : BInvK b0 keep st) (hf : f ∈ keep) (ht : t ∈ keep)
    (hsh : TimerShape ⟨f, t, g, a, ti⟩) :
    BInvK b0 keep
      (if c then st else (st.1.add_transition f t g a ti, st.2)) := by
  cases c with
  | false => simpa using BInvK_add_transition h hf ht hsh
  | true => simpa using h

/-- An `always` edge added under a `match` on an optional completion
target. -/
theorem BInvK_match_add {b0 : StateMachineBuilder} {keep : List State}
    {ct : Option State} {st : BuildSt} {f : State} {g : TransitionGuard}
    {a : List TransitionAction} {ti : List TimerOperation}
    (h : BInvK b0 keep st) (hf : f ∈ keep)
    (hct : ∀ s, ct = some s → s ∈ keep)
    (hsh : ∀ target, TimerShape ⟨f, target, g, a, ti⟩) :
    BInvK b0 keep
      (match ct with
       | some target => (st.1.add_transition f target g a ti, st.2)
       | none => st) := by
  cases ct with
  | some target => exact BInvK_add_transition h hf (hct _ rfl) (hsh _)
  | none => exact h

/-- The combination of the two previous shapes: the final edge of a step
or race-branch body. -/
theorem BInvK_ite_match_add {b0 : StateMachineBuilder} {keep : List State}
    {c : Bool} {ct : Option State} {st : BuildSt} {f : State}
    {g : TransitionGuard} {a : List TransitionAction}
    {ti : List TimerOperation}
    (h : BInvK b0 keep st) (hf : f ∈ keep)
    (hct : ∀ s, ct = some s → s ∈ keep)
    (hsh : ∀ target, TimerShape ⟨f, target, g, a, ti⟩) :
    BInvK b0 keep
      (if c then st
       else match ct with
         | some target => (st.1.add_transition f target g a ti, st.2)
         | none => st) := by
  cases c with
  | false => simpa using BInvK_match_add h hf hct hsh
  | true => simpa using h

/-- A race-branch completion target is a `task_initial_states` value or
the enclosing completion target. -/
theorem race_branch_completion_states (branch : RaceBranch)
    (ct : Option State) (tis : List (String × State)) (E : List PlcError)
    (s : State)
    (h : (race_branch_completion branch ct tis E).1 = some s) :
    s ∈ tis.map Prod.snd ∨ ct = some s := by
  unfold race_branch_completion at h
  rcases hbg : branch.then_goto with _ | goto <;> simp only [hbg] at h
  · exact .inr h
  · unfold resolve_task_target at h
    rcases hfind : alFind? tis goto.step with _ | v <;>
      simp only [hfind] at h
    · exact .inr h
    · injection h with h
      exact .inl (h ▸ alFind?_some_mem tis goto.step v hfind)

/-- The master invariant of the block builders: each of the four mutual
functions preserves `BInv` relative to its input build state, given that
its source/fork/join/decision states, the `task_initial_states` values,
and the completion target (when present) are already states. -/
theorem builders_BInv (fuel : Nat) :
    (∀ (task : TaskDeclaration) (step_name : String) (block_index : Nat)
        (fork_state join_state : State) (tis : List (String × State))
        (st : BuildSt) (p : Nat × Branch),
        BWF st.1 → fork_state ∈ st.1.states → join_state ∈ st.1.states →
        (∀ q ∈ tis, Prod.snd q ∈ st.1.states) →
        BInv st.1 (build_parallel_branch fuel task step_name block_index
          fork_state join_state tis st p)) ∧
    (∀ (task : TaskDeclaration) (step_name : String) (source_state : State)
        (block_index : Nat) (block : ParallelBlock)
        (completion_target : Option State) (tis : List (String × State))
        (parent_actions : List TransitionAction) (st : BuildSt),
        BWF st.1 → source_state ∈ st.1.states →
        (∀ q ∈ tis, Prod.snd q ∈ st.1.states) →
        (∀ s, completion_target = some s → s ∈ st.1.states) →
        BInv st.1 (build_parallel_block fuel task step_name source_state
          block_index block completion_target tis parent_actions st)) ∧
    (∀ (task : TaskDeclaration) (step_name : String) (block_index : Nat)
        (decision_state : State) (completion_target : Option State)
        (tis : List (String × State)) (st : BuildSt) (p : Nat × RaceBranch),
        BWF st.1 → decision_state ∈ st.1.states →
        (∀ q ∈ tis, Prod.snd q ∈ st.1.states) →
        (∀ s, completion_target = some s → s ∈ st.1.states) →
        BInv st.1 (build_race_branch fuel task step_name block_index
          decision_state completion_target tis st p)) ∧
    (∀ (task : TaskDeclaration) (step_name : String) (source_state : State)
        (block_index : Nat) (block : RaceBlock)
        (completion_target : Option State) (tis : List (String × State))
        (parent_actions : List TransitionAction) (st : BuildSt),
        BWF st.1 → source_state ∈ st.1.states →
        (∀ q ∈ tis, Prod.snd q ∈ st.1.states) →
        (∀ s, completion_target = some s → s ∈ st.1.states) →
        BInv st.1 (build_race_block fuel task step_name source_state
          block_index block completion_target tis parent_actions st)) := by
  induction fuel with
  | zero =>
    refine ⟨?_, ?_, ?_, ?_⟩
    · intro task step_name block_index fork_state join_state tis st p
        hWF hfork hjoin htis
      unfold build_parallel_branch
      exact BInv_self st hWF
    · intro task step_name source_state block_index block completion_target
        tis parent_actions st hWF hsrc htis hcomp
      unfold build_parallel_block
      exact BInv_self st hWF
    · intro task step_name block_index decision_state completion_target
        tis st p hWF hdec htis hcomp
      unfold build_race_branch
      exact BInv_self st hWF
    · intro task step_name source_state block_index block completion_target
        tis parent_actions st hWF hsrc htis hcomp
      unfold build_race_block
      exact BInv_self st hWF
  | succ fuel ih =>
    obtain ⟨ihpb, ihp, ihrb, ihr⟩ := ih
    refine ⟨?_, ?_, ?_, ?_⟩
    -- parallel branch
    · intro task step_name block_index fork_state join_state tis st p
        hWF hfork hjoin htis
      refine BInvK_binv (fork_state ::
        (⟨task.name, step_name ++ "__parallel_" ++
            toString (block_index + 1) ++ "_branch_" ++
            toString (p.1 + 1)⟩ : State) :: join_state ::
          tis.map Prod.snd) ?_
      unfold build_parallel_branch
      simp only [add_state_snd]
      refine BInvK_ite_add_transition
        (BInvK_fold (BInvK_fold (BInvK_fold (BInvK_fold (BInvK_fold
          (BInvK_add_transition (BInvK_base st.2 ?w ?pre ?tr ?k)
            ?f1 ?t1 (timerShape_always _ _ _))
          ?hgoto) ?htime) ?hwait) ?hpar) ?hrace)
        ?f2 ?t2 (timerShape_always _ _ _)
      case w => exact (add_state_spec st.1 task.name _ hWF).1
      case pre => exact (add_state_spec st.1 task.name _ hWF).2.1
      case tr => exact (add_state_spec st.1 task.name _ hWF).2.2.2
      case k =>
        intro x hx
        obtain ⟨hw1, ⟨d1, hd1⟩, hm1, ht1⟩ :=
          add_state_spec st.1 task.name (step_name ++ "__parallel_" ++
            toString (block_index + 1) ++ "_branch_" ++
            toString (p.1 + 1)) hWF
        rcases List.mem_cons.mp hx with rfl | hx
        · exact hd1 ▸ List.mem_append_left _ hfork
        rcases List.mem_cons.mp hx with rfl | hx
        · exact hm1
        rcases List.mem_cons.mp hx with rfl | hx
        · exact hd1 ▸ List.mem_append_left _ hjoin
        · obtain ⟨q, hq, rfl⟩ := List.mem_map.mp hx
          exact hd1 ▸ List.mem_append_left _ (htis q hq)
      case f1 => exact List.mem_cons_self _ _
      case t1 => exact List.mem_cons_of_mem _ (List.mem_cons_self _ _)
      case hgoto =>
        intro st2 goto hg hW hK
        dsimp only
        rcases hfind : alFind? tis goto.step with _ | target <;>
          simp only [resolve_task_target, hfind]
        · exact BInv_self st2 hW
        · refine BInv_add_transition (BInv_self st2 hW)
            (hK _ (List.mem_cons_of_mem _ (List.mem_cons_self _ _)))
            (hK _ (List.mem_cons_of_mem _ (List.mem_cons_of_mem _
              (List.mem_cons_of_mem _
                (alFind?_some_mem tis goto.step target hfind)))))
            (timerShape_always _ _ _)
      case htime =>
        intro st2 q hq hW hK
        dsimp only
        rcases hfind : alFind? tis q.2.target.step with _ | target <;>
          simp only [resolve_task_target, hfind]
        · exact BInv_self st2 hW
        · refine BInv_add_transition (BInv_self st2 hW)
            (hK _ (List.mem_cons_of_mem _ (List.mem_cons_self _ _)))
            (hK _ (List.mem_cons_of_mem _ (List.mem_cons_of_mem _
              (List.mem_cons_of_mem _
                (alFind?_some_mem tis q.2.target.step target hfind)))))
            (timerShape_timeout _ _ _ _)
      case hwait =>
        intro st2 w hw hW hK
        dsimp only
        exact BInv_add_transition (BInv_self st2 hW)
          (hK _ (List.mem_cons_of_mem _ (List.mem_cons_self _ _)))
          (hK _ (List.mem_cons_of_mem _ (List.mem_cons_of_mem _
            (List.mem_cons_self _ _))))
          (timerShape_condition _ _ _ _)
      case hpar =>
        intro st2 q hq hW hK
        exact ihp _ _ _ _ _ _ _ _ _ hW
          (hK _ (List.mem_cons_of_mem _ (List.mem_cons_self _ _)))
          (fun r hr => hK _ (List.mem_cons_of_mem _
            (List.mem_cons_of_mem _ (List.mem_cons_of_mem _
              (List.mem_map_of_mem Prod.snd hr)))))
          (fun s hs => by
            injection hs with hs
            exact hs ▸ hK _ (List.mem_cons_of_mem _
              (List.mem_cons_of_mem _ (List.mem_cons_self _ _))))
      case hrace =>
        intro st2 q hq hW hK
        exact ihr _ _ _ _ _ _ _ _ _ hW
          (hK _ (List.mem_cons_of_mem _ (List.mem_cons_self _ _)))
          (fun r hr => hK _ (List.mem_cons_of_mem _
            (List.mem_cons_of_mem _ (List.mem_cons_of_mem _
              (List.mem_map_of_mem Prod.snd hr)))))
          (fun s hs => by
            injection hs with hs
            exact hs ▸ hK _ (List.mem_cons_of_mem _
              (List.mem_cons_of_mem _ (List.mem_cons_self _ _))))
      case f2 => exact List.mem_cons_of_mem _ (List.mem_cons_self _ _)
      case t2 =>
        exact List.mem_cons_of_mem _ (List.mem_cons_of_mem _
          (List.mem_cons_self _ _))
    -- parallel block
    · intro task step_name source_state block_index block completion_target
        tis parent_actions st hWF hsrc htis hcomp
      unfold build_parallel_block
      simp only [add_state_snd]
      cases completion_target with
      | none =>
        refine BInvK_binv (source_state ::
          (⟨task.name, step_name ++ "__parallel_" ++
              toString (block_index + 1) ++ "_fork"⟩ : State) ::
          (⟨task.name, step_name ++ "__parallel_" ++
              toString (block_index + 1) ++ "_join"⟩ : State) ::
            tis.map Prod.snd) ?_
        refine BInvK_fold
          (BInvK_add_transition (BInvK_base st.2 ?w ?pre ?tr ?k)
            ?f1 ?t1 (timerShape_always _ _ _))
          ?hbranch
        case w =>
          exact (add_state_spec (st.1.add_state task.name _).1 task.name _
            (add_state_spec st.1 task.name _ hWF).1).1
        case pre =>
          obtain ⟨d1, hd1⟩ := (add_state_spec st.1 task.name
            (step_name ++ "__parallel_" ++ toString (block_index + 1) ++
              "_fork") hWF).2.1
          obtain ⟨d2, hd2⟩ := (add_state_spec (st.1.add_state task.name _).1
            task.name (step_name ++ "__parallel_" ++
              toString (block_index + 1) ++ "_join")
            (add_state_spec st.1 task.name _ hWF).1).2.1
          exact ⟨d1 ++ d2, by rw [hd2, hd1, List.append_assoc]⟩
        case tr =>
          rw [(add_state_spec (st.1.add_state task.name _).1 task.name _
            (add_state_spec st.1 task.name _ hWF).1).2.2.2]
          exact (add_state_spec st.1 task.name _ hWF).2.2.2
        case k =>
          intro x hx
          obtain ⟨hw1, ⟨d1, hd1⟩, hm1, ht1⟩ :=
            add_state_spec st.1 task.name (step_name ++ "__parallel_" ++
              toString (block_index + 1) ++ "_fork") hWF
          obtain ⟨hw2, ⟨d2, hd2⟩, hm2, ht2⟩ :=
            add_state_spec (st.1.add_state task.name (step_name ++
              "__parallel_" ++ toString (block_index + 1) ++ "_fork")).1
              task.name (step_name ++ "__parallel_" ++
                toString (block_index + 1) ++ "_join") hw1
          rcases List.mem_cons.mp hx with rfl | hx
          · exact hd2 ▸ List.mem_append_left _
              (hd1 ▸ List.mem_append_left _ hsrc)
          rcases List.mem_cons.mp hx with rfl | hx
          · exact hd2 ▸ List.mem_append_left _ hm1
          rcases List.mem_cons.mp hx with rfl | hx
          · exact hm2
          · obtain ⟨q, hq, rfl⟩ := List.mem_map.mp hx
            exact hd2 ▸ List.mem_append_left _
              (hd1 ▸ List.mem_append_left _ (htis q hq))
        case f1 => exact List.mem_cons_self _ _
        case t1 => exact List.mem_cons_of_mem _ (List.mem_cons_self _ _)
        case hbranch =>
          intro st2 q hq hW hK
          exact ihpb _ _ _ _ _ _ st2 q hW
            (hK _ (List.mem_cons_of_mem _ (List.mem_cons_self _ _)))
            (hK _ (List.mem_cons_of_mem _ (List.mem_cons_of_mem _
              (List.mem_cons_self _ _))))
            (fun r hr => hK _ (List.mem_cons_of_mem _
              (List.mem_cons_of_mem _ (List.mem_cons_of_mem _
                (List.mem_map_of_mem Prod.snd hr)))))
      | some target =>
        refine BInvK_binv (source_state ::
          (⟨task.name, step_name ++ "__parallel_" ++
              toString (block_index + 1) ++ "_fork"⟩ : State) ::
          (⟨task.name, step_name ++ "__parallel_" ++
              toString (block_index + 1) ++ "_join"⟩ : State) ::
            target :: tis.map Prod.snd) ?_
        refine BInvK_add_transition
          (BInvK_fold
            (BInvK_add_transition (BInvK_base st.2 ?w ?pre ?tr ?k)
              ?f1 ?t1 (timerShape_always _ _ _))
            ?hbranch)
          ?f2 ?t2 (timerShape_always _ _ _)
        case w =>
          exact (add_state_spec (st.1.add_state task.name _).1 task.name _
            (add_state_spec st.1 task.name _ hWF).1).1
        case pre =>
          obtain ⟨d1, hd1⟩ := (add_state_spec st.1 task.name
            (step_name ++ "__parallel_" ++ toString (block_index + 1) ++
              "_fork") hWF).2.1
          obtain ⟨d2, hd2⟩ := (add_state_spec (st.1.add_state task.name _).1
            task.name (step_name ++ "__parallel_" ++
              toString (block_index + 1) ++ "_join")
            (add_state_spec st.1 task.name _ hWF).1).2.1
          exact ⟨d1 ++ d2, by rw [hd2, hd1, List.append_assoc]⟩
        case tr =>
          rw [(add_state_spec (st.1.add_state task.name _).1 task.name _
            (add_state_spec st.1 task.name _ hWF).1).2.2.2]
          exact (add_state_spec st.1 task.name _ hWF).2.2.2
        case k =>
          intro x hx
          obtain ⟨hw1, ⟨d1, hd1⟩, hm1, ht1⟩ :=
            add_state_spec st.1 task.name (step_name ++ "__parallel_" ++
              toString (block_index + 1) ++ "_fork") hWF
          obtain ⟨hw2, ⟨d2, hd2⟩, hm2, ht2⟩ :=
            add_state_spec (st.1.add_state task.name (step_name ++
              "__parallel_" ++ toString (block_index + 1) ++ "_fork")).1
              task.name (step_name ++ "__parallel_" ++
                toString (block_index + 1) ++ "_join") hw1
          have hlift : ∀ y : State, y ∈ st.1.states →
              y ∈ ((st.1.add_state task.name (step_name ++ "__parallel_" ++
                toString (block_index + 1) ++ "_fork")).1.add_state
                task.name (step_name ++ "__parallel_" ++
                  toString (block_index + 1) ++ "_join")).1.states := by
            intro y hy
            exact hd2 ▸ List.mem_append_left _
              (hd1 ▸ List.mem_append_left _ hy)
          rcases List.mem_cons.mp hx with rfl | hx
          · exact hlift _ hsrc
          rcases List.mem_cons.mp hx with rfl | hx
          · exact hd2 ▸ List.mem_append_left _ hm1
          rcases List.mem_cons.mp hx with rfl | hx
          · exact hm2
          rcases List.mem_cons.mp hx with rfl | hx
          · exact hlift _ (hcomp x rfl)
          · obtain ⟨q, hq, rfl⟩ := List.mem_map.mp hx
            exact hlift _ (htis q hq)
        case f1 => exact List.mem_cons_self _ _
        case t1 => exact List.mem_cons_of_mem _ (List.mem_cons_self _ _)
        case hbranch =>
          intro st2 q hq hW hK
          exact ihpb _ _ _ _ _ _ st2 q hW
            (hK _ (List.mem_cons_of_mem _ (List.mem_cons_self _ _)))
            (hK _ (List.mem_cons_of_mem _ (List.mem_cons_of_mem _
              (List.mem_cons_self _ _))))
            (fun r hr => hK _ (List.mem_cons_of_mem _
              (List.mem_cons_of_mem _ (List.mem_cons_of_mem _
                (List.mem_cons_of_mem _
                  (List.mem_map_of_mem Prod.snd hr))))))
        case f2 =>
          exact List.mem_cons_of_mem _ (List.mem_cons_of_mem _
            (List.mem_cons_self _ _))
        case t2 =>
          exact List.mem_cons_of_mem _ (List.mem_cons_of_mem _
            (List.mem_cons_of_mem _ (List.mem_cons_self _ _)))
    -- race branch
    · intro task step_name block_index decision_state completion_target
        tis st p hWF hdec htis hcomp
      unfold build_race_branch
      simp only [add_state_snd]
      rcases hbct : (race_branch_completion p.2 completion_target tis
        st.2).1 with _ | btarget <;> simp only [hbct]
      · -- no branch completion target
        rw [ite_self]
        refine BInvK_binv (decision_state ::
          (⟨task.name, step_name ++ "__race_" ++
              toString (block_index + 1) ++ "_branch_" ++
              toString (p.1 + 1)⟩ : State) :: tis.map Prod.snd) ?_
        refine BInvK_fold (BInvK_fold (BInvK_fold (BInvK_fold (BInvK_fold
          (BInvK_add_transition (BInvK_base
              (race_branch_completion p.2 completion_target tis st.2).2
              ?w ?pre ?tr ?k)
            ?f1 ?t1 (timerShape_always _ _ _))
          ?hgoto) ?htime) ?hwait) ?hpar) ?hrace
        case w => exact (add_state_spec st.1 task.name _ hWF).1
        case pre => exact (add_state_spec st.1 task.name _ hWF).2.1
        case tr => exact (add_state_spec st.1 task.name _ hWF).2.2.2
        case k =>
          intro x hx
          obtain ⟨hw1, ⟨d1, hd1⟩, hm1, ht1⟩ :=
            add_state_spec st.1 task.name (step_name ++ "__race_" ++
              toString (block_index + 1) ++ "_branch_" ++
              toString (p.1 + 1)) hWF
          rcases List.mem_cons.mp hx with rfl | hx
          · exact hd1 ▸ List.mem_append_left _ hdec
          rcases List.mem_cons.mp hx with rfl | hx
          · exact hm1
          · obtain ⟨q, hq, rfl⟩ := List.mem_map.mp hx
            exact hd1 ▸ List.mem_append_left _ (htis q hq)
        case f1 => exact List.mem_cons_self _ _
        case t1 => exact List.mem_cons_of_mem _ (List.mem_cons_self _ _)
        case hgoto =>
          intro st2 goto hg hW hK
          dsimp only
          rcases hfind : alFind? tis goto.step with _ | target <;>
            simp only [resolve_task_target, hfind]
          · exact BInv_self st2 hW
          · refine BInv_add_transition (BInv_self st2 hW)
              (hK _ (List.mem_cons_of_mem _ (List.mem_cons_self _ _)))
              (hK _ (List.mem_cons_of_mem _ (List.mem_cons_of_mem _
                (alFind?_some_mem tis goto.step target hfind))))
              (timerShape_always _ _ _)
        case htime =>
          intro st2 q hq hW hK
          dsimp only
          rcases hfind : alFind? tis q.2.target.step with _ | target <;>
            simp only [resolve_task_target, hfind]
          · exact BInv_self st2 hW
          · refine BInv_add_transition (BInv_self st2 hW)
              (hK _ (List.mem_cons_of_mem _ (List.mem_cons_self _ _)))
              (hK _ (List.mem_cons_of_mem _ (List.mem_cons_of_mem _
                (alFind?_some_mem tis q.2.target.step target hfind))))
              (timerShape_timeout _ _ _ _)
        case hwait =>
          intro st2 w hw hW hK
          exact BInv_self st2 hW
        case hpar =>
          intro st2 q hq hW hK
          exact ihp _ _ _ _ _ _ _ _ _ hW
            (hK _ (List.mem_cons_of_mem _ (List.mem_cons_self _ _)))
            (fun r hr => hK _ (List.mem_cons_of_mem _
              (List.mem_cons_of_mem _
                (List.mem_map_of_mem Prod.snd hr))))
            (fun s hs => nomatch hs)
        case hrace =>
          intro st2 q hq hW hK
          exact ihr _ _ _ _ _ _ _ _ _ hW
            (hK _ (List.mem_cons_of_mem _ (List.mem_cons_self _ _)))
            (fun r hr => hK _ (List.mem_cons_of_mem _
              (List.mem_cons_of_mem _
                (List.mem_map_of_mem Prod.snd hr))))
            (fun s hs => nomatch hs)
      · -- branch completion target present
        refine BInvK_binv (decision_state ::
          (⟨task.name, step_name ++ "__race_" ++
              toString (block_index + 1) ++ "_branch_" ++
              toString (p.1 + 1)⟩ : State) :: btarget ::
            tis.map Prod.snd) ?_
        refine BInvK_ite_add_transition
          (BInvK_fold (BInvK_fold (BInvK_fold (BInvK_fold (BInvK_fold
            (BInvK_add_transition (BInvK_base
                (race_branch_completion p.2 completion_target tis st.2).2
                ?w ?pre ?tr ?k)
              ?f1 ?t1 (timerShape_always _ _ _))
            ?hgoto) ?htime) ?hwait) ?hpar) ?hrace)
          ?f2 ?t2 (timerShape_always _ _ _)
        case w => exact (add_state_spec st.1 task.name _ hWF).1
        case pre => exact (add_state_spec st.1 task.name _ hWF).2.1
        case tr => exact (add_state_spec st.1 task.name _ hWF).2.2.2
        case k =>
          intro x hx
          obtain ⟨hw1, ⟨d1, hd1⟩, hm1, ht1⟩ :=
            add_state_spec st.1 task.name (step_name ++ "__race_" ++
              toString (block_index + 1) ++ "_branch_" ++
              toString (p.1 + 1)) hWF
          rcases List.mem_cons.mp hx with rfl | hx
          · exact hd1 ▸ List.mem_append_left _ hdec
          rcases List.mem_cons.mp hx with rfl | hx
          · exact hm1
          rcases List.mem_cons.mp hx with rfl | hx
          · rcases race_branch_completion_states p.2 completion_target tis
              st.2 x hbct with hx3 | hx3
            · obtain ⟨q, hq, rfl⟩ := List.mem_map.mp hx3
              exact hd1 ▸ List.mem_append_left _ (htis q hq)
            · exact hd1 ▸ List.mem_append_left _ (hcomp x hx3)
          · obtain ⟨q, hq, rfl⟩ := List.mem_map.mp hx
            exact hd1 ▸ List.mem_append_left _ (htis q hq)
        case f1 => exact List.mem_cons_self _ _
        case t1 => exact List.mem_cons_of_mem _ (List.mem_cons_self _ _)
        case hgoto =>
          intro st2 goto hg hW hK
          dsimp only
          rcases hfind : alFind? tis goto.step with _ | target <;>
            simp only [resolve_task_target, hfind]
          · exact BInv_self st2 hW
          · refine BInv_add_transition (BInv_self st2 hW)
              (hK _ (List.mem_cons_of_mem _ (List.mem_cons_self _ _)))
              (hK _ (List.mem_cons_of_mem _ (List.mem_cons_of_mem _
                (List.mem_cons_of_mem _
                  (alFind?_some_mem tis goto.step target hfind)))))
              (timerShape_always _ _ _)
        case htime =>
          intro st2 q hq hW hK
          dsimp only
          rcases hfind : alFind? tis q.2.target.step with _ | target <;>
            simp only [resolve_task_target, hfind]
          · exact BInv_self st2 hW
          · refine BInv_add_transition (BInv_self st2 hW)
              (hK _ (List.mem_cons_of_mem _ (List.mem_cons_self _ _)))
              (hK _ (List.mem_cons_of_mem _ (List.mem_cons_of_mem _
                (List.mem_cons_of_mem _
                  (alFind?_some_mem tis q.2.target.step target hfind)))))
              (timerShape_timeout _ _ _ _)
        case hwait =>
          intro st2 w hw hW hK
          dsimp only
          exact BInv_add_transition (BInv_self st2 hW)
            (hK _ (List.mem_cons_of_mem _ (List.mem_cons_self _ _)))
            (hK _ (List.mem_cons_of_mem _ (List.mem_cons_of_mem _
              (List.mem_cons_self _ _))))
            (timerShape_condition _ _ _ _)
        case hpar =>
          intro st2 q hq hW hK
          exact ihp _ _ _ _ _ _ _ _ _ hW
            (hK _ (List.mem_cons_of_mem _ (List.mem_cons_self _ _)))
            (fun r hr => hK _ (List.mem_cons_of_mem _
              (List.mem_cons_of_mem _ (List.mem_cons_of_mem _
                (List.mem_map_of_mem Prod.snd hr)))))
            (fun s hs => by
              injection hs with hs
              exact hs ▸ hK _ (List.mem_cons_of_mem _
                (List.mem_cons_of_mem _ (List.mem_cons_self _ _))))
        case hrace =>
          intro st2 q hq hW hK
          exact ihr _ _ _ _ _ _ _ _ _ hW
            (hK _ (List.mem_cons_of_mem _ (List.mem_cons_self _ _)))
            (fun r hr => hK _ (List.mem_cons_of_mem _
              (List.mem_cons_of_mem _ (List.mem_cons_of_mem _
                (List.mem_map_of_mem Prod.snd hr)))))
            (fun s hs => by
              injection hs with hs
              exact hs ▸ hK _ (List.mem_cons_of_mem _
                (List.mem_cons_of_mem _ (List.mem_cons_self _ _))))
        case f2 => exact List.mem_cons_of_mem _ (List.mem_cons_self _ _)
        case t2 =>
          exact List.mem_cons_of_mem _ (List.mem_cons_of_mem _
            (List.mem_cons_self _ _))
    -- race block
    · intro task step_name source_state block_index block completion_target
        tis parent_actions st hWF hsrc htis hcomp
      refine BInvK_binv (source_state ::
        (⟨task.name, step_name ++ "__race_" ++
            toString (block_index + 1) ++ "_decision"⟩ : State) ::
          (completion_target.toList ++ tis.map Prod.snd)) ?_
      unfold build_race_block
      simp only [add_state_snd]
      refine BInvK_fold
        (BInvK_add_transition (BInvK_base st.2 ?w ?pre ?tr ?k)
          ?f1 ?t1 (timerShape_always _ _ _))
        ?hbranch
      case w => exact (add_state_spec st.1 task.name _ hWF).1
      case pre => exact (add_state_spec st.1 task.name _ hWF).2.1
      case tr => exact (add_state_spec st.1 task.name _ hWF).2.2.2
      case k =>
        intro x hx
        obtain ⟨hw1, ⟨d1, hd1⟩, hm1, ht1⟩ :=
          add_state_spec st.1 task.name (step_name ++ "__race_" ++
            toString (block_index + 1) ++ "_decision") hWF
        rcases List.mem_cons.mp hx with rfl | hx
        · exact hd1 ▸ List.mem_append_left _ hsrc
        rcases List.mem_cons.mp hx with rfl | hx
        · exact hm1
        rcases List.mem_append.mp hx with hx | hx
        · refine hd1 ▸ List.mem_append_left _ (hcomp x ?_)
          rcases hct2 : completion_target with _ | y <;>
            simp [hct2] at hx
          exact hx ▸ rfl
        · obtain ⟨q, hq, rfl⟩ := List.mem_map.mp hx
          exact hd1 ▸ List.mem_append_left _ (htis q hq)
      case f1 => exact List.mem_cons_self _ _
      case t1 => exact List.mem_cons_of_mem _ (List.mem_cons_self _ _)
      case hbranch =>
        intro st2 q hq hW hK
        exact ihrb _ _ _ _ _ _ st2 q hW
          (hK _ (List.mem_cons_of_mem _ (List.mem_cons_self _ _)))
          (fun r hr => hK _ (List.mem_cons_of_mem _
            (List.mem_cons_of_mem _ (List.mem_append_right _
              (List.mem_map_of_mem Prod.snd hr)))))
          (fun s hs => hK _ (List.mem_cons_of_mem _
            (List.mem_cons_of_mem _ (List.mem_append_left _
              (by simp [hs])))))

theorem alInsert_mem {K V : Type} [DecidableEq K] :
    ∀ (l : List (K × V)) (k : K) (v : V) (q : K × V),
      q ∈ alInsert l k v → q ∈ l ∨ q = (k, v) := by
  intro l
  induction l with
  | nil =>
    intro k v q h
    simp only [alInsert, List.mem_singleton] at h
    exact .inr h
  | cons p rest ih =>
    intro k v q h
    unfold alInsert at h
    split at h
    · rcases List.mem_cons.mp h with rfl | h
      · exact .inr rfl
      · exact .inl (List.mem_cons_of_mem _ h)
    · rcases List.mem_cons.mp h with rfl | h
      · exact .inl (List.mem_cons_self _ _)
      · rcases ih k v q h with h | h
        · exact .inl (List.mem_cons_of_mem _ h)
        · exact .inr h

theorem findSome?_some_exists {α β : Type _} (f : α → Option β) :
    ∀ (l : List α) (b : β), l.findSome? f = some b →
      ∃ a ∈ l, f a = some b := by
  intro l
  induction l with
  | nil => intro b h; exact absurd h (by simp)
  | cons a rest ih =>
    intro b h
    rw [List.findSome?_cons] at h
    rcases hfa : f a with _ | c <;> rw [hfa] at h
    · obtain ⟨x, hx, hfx⟩ := ih b h
      exact ⟨x, List.mem_cons_of_mem _ hx, hfx⟩
    · injection h with h
      exact ⟨a, List.mem_cons_self _ _, h ▸ hfa⟩

/-- A `some` completion target is either the next declared step of the
task or an `on_complete` target value. -/
theorem completion_target_mem (task : TaskDeclaration) (i : Nat)
    (targets : List (String × Option State)) (s : State)
    (h : completion_target_for_step task i targets = some s) :
    (∃ step ∈ task.steps, s = ⟨task.name, step.name⟩) ∨
      some s ∈ targets.map Prod.snd := by
  unfold completion_target_for_step at h
  split at h
  · split at h
    case h_1 step hget =>
      injection h with h
      exact .inl ⟨step, List.get?_mem hget, h.symm⟩
    case h_2 => exact absurd h (by simp)
  · rcases half : alFind? targets task.name with _ | v <;> rw [half] at h
    · exact absurd h (by simp)
    · exact .inr (h ▸ alFind?_some_mem targets task.name v half)

/-- The states-only inner loop of the first pass adds one state per step
of the task. -/
theorem addStates_fold_spec (tn : String) (steps : List StepDeclaration) :
    ∀ b : StateMachineBuilder, BWF b →
      BWF (steps.foldl (fun b step => (b.add_state tn step.name).1) b) ∧
      (∃ d, (steps.foldl (fun b step => (b.add_state tn step.name).1)
        b).states = b.states ++ d) ∧
      (steps.foldl (fun b step => (b.add_state tn step.name).1)
        b).transitions = b.transitions ∧
      ∀ step ∈ steps, (⟨tn, step.name⟩ : State) ∈
        (steps.foldl (fun b step => (b.add_state tn step.name).1)
          b).states := by
  induction steps with
  | nil =>
    intro b hWF
    exact ⟨hWF, ⟨[], (List.append_nil _).symm⟩, rfl, by simp⟩
  | cons s rest ih =>
    intro b hWF
    obtain ⟨hw1, ⟨d1, hd1⟩, hm1, ht1⟩ := add_state_spec b tn s.name hWF
    obtain ⟨hw2, ⟨d2, hd2⟩, ht2, hmem2⟩ := ih (b.add_state tn s.name).1 hw1
    rw [List.foldl_cons]
    refine ⟨hw2, ⟨d1 ++ d2, by rw [hd2, hd1, List.append_assoc]⟩,
      by rw [ht2, ht1], ?_⟩
    intro step hstep
    rcases List.mem_cons.mp hstep with rfl | hstep
    · exact hd2 ▸ List.mem_append_left _ hm1
    · exact hmem2 step hstep

/-- Invariant of the explicit-recursion first pass: the builder stays
well-formed, grows only states, keeps all `task_initial_states` values
as states, and holds one state per declared step of every task. -/
theorem smFirstPassGo_spec (tasks : List TaskDeclaration) :
    ∀ st : List (String × State) × StateMachineBuilder × List PlcError,
      BWF st.2.1 → (∀ q ∈ st.1, Prod.snd q ∈ st.2.1.states) →
      BWF (smFirstPassGo tasks st).2.1 ∧
      (∃ d, (smFirstPassGo tasks st).2.1.states = st.2.1.states ++ d) ∧
      (smFirstPassGo tasks st).2.1.transitions = st.2.1.transitions ∧
      (∀ q ∈ (smFirstPassGo tasks st).1,
        Prod.snd q ∈ (smFirstPassGo tasks st).2.1.states) ∧
      ∀ task ∈ tasks, ∀ step ∈ task.steps,
        (⟨task.name, step.name⟩ : State) ∈
          (smFirstPassGo tasks st).2.1.states := by
  induction tasks with
  | nil =>
    intro st hWF htis
    exact ⟨hWF, ⟨[], (List.append_nil _).symm⟩, rfl, htis, by simp⟩
  | cons task rest ih =>
    intro st hWF htis
    have hgo : smFirstPassGo (task :: rest) st =
        smFirstPassGo rest (smFirstPassStep st task) := rfl
    rw [hgo]
    rcases hsteps : task.steps with _ | ⟨s0, srest⟩
    · -- task with no steps: only an error is recorded
      have hstep : smFirstPassStep st task = (st.1, st.2.1,
          st.2.2 ++ [PlcError.semantic task.line
            ("task " ++ task.name ++ " 至少需要一个 step")]) := by
        unfold smFirstPassStep
        rw [hsteps]
      rw [hstep]
      obtain ⟨h1, h2, h3, h4, h5⟩ := ih (st.1, st.2.1,
        st.2.2 ++ [PlcError.semantic task.line
          ("task " ++ task.name ++ " 至少需要一个 step")]) hWF htis
      refine ⟨h1, h2, h3, h4, ?_⟩
      intro task2 htask2 step hstep2
      rcases List.mem_cons.mp htask2 with rfl | htask2
      · rw [hsteps] at hstep2
        exact absurd hstep2 (by simp)
      · exact h5 task2 htask2 step hstep2
    · -- task with steps: states are added for all of them
      have hstep : (smFirstPassStep st task).1 =
            alInsert st.1 task.name ⟨task.name, s0.name⟩ ∧
          (smFirstPassStep st task).2.1 = (s0 :: srest).foldl
            (fun b step => (b.add_state task.name step.name).1) st.2.1 := by
        unfold smFirstPassStep
        rw [hsteps]
        exact ⟨rfl, rfl⟩
      obtain ⟨hF1, ⟨dF, hdF⟩, hF3, hF4⟩ :=
        addStates_fold_spec task.name (s0 :: srest) st.2.1 hWF
      have hWF2 : BWF (smFirstPassStep st task).2.1 := hstep.2 ▸ hF1
      have htis2 : ∀ q ∈ (smFirstPassStep st task).1,
          Prod.snd q ∈ (smFirstPassStep st task).2.1.states := by
        intro q hq
        rw [hstep.1] at hq
        rw [hstep.2]
        rcases alInsert_mem st.1 task.name ⟨task.name, s0.name⟩ q hq with
          hq | rfl
        · exact hdF ▸ List.mem_append_left _ (htis q hq)
        · exact hF4 s0 (List.mem_cons_self _ _)
      obtain ⟨h1, ⟨d2, hd2⟩, h3, h4, h5⟩ :=
        ih (smFirstPassStep st task) hWF2 htis2
      refine ⟨h1, ?_, ?_, h4, ?_⟩
      · refine ⟨dF ++ d2, ?_⟩
        rw [hd2, hstep.2, hdF, List.append_assoc]
      · rw [h3, hstep.2, hF3]
      · intro task2 htask2 step hstep2
        rcases List.mem_cons.mp htask2 with rfl | htask2
        · have hmem : (⟨task2.name, step.name⟩ : State) ∈
              (smFirstPassStep st task2).2.1.states := by
            rw [hstep.2]
            rw [hsteps] at hstep2
            exact hF4 step hstep2
          exact hd2 ▸ List.mem_append_left _ hmem
        · exact h5 task2 htask2 step hstep2

theorem smFirstPass_spec (tasks : List TaskDeclaration) :
    BWF (smFirstPass tasks).2.1 ∧
      (smFirstPass tasks).2.1.transitions = [] ∧
      (∀ q ∈ (smFirstPass tasks).1,
        Prod.snd q ∈ (smFirstPass tasks).2.1.states) ∧
      ∀ task ∈ tasks, ∀ step ∈ task.steps,
        (⟨task.name, step.name⟩ : State) ∈
          (smFirstPass tasks).2.1.states := by
  obtain ⟨h1, h2, h3, h4, h5⟩ := smFirstPassGo_spec tasks
    ([], StateMachineBuilder.empty, []) ⟨rfl, List.nodup_nil⟩ (by simp)
  exact ⟨h1, h3, h4, h5⟩

/-- Every `some` value stored by the `on_complete` pass is a
`task_initial_states` value. -/
theorem smOnCompleteGo_spec (tis : List (String × State))
    (tasks : List TaskDeclaration) :
    ∀ st : List (String × Option State) × List PlcError,
      (∀ q ∈ st.1, ∀ s, Prod.snd q = some s → s ∈ tis.map Prod.snd) →
      ∀ q ∈ (smOnCompleteGo tis tasks st).1, ∀ s, Prod.snd q = some s →
        s ∈ tis.map Prod.snd := by
  induction tasks with
  | nil => intro st h; exact h
  | cons task rest ih =>
    intro st h
    show ∀ q ∈ (smOnCompleteGo tis rest (smOnCompleteStep tis st task)).1,
      _
    refine ih (smOnCompleteStep tis st task) ?_
    intro q hq s hs
    unfold smOnCompleteStep at hq
    rcases hoc : task.on_complete with _ | ⟨⟨stepStr⟩ | _⟩ <;>
      simp only [hoc] at hq
    · rcases alInsert_mem _ _ _ q hq with hq | rfl
      · exact h q hq s hs
      · exact absurd hs (by simp)
    · rcases alInsert_mem _ _ _ q hq with hq | rfl
      · exact h q hq s hs
      · -- the stored value is the resolved target
        unfold resolve_task_target at hs
        rcases hfind : alFind? tis stepStr with _ | v <;>
          simp only [hfind] at hs
        · exact absurd hs (by simp)
        · injection hs with hs
          exact hs ▸ alFind?_some_mem tis stepStr v hfind
    · rcases alInsert_mem _ _ _ q hq with hq | rfl
      · exact h q hq s hs
      · exact absurd hs (by simp)

theorem smOnCompleteTargets_spec (tasks : List TaskDeclaration)
    (tis : List (String × State)) (E : List PlcError) :
    ∀ q ∈ (smOnCompleteTargets tasks tis E).1, ∀ s,
      Prod.snd q = some s → s ∈ tis.map Prod.snd := by
  unfold smOnCompleteTargets
  exact smOnCompleteGo_spec tis tasks ([], E) (by simp)

/-- The transition-generation body for a single step preserves `BInv`. -/
theorem smBuildStep_BInv (fuel : Nat) (task : TaskDeclaration)
    (step_index : Nat) (step : StepDeclaration)
    (tis : List (String × State))
    (targets : List (String × Option State)) (st : BuildSt)
    (hWF : BWF st.1)
    (hfrom : (⟨task.name, step.name⟩ : State) ∈ st.1.states)
    (htis : ∀ q ∈ tis, Prod.snd q ∈ st.1.states)
    (htarg : ∀ s, completion_target_for_step task step_index targets =
      some s → s ∈ st.1.states) :
    BInv st.1 (smBuildStep fuel task step_index step tis targets st) := by
  obtain ⟨-, ihp, -, ihr⟩ := builders_BInv fuel
  unfold smBuildStep
  rcases hct : completion_target_for_step task step_index targets with
    _ | target <;> simp only [hct]
  · -- no completion target
    rw [ite_self]
    refine BInvK_binv ((⟨task.name, step.name⟩ : State) ::
      tis.map Prod.snd) ?_
    refine BInvK_fold (BInvK_fold (BInvK_fold (BInvK_fold (BInvK_fold
      (BInvK_base st.2 hWF ⟨[], (List.append_nil _).symm⟩ rfl ?k)
      ?hpar) ?hrace) ?hgoto) ?htime) ?hwait
    case k =>
      intro x hx
      rcases List.mem_cons.mp hx with rfl | hx
      · exact hfrom
      · obtain ⟨q, hq, rfl⟩ := List.mem_map.mp hx
        exact htis q hq
    case hpar =>
      intro st2 q hq hW hK
      exact ihp _ _ _ _ _ _ _ _ _ hW (hK _ (List.mem_cons_self _ _))
        (fun r hr => hK _ (List.mem_cons_of_mem _
          (List.mem_map_of_mem Prod.snd hr)))
        (fun s hs => nomatch hs)
    case hrace =>
      intro st2 q hq hW hK
      exact ihr _ _ _ _ _ _ _ _ _ hW (hK _ (List.mem_cons_self _ _))
        (fun r hr => hK _ (List.mem_cons_of_mem _
          (List.mem_map_of_mem Prod.snd hr)))
        (fun s hs => nomatch hs)
    case hgoto =>
      intro st2 goto hg hW hK
      dsimp only
      rcases hfind : alFind? tis goto.step with _ | target <;>
        simp only [resolve_task_target, hfind]
      · exact BInv_self st2 hW
      · refine BInv_add_transition (BInv_self st2 hW)
          (hK _ (List.mem_cons_self _ _))
          (hK _ (List.mem_cons_of_mem _
            (alFind?_some_mem tis goto.step target hfind)))
          (timerShape_always _ _ _)
    case htime =>
      intro st2 q hq hW hK
      dsimp only
      rcases hfind : alFind? tis q.2.target.step with _ | target <;>
        simp only [resolve_task_target, hfind]
      · exact BInv_self st2 hW
      · refine BInv_add_transition (BInv_self st2 hW)
          (hK _ (List.mem_cons_self _ _))
          (hK _ (List.mem_cons_of_mem _
            (alFind?_some_mem tis q.2.target.step target hfind)))
          (timerShape_timeout _ _ _ _)
    case hwait =>
      intro st2 w hw hW hK
      exact BInv_self st2 hW
  · -- completion target present
    refine BInvK_binv ((⟨task.name, step.name⟩ : State) :: target ::
      tis.map Prod.snd) ?_
    refine BInvK_ite_add_transition
      (BInvK_fold (BInvK_fold (BInvK_fold (BInvK_fold (BInvK_fold
        (BInvK_base st.2 hWF ⟨[], (List.append_nil _).symm⟩ rfl ?k)
        ?hpar) ?hrace) ?hgoto) ?htime) ?hwait)
      ?f2 ?t2 (timerShape_always _ _ _)
    case k =>
      intro x hx
      rcases List.mem_cons.mp hx with rfl | hx
      · exact hfrom
      rcases List.mem_cons.mp hx with rfl | hx
      · exact htarg x hct
      · obtain ⟨q, hq, rfl⟩ := List.mem_map.mp hx
        exact htis q hq
    case hpar =>
      intro st2 q hq hW hK
      exact ihp _ _ _ _ _ _ _ _ _ hW (hK _ (List.mem_cons_self _ _))
        (fun r hr => hK _ (List.mem_cons_of_mem _
          (List.mem_cons_of_mem _ (List.mem_map_of_mem Prod.snd hr))))
        (fun s hs => by
          injection hs with hs
          exact hs ▸ hK _ (List.mem_cons_of_mem _
            (List.mem_cons_self _ _)))
    case hrace =>
      intro st2 q hq hW hK
      exact ihr _ _ _ _ _ _ _ _ _ hW (hK _ (List.mem_cons_self _ _))
        (fun r hr => hK _ (List.mem_cons_of_mem _
          (List.mem_cons_of_mem _ (List.mem_map_of_mem Prod.snd hr))))
        (fun s hs => by
          injection hs with hs
          exact hs ▸ hK _ (List.mem_cons_of_mem _
            (List.mem_cons_self _ _)))
    case hgoto =>
      intro st2 goto hg hW hK
      dsimp only
      rcases hfind : alFind? tis goto.step with _ | tg <;>
        simp only [resolve_task_target, hfind]
      · exact BInv_self st2 hW
      · refine BInv_add_transition (BInv_self st2 hW)
          (hK _ (List.mem_cons_self _ _))
          (hK _ (List.mem_cons_of_mem _ (List.mem_cons_of_mem _
            (alFind?_some_mem tis goto.step tg hfind))))
          (timerShape_always _ _ _)
    case htime =>
      intro st2 q hq hW hK
      dsimp only
      rcases hfind : alFind? tis q.2.target.step with _ | tg <;>
        simp only [resolve_task_target, hfind]
      · exact BInv_self st2 hW
      · refine BInv_add_transition (BInv_self st2 hW)
          (hK _ (List.mem_cons_self _ _))
          (hK _ (List.mem_cons_of_mem _ (List.mem_cons_of_mem _
            (alFind?_some_mem tis q.2.target.step tg hfind))))
          (timerShape_timeout _ _ _ _)
    case hwait =>
      intro st2 w hw hW hK
      dsimp only
      exact BInv_add_transition (BInv_self st2 hW)
        (hK _ (List.mem_cons_self _ _))
        (hK _ (List.mem_cons_of_mem _ (List.mem_cons_self _ _)))
        (timerShape_condition _ _ _ _)
    case f2 => exact List.mem_cons_self _ _
    case t2 => exact List.mem_cons_of_mem _ (List.mem_cons_self _ _)

/-- Every state machine `build_state_machine_from_ast` returns satisfies:
the initial state is a state, states are duplicate-free, and every
transition is good (both endpoints are states, timeout shape holds). -/
theorem build_ok_invariants (fuel : Nat) (tasks : TasksSection)
    (sm : StateMachine)
    (h : build_state_machine_from_ast fuel tasks = .ok sm) :
    sm.initial ∈ sm.states ∧ sm.states.Nodup ∧
      ∀ t ∈ sm.transitions, GoodTrans sm.states t := by
  obtain ⟨hW1, htr1, htis1, hsteps1⟩ := smFirstPass_spec tasks.tasks
  unfold build_state_machine_from_ast at h
  split at h
  · cases h
  dsimp only at h
  split at h
  · cases h
  case h_2 initial hfound =>
    split at h
    case isFalse => cases h
    case isTrue hempty =>
      injection h with h
      subst h
      have hfold : BInv (smFirstPass tasks.tasks).2.1
          (tasks.tasks.foldl
            (fun (st : BuildSt) task =>
              task.steps.enum.foldl
                (fun (st : BuildSt) (p : Nat × StepDeclaration) =>
                  smBuildStep fuel task p.1 p.2 (smFirstPass tasks.tasks).1
                    (smOnCompleteTargets tasks.tasks
                      (smFirstPass tasks.tasks).1
                      (smFirstPass tasks.tasks).2.2).1 st)
                st)
            ((smFirstPass tasks.tasks).2.1,
              (smOnCompleteTargets tasks.tasks (smFirstPass tasks.tasks).1
                (smFirstPass tasks.tasks).2.2).2)) := by
        refine foldl_preserves
          (P := BInv (smFirstPass tasks.tasks).2.1) _ tasks.tasks _
          (BInv_self _ hW1) ?_
        intro st2 task htask hP
        refine foldl_preserves
          (P := BInv (smFirstPass tasks.tasks).2.1) _ task.steps.enum st2
          hP ?_
        intro st3 p hp hP3
        refine BInv_trans hP3
          (smBuildStep_BInv fuel task p.1 p.2 _ _ st3 (BInv_bwf hP3)
            ?_ ?_ ?_)
        · exact BInv_states_mono hP3
            (hsteps1 task htask p.2 (snd_mem_of_mem_enum hp))
        · intro q hq
          exact BInv_states_mono hP3 (htis1 q hq)
        · intro s hs
          rcases completion_target_mem task p.1 _ s hs with
            ⟨step2, hstep2, rfl⟩ | hs2
          · exact BInv_states_mono hP3 (hsteps1 task htask step2 hstep2)
          · obtain ⟨r, hr, hr2⟩ := List.mem_map.mp hs2
            have hval := smOnCompleteTargets_spec tasks.tasks
              (smFirstPass tasks.tasks).1 (smFirstPass tasks.tasks).2.2
              r hr s hr2
            obtain ⟨r2, hr2b, rfl⟩ := List.mem_map.mp hval
            exact BInv_states_mono hP3 (htis1 r2 hr2b)
      refine ⟨?_, (BInv_bwf hfold).2, ?_⟩
      · obtain ⟨taskI, htaskI, hmap⟩ := findSome?_some_exists _ _ _ hfound
        obtain ⟨stepI, hhead, heqinit⟩ := Option.map_eq_some'.mp hmap
        have hstepmem : stepI ∈ taskI.steps :=
          List.mem_of_mem_head? (Option.mem_def.mpr hhead)
        have hinit : initial ∈ (smFirstPass tasks.tasks).2.1.states :=
          heqinit ▸ hsteps1 taskI htaskI stepI hstepmem
        exact BInv_states_mono hfold hinit
      · intro t ht
        rcases hfold.2.2 t ht with hold | hgood
        · rw [htr1] at hold
          exact absurd hold (by simp)
        · exact hgood

/-! ## C3: state-machine closure and uniqueness -/

/-- C3: whenever the state-machine builder returns `Ok`, the initial
state is a member of the states list, both endpoints of every transition
are members of the states list, and the states list holds no duplicate
`(task_name, step_name)` pair. -/
theorem state_machine_closure (fuel : Nat) (tasks : TasksSection)
    (sm : StateMachine)
    (h : build_state_machine_from_ast fuel tasks = .ok sm) :
    sm.initial ∈ sm.states ∧
      (∀ t ∈ sm.transitions, t.from_ ∈ sm.states ∧ t.to_ ∈ sm.states) ∧
      (sm.states.map statePair).Nodup := by
  obtain ⟨h1, h2, h3⟩ := build_ok_invariants fuel tasks sm h
  refine ⟨h1, ?_, ?_⟩
  · intro t ht
    obtain ⟨hf, htt, -⟩ := h3 t ht
    exact ⟨hf, htt⟩
  · exact h2.map (fun a b hab => statePair_inj hab)

/-- Witness for C3: the PRD §9 race example builds `Ok`, and its state
machine satisfies all three invariants. -/
theorem state_machine_closure_witness :
    build_state_machine_from_ast 10 raceTasks = .ok raceSM ∧
      (raceSM.initial ∈ raceSM.states ∧
        (∀ t ∈ raceSM.transitions,
          t.from_ ∈ raceSM.states ∧ t.to_ ∈ raceSM.states) ∧
        (raceSM.states.map statePair).Nodup) :=
  ⟨by decide, state_machine_closure 10 raceTasks raceSM (by decide)⟩

/-! ## C5: timeout-transition shape -/

/-- C5: every timeout-guarded transition the state-machine builder
generates (at step level or inside parallel/race branches) carries an
empty action list and exactly one timer operation: a `start` of the same
duration as the guard. -/
theorem timeout_transition_shape (fuel : Nat) (tasks : TasksSection)
    (sm : StateMachine)
    (h : build_state_machine_from_ast fuel tasks = .ok sm) :
    ∀ t ∈ sm.transitions, ∀ d, t.guard = .timeout d →
      t.actions = [] ∧ ∃ name, t.timers = [⟨name, .start, some d⟩] := by
  intro t ht
  exact ((build_ok_invariants fuel tasks sm h).2.2 t ht).2.2

/-- Witness for C5: the race example has a `timeout 800` transition; the
theorem applies to the built machine. -/
theorem timeout_transition_shape_witness :
    build_state_machine_from_ast 10 raceTasks = .ok raceSM ∧
      (∀ t ∈ raceSM.transitions, ∀ d, t.guard = .timeout d →
        t.actions = [] ∧ ∃ name, t.timers = [⟨name, .start, some d⟩]) :=
  ⟨by decide, timeout_transition_shape 10 raceTasks raceSM (by decide)⟩

/-! ## Parallel-join purity lemmas (C6) -/

theorem add_state_transitions (b : StateMachineBuilder) (tn sn : String) :
    (b.add_state tn sn).1.transitions = b.transitions := by
  unfold StateMachineBuilder.add_state
  dsimp only
  split <;> rfl

theorem JPure_add_state (E : List PlcError) {J : State} {ct : Option State}
    {b : StateMachineBuilder} {E0 : List PlcError} {tn sn : String}
    (h : JPure J ct (b, E0)) : JPure J ct ((b.add_state tn sn).1, E) := by
  intro t ht hfrom
  rw [add_state_transitions] at ht
  exact h t ht hfrom

theorem JPure_add_other (E : List PlcError) {J : State} {ct : Option State}
    {b : StateMachineBuilder} {E0 : List PlcError} {f t : State}
    {g : TransitionGuard} {a : List TransitionAction}
    {ti : List TimerOperation}
    (h : JPure J ct (b, E0)) (hne : f ≠ J) :
    JPure J ct (b.add_transition f t g a ti, E) := by
  intro x hx hfrom
  rcases List.mem_append.mp hx with h1 | h2
  · exact h x h1 hfrom
  · rcases List.mem_singleton.mp h2 with rfl
    exact absurd hfrom hne

theorem JPure_add_completion (E : List PlcError) {J : State}
    {ct : Option State} {b : StateMachineBuilder} {E0 : List PlcError}
    {js target : State}
    (h : JPure J ct (b, E0)) (hT : js = J → ct = some target) :
    JPure J ct (b.add_transition js target .always [] [], E) := by
  intro x hx hfrom
  rcases List.mem_append.mp hx with h1 | h2
  · exact h x h1 hfrom
  · rcases List.mem_singleton.mp h2 with rfl
    exact ⟨rfl, rfl, rfl, hT hfrom⟩

theorem JPure_fold {J : State} {ct : Option State} {α : Type _}
    {F : BuildSt → α → BuildSt} {l : List α} {st : BuildSt}
    (h : JPure J ct st)
    (hstep : ∀ st2 a, a ∈ l → JPure J ct st2 → JPure J ct (F st2 a)) :
    JPure J ct (l.foldl F st) :=
  foldl_preserves (P := JPure J ct) F l st h hstep

theorem JPure_ite_add {J : State} {ct : Option State} {c : Bool}
    {st : BuildSt} {f t : State} {g : TransitionGuard}
    {a : List TransitionAction} {ti : List TimerOperation}
    (h : JPure J ct st) (hne : f ≠ J) :
    JPure J ct (if c then st else (st.1.add_transition f t g a ti, st.2)) := by
  cases c with
  | false => simpa using JPure_add_other st.2 h hne
  | true => simpa using h

/-- The first component of a race-branch completion does not depend on
the error accumulator. -/
theorem race_branch_completion_fst (branch : RaceBranch)
    (ct : Option State) (tis : List (String × State))
    (E E2 : List PlcError) :
    (race_branch_completion branch ct tis E).1 =
      (race_branch_completion branch ct tis E2).1 := by
  unfold race_branch_completion
  rcases hbg : branch.then_goto with _ | goto <;> simp only [hbg]
  unfold resolve_task_target
  rcases hf : alFind? tis goto.step with _ | v <;> simp only [hf]

/-- Accumulation facts for the shadow-merging folds: the accumulator is
kept and every element's contribution is included. -/
theorem mergeFold_subset {A B : Type _} {α : Type _}
    (f : α → List A × List B) (l : List α) :
    ∀ acc : List A × List B,
      (∀ x ∈ acc.1, x ∈ (l.foldl
        (fun acc q => (acc.1 ++ (f q).1, acc.2 ++ (f q).2)) acc).1) ∧
      (∀ y ∈ acc.2, y ∈ (l.foldl
        (fun acc q => (acc.1 ++ (f q).1, acc.2 ++ (f q).2)) acc).2) ∧
      ∀ q ∈ l,
        (∀ x ∈ (f q).1, x ∈ (l.foldl
          (fun acc q => (acc.1 ++ (f q).1, acc.2 ++ (f q).2)) acc).1) ∧
        ∀ y ∈ (f q).2, y ∈ (l.foldl
          (fun acc q => (acc.1 ++ (f q).1, acc.2 ++ (f q).2)) acc).2 := by
  induction l with
  | nil => intro acc; exact ⟨fun x hx => hx, fun y hy => hy, by simp⟩
  | cons a rest ih =>
    intro acc
    rw [List.foldl_cons]
    obtain ⟨h1, h2, h3⟩ := ih (acc.1 ++ (f a).1, acc.2 ++ (f a).2)
    refine ⟨?_, ?_, ?_⟩
    · intro x hx
      exact h1 x (List.mem_append_left _ hx)
    · intro y hy
      exact h2 y (List.mem_append_left _ hy)
    · intro q hq
      rcases List.mem_cons.mp hq with rfl | hq
      · exact ⟨fun x hx => h1 x (List.mem_append_right _ hx),
          fun y hy => h2 y (List.mem_append_right _ hy)⟩
      · exact h3 q hq

/-- The same accumulation facts for the two-level task/step shadow fold. -/
theorem shadow_double_sub {A B : Type _}
    (f : TaskDeclaration → Nat × StepDeclaration → List A × List B)
    (ts : List TaskDeclaration) :
    ∀ acc : List A × List B,
      (∀ x ∈ acc.1, x ∈ (ts.foldl
        (fun acc task => task.steps.enum.foldl
          (fun acc p => (acc.1 ++ (f task p).1, acc.2 ++ (f task p).2))
          acc) acc).1) ∧
      (∀ y ∈ acc.2, y ∈ (ts.foldl
        (fun acc task => task.steps.enum.foldl
          (fun acc p => (acc.1 ++ (f task p).1, acc.2 ++ (f task p).2))
          acc) acc).2) ∧
      ∀ task ∈ ts, ∀ p ∈ task.steps.enum,
        (∀ x ∈ (f task p).1, x ∈ (ts.foldl
          (fun acc task => task.steps.enum.foldl
            (fun acc p => (acc.1 ++ (f task p).1, acc.2 ++ (f task p).2))
            acc) acc).1) ∧
        ∀ y ∈ (f task p).2, y ∈ (ts.foldl
          (fun acc task => task.steps.enum.foldl
            (fun acc p => (acc.1 ++ (f task p).1, acc.2 ++ (f task p).2))
            acc) acc).2 := by
  induction ts with
  | nil => intro acc; exact ⟨fun x hx => hx, fun y hy => hy, by simp⟩
  | cons a rest ih =>
    intro acc
    rw [List.foldl_cons]
    obtain ⟨g1, g2, g3⟩ := mergeFold_subset (f a) a.steps.enum acc
    obtain ⟨h1, h2, h3⟩ := ih (a.steps.enum.foldl
      (fun acc p => (acc.1 ++ (f a p).1, acc.2 ++ (f a p).2)) acc)
    refine ⟨fun x hx => h1 x (g1 x hx), fun y hy => h2 y (g2 y hy), ?_⟩
    intro task htask p hp
    rcases List.mem_cons.mp htask with rfl | htask
    · obtain ⟨k1, k2⟩ := g3 p hp
      exact ⟨fun x hx => h1 x (k1 x hx), fun y hy => h2 y (k2 y hy)⟩
    · exact h3 task htask p hp

theorem shadow_pbranch_shape (fuel : Nat) (task : TaskDeclaration)
    (step_name : String) (block_index : Nat) (join_state : State)
    (tis : List (String × State)) (p : Nat × Branch) :
    (⟨task.name, step_name ++ "__parallel_" ++ toString (block_index + 1) ++
        "_branch_" ++ toString (p.1 + 1)⟩ : State) ∈
      (shadow_parallel_branch (fuel + 1) task step_name block_index
        join_state tis p).2 ∧
    (∀ q ∈ (analyze_statements p.2.statements).parallel_blocks.enum,
      (∀ x ∈ (shadow_parallel_block fuel task
          (step_name ++ "__parallel_" ++ toString (block_index + 1) ++
            "_branch_" ++ toString (p.1 + 1)) q.1 q.2 (some join_state)
          tis).1,
        x ∈ (shadow_parallel_branch (fuel + 1) task step_name block_index
          join_state tis p).1) ∧
      ∀ y ∈ (shadow_parallel_block fuel task
          (step_name ++ "__parallel_" ++ toString (block_index + 1) ++
            "_branch_" ++ toString (p.1 + 1)) q.1 q.2 (some join_state)
          tis).2,
        y ∈ (shadow_parallel_branch (fuel + 1) task step_name block_index
          join_state tis p).2) ∧
    ∀ q ∈ (analyze_statements p.2.statements).race_blocks.enum,
      (∀ x ∈ (shadow_race_block fuel task
          (step_name ++ "__parallel_" ++ toString (block_index + 1) ++
            "_branch_" ++ toString (p.1 + 1)) q.1 q.2 (some join_state)
          tis).1,
        x ∈ (shadow_parallel_branch (fuel + 1) task step_name block_index
          join_state tis p).1) ∧
      ∀ y ∈ (shadow_race_block fuel task
          (step_name ++ "__parallel_" ++ toString (block_index + 1) ++
            "_branch_" ++ toString (p.1 + 1)) q.1 q.2 (some join_state)
          tis).2,
        y ∈ (shadow_parallel_branch (fuel + 1) task step_name block_index
          join_state tis p).2 := by
  unfold shadow_parallel_branch
  refine ⟨?_, ?_, ?_⟩
  · refine (mergeFold_subset _ _ _).2.1 _ ?_
    refine (mergeFold_subset _ _ _).2.1 _ ?_
    exact List.mem_singleton_self _
  · intro q hq
    refine ⟨?_, ?_⟩
    · intro x hx
      refine (mergeFold_subset _ _ _).1 x ?_
      exact ((mergeFold_subset _ _ _).2.2 q hq).1 x hx
    · intro y hy
      refine (mergeFold_subset _ _ _).2.1 y ?_
      exact ((mergeFold_subset _ _ _).2.2 q hq).2 y hy
  · intro q hq
    exact (mergeFold_subset
      (fun q => shadow_race_block fuel task
        (step_name ++ "__parallel_" ++ toString (block_index + 1) ++
          "_branch_" ++ toString (p.1 + 1)) q.1 q.2 (some join_state) tis)
      (analyze_statements p.2.statements).race_blocks.enum _).2.2 q hq

theorem shadow_pblock_shape (fuel : Nat) (task : TaskDeclaration)
    (step_name : String) (block_index : Nat) (block : ParallelBlock)
    (ct : Option State) (tis : List (String × State)) :
    ((⟨task.name, step_name ++ "__parallel_" ++
        toString (block_index + 1) ++ "_join"⟩ : State), ct) ∈
      (shadow_parallel_block (fuel + 1) task step_name block_index block
        ct tis).1 ∧
    (⟨task.name, step_name ++ "__parallel_" ++
        toString (block_index + 1) ++ "_fork"⟩ : State) ∈
      (shadow_parallel_block (fuel + 1) task step_name block_index block
        ct tis).2 ∧
    ∀ p ∈ block.branches.enum,
      (∀ x ∈ (shadow_parallel_branch fuel task step_name block_index
          (⟨task.name, step_name ++ "__parallel_" ++
            toString (block_index + 1) ++ "_join"⟩ : State) tis p).1,
        x ∈ (shadow_parallel_block (fuel + 1) task step_name block_index
          block ct tis).1) ∧
      ∀ y ∈ (shadow_parallel_branch fuel task step_name block_index
          (⟨task.name, step_name ++ "__parallel_" ++
            toString (block_index + 1) ++ "_join"⟩ : State) tis p).2,
        y ∈ (shadow_parallel_block (fuel + 1) task step_name block_index
          block ct tis).2 := by
  unfold shadow_parallel_block
  refine ⟨?_, ?_, ?_⟩
  · refine (mergeFold_subset _ _ _).1 _ ?_
    exact List.mem_singleton_self _
  · refine (mergeFold_subset _ _ _).2.1 _ ?_
    exact List.mem_singleton_self _
  · intro p hp
    exact (mergeFold_subset
      (fun p => shadow_parallel_branch fuel task step_name block_index
        (⟨task.name, step_name ++ "__parallel_" ++
          toString (block_index + 1) ++ "_join"⟩ : State) tis p)
      block.branches.enum _).2.2 p hp

theorem shadow_rbranch_shape (fuel : Nat) (task : TaskDeclaration)
    (step_name : String) (block_index : Nat) (ct : Option State)
    (tis : List (String × State)) (p : Nat × RaceBranch) :
    (⟨task.name, step_name ++ "__race_" ++ toString (block_index + 1) ++
        "_branch_" ++ toString (p.1 + 1)⟩ : State) ∈
      (shadow_race_branch (fuel + 1) task step_name block_index ct tis
        p).2 ∧
    (∀ q ∈ (analyze_statements p.2.statements).parallel_blocks.enum,
      (∀ x ∈ (shadow_parallel_block fuel task
          (step_name ++ "__race_" ++ toString (block_index + 1) ++
            "_branch_" ++ toString (p.1 + 1)) q.1 q.2
          (race_branch_completion p.2 ct tis []).1 tis).1,
        x ∈ (shadow_race_branch (fuel + 1) task step_name block_index ct
          tis p).1) ∧
      ∀ y ∈ (shadow_parallel_block fuel task
          (step_name ++ "__race_" ++ toString (block_index + 1) ++
            "_branch_" ++ toString (p.1 + 1)) q.1 q.2
          (race_branch_completion p.2 ct tis []).1 tis).2,
        y ∈ (shadow_race_branch (fuel + 1) task step_name block_index ct
          tis p).2) ∧
    ∀ q ∈ (analyze_statements p.2.statements).race_blocks.enum,
      (∀ x ∈ (shadow_race_block fuel task
          (step_name ++ "__race_" ++ toString (block_index + 1) ++
            "_branch_" ++ toString (p.1 + 1)) q.1 q.2
          (race_branch_completion p.2 ct tis []).1 tis).1,
        x ∈ (shadow_race_branch (fuel + 1) task step_name block_index ct
          tis p).1) ∧
      ∀ y ∈ (shadow_race_block fuel task
          (step_name ++ "__race_" ++ toString (block_index + 1) ++
            "_branch_" ++ toString (p.1 + 1)) q.1 q.2
          (race_branch_completion p.2 ct tis []).1 tis).2,
        y ∈ (shadow_race_branch (fuel + 1) task step_name block_index ct
          tis p).2 := by
  unfold shadow_race_branch
  refine ⟨?_, ?_, ?_⟩
  · refine (mergeFold_subset _ _ _).2.1 _ ?_
    refine (mergeFold_subset _ _ _).2.1 _ ?_
    exact List.mem_singleton_self _
  · intro q hq
    refine ⟨?_, ?_⟩
    · intro x hx
      refine (mergeFold_subset _ _ _).1 x ?_
      exact ((mergeFold_subset _ _ _).2.2 q hq).1 x hx
    · intro y hy
      refine (mergeFold_subset _ _ _).2.1 y ?_
      exact ((mergeFold_subset _ _ _).2.2 q hq).2 y hy
  · intro q hq
    exact (mergeFold_subset
      (fun q => shadow_race_block fuel task
        (step_name ++ "__race_" ++ toString (block_index + 1) ++
          "_branch_" ++ toString (p.1 + 1)) q.1 q.2
        (race_branch_completion p.2 ct tis []).1 tis)
      (analyze_statements p.2.statements).race_blocks.enum _).2.2 q hq

theorem shadow_rblock_shape (fuel : Nat) (task : TaskDeclaration)
    (step_name : String) (block_index : Nat) (block : RaceBlock)
    (ct : Option State) (tis : List (String × State)) :
    (⟨task.name, step_name ++ "__race_" ++ toString (block_index + 1) ++
        "_decision"⟩ : State) ∈
      (shadow_race_block (fuel + 1) task step_name block_index block ct
        tis).2 ∧
    ∀ p ∈ block.branches.enum,
      (∀ x ∈ (shadow_race_branch fuel task step_name block_index ct tis
          p).1,
        x ∈ (shadow_race_block (fuel + 1) task step_name block_index
          block ct tis).1) ∧
      ∀ y ∈ (shadow_race_branch fuel task step_name block_index ct tis
          p).2,
        y ∈ (shadow_race_block (fuel + 1) task step_name block_index
          block ct tis).2 := by
  unfold shadow_race_block
  refine ⟨?_, ?_⟩
  · refine (mergeFold_subset _ _ _).2.1 _ ?_
    exact List.mem_singleton_self _
  · intro p hp
    exact (mergeFold_subset
      (fun p => shadow_race_branch fuel task step_name block_index ct tis
        p)
      block.branches.enum _).2.2 p hp

theorem shadow_step_shape (fuel : Nat) (task : TaskDeclaration)
    (step_index : Nat) (step : StepDeclaration)
    (tis : List (String × State))
    (targets : List (String × Option State)) :
    (⟨task.name, step.name⟩ : State) ∈
      (shadow_step fuel task step_index step tis targets).2 ∧
    (∀ q ∈ (analyze_statements step.statements).parallel_blocks.enum,
      (∀ x ∈ (shadow_parallel_block fuel task step.name q.1 q.2
          (completion_target_for_step task step_index targets) tis).1,
        x ∈ (shadow_step fuel task step_index step tis targets).1) ∧
      ∀ y ∈ (shadow_parallel_block fuel task step.name q.1 q.2
          (completion_target_for_step task step_index targets) tis).2,
        y ∈ (shadow_step fuel task step_index step tis targets).2) ∧
    ∀ q ∈ (analyze_statements step.statements).race_blocks.enum,
      (∀ x ∈ (shadow_race_block fuel task step.name q.1 q.2
          (completion_target_for_step task step_index targets) tis).1,
        x ∈ (shadow_step fuel task step_index step tis targets).1) ∧
      ∀ y ∈ (shadow_race_block fuel task step.name q.1 q.2
          (completion_target_for_step task step_index targets) tis).2,
        y ∈ (shadow_step fuel task step_index step tis targets).2 := by
  unfold shadow_step
  refine ⟨?_, ?_, ?_⟩
  · refine (mergeFold_subset _ _ _).2.1 _ ?_
    refine (mergeFold_subset _ _ _).2.1 _ ?_
    exact List.mem_singleton_self _
  · intro q hq
    refine ⟨?_, ?_⟩
    · intro x hx
      refine (mergeFold_subset _ _ _).1 x ?_
      exact ((mergeFold_subset _ _ _).2.2 q hq).1 x hx
    · intro y hy
      refine (mergeFold_subset _ _ _).2.1 y ?_
      exact ((mergeFold_subset _ _ _).2.2 q hq).2 y hy
  · intro q hq
    exact (mergeFold_subset
      (fun q => shadow_race_block fuel task step.name q.1 q.2
        (completion_target_for_step task step_index targets) tis)
      (analyze_statements step.statements).race_blocks.enum _).2.2 q hq

theorem shadow_tasks_shape (fuel : Nat) (tasks : TasksSection) :
    ∀ task ∈ tasks.tasks, ∀ p ∈ task.steps.enum,
      (∀ x ∈ (shadow_step fuel task p.1 p.2 (smFirstPass tasks.tasks).1
          (smOnCompleteTargets tasks.tasks (smFirstPass tasks.tasks).1
            (smFirstPass tasks.tasks).2.2).1).1,
        x ∈ (shadow_tasks fuel tasks).1) ∧
      ∀ y ∈ (shadow_step fuel task p.1 p.2 (smFirstPass tasks.tasks).1
          (smOnCompleteTargets tasks.tasks (smFirstPass tasks.tasks).1
            (smFirstPass tasks.tasks).2.2).1).2,
        y ∈ (shadow_tasks fuel tasks).2 := by
  intro task htask p hp
  unfold shadow_tasks
  exact (shadow_double_sub
    (fun task p => shadow_step fuel task p.1 p.2
      (smFirstPass tasks.tasks).1
      (smOnCompleteTargets tasks.tasks (smFirstPass tasks.tasks).1
        (smFirstPass tasks.tasks).2.2).1)
    tasks.tasks ([], [])).2.2 task htask p hp

/-- The join-purity invariant of the block builders: provided the fixed
join `J` is not captured by any other transition-source state of the
subtree (shadow freshness) and every join occurrence of `J` in the
subtree is associated with `ct`, every builder call preserves `JPure`. -/
theorem builders_JPure (J : State) (ct : Option State) (fuel : Nat) :
    (∀ (task : TaskDeclaration) (step_name : String) (block_index : Nat)
        (fork_state join_state : State) (tis : List (String × State))
        (st : BuildSt) (p : Nat × Branch),
        fork_state ≠ J →
        J ∉ (shadow_parallel_branch fuel task step_name block_index
          join_state tis p).2 →
        (∀ q ∈ (shadow_parallel_branch fuel task step_name block_index
          join_state tis p).1, q.1 = J → q.2 = ct) →
        JPure J ct st →
        JPure J ct (build_parallel_branch fuel task step_name block_index
          fork_state join_state tis st p)) ∧
    (∀ (task : TaskDeclaration) (step_name : String) (source_state : State)
        (block_index : Nat) (block : ParallelBlock)
        (completion_target : Option State) (tis : List (String × State))
        (parent_actions : List TransitionAction) (st : BuildSt),
        source_state ≠ J →
        J ∉ (shadow_parallel_block fuel task step_name block_index block
          completion_target tis).2 →
        (∀ q ∈ (shadow_parallel_block fuel task step_name block_index
          block completion_target tis).1, q.1 = J → q.2 = ct) →
        JPure J ct st →
        JPure J ct (build_parallel_block fuel task step_name source_state
          block_index block completion_target tis parent_actions st)) ∧
    (∀ (task : TaskDeclaration) (step_name : String) (block_index : Nat)
        (decision_state : State) (completion_target : Option State)
        (tis : List (String × State)) (st : BuildSt)
        (p : Nat × RaceBranch),
        decision_state ≠ J →
        J ∉ (shadow_race_branch fuel task step_name block_index
          completion_target tis p).2 →
        (∀ q ∈ (shadow_race_branch fuel task step_name block_index
          completion_target tis p).1, q.1 = J → q.2 = ct) →
        JPure J ct st →
        JPure J ct (build_race_branch fuel task step_name block_index
          decision_state completion_target tis st p)) ∧
    ∀ (task : TaskDeclaration) (step_name : String) (source_state : State)
        (block_index : Nat) (block : RaceBlock)
        (completion_target : Option State) (tis : List (String × State))
        (parent_actions : List TransitionAction) (st : BuildSt),
        source_state ≠ J →
        J ∉ (shadow_race_block fuel task step_name block_index block
          completion_target tis).2 →
        (∀ q ∈ (shadow_race_block fuel task step_name block_index block
          completion_target tis).1, q.1 = J → q.2 = ct) →
        JPure J ct st →
        JPure J ct (build_race_block fuel task step_name source_state
          block_index block completion_target tis parent_actions st) := by
  induction fuel with
  | zero =>
    refine ⟨?_, ?_, ?_, ?_⟩
    · intro task step_name block_index fork_state join_state tis st p
        hfork hsh hj h0
      unfold build_parallel_branch
      exact h0
    · intro task step_name source_state block_index block ct2 tis pacts st
        hsrc hsh hj h0
      unfold build_parallel_block
      exact h0
    · intro task step_name block_index decision_state ct2 tis st p
        hdec hsh hj h0
      unfold build_race_branch
      exact h0
    · intro task step_name source_state block_index block ct2 tis pacts st
        hsrc hsh hj h0
      unfold build_race_block
      exact h0
  | succ fuel ih =>
    obtain ⟨ihpb, ihp, ihrb, ihr⟩ := ih
    refine ⟨?_, ?_, ?_, ?_⟩
    -- parallel branch
    · intro task step_name block_index fork_state join_state tis st p
        hfork hsh hj h0
      obtain ⟨hbmem, hpar_sub, hrace_sub⟩ :=
        shadow_pbranch_shape fuel task step_name block_index join_state
          tis p
      have hbne : (⟨task.name, step_name ++ "__parallel_" ++
          toString (block_index + 1) ++ "_branch_" ++
          toString (p.1 + 1)⟩ : State) ≠ J := fun he => hsh (he ▸ hbmem)
      unfold build_parallel_branch
      simp only [add_state_snd]
      refine JPure_ite_add
        (JPure_fold (JPure_fold (JPure_fold (JPure_fold (JPure_fold
          (JPure_add_other st.2 (JPure_add_state st.2 h0) hfork)
          ?hgoto) ?htime) ?hwait) ?hpar) ?hrace) hbne
      case hgoto =>
        intro st2 goto hg hP
        dsimp only
        rcases hfind : alFind? tis goto.step with _ | target <;>
          simp only [resolve_task_target, hfind]
        · exact hP
        · exact JPure_add_other _ hP hbne
      case htime =>
        intro st2 q hq hP
        dsimp only
        rcases hfind : alFind? tis q.2.target.step with _ | target <;>
          simp only [resolve_task_target, hfind]
        · exact hP
        · exact JPure_add_other _ hP hbne
      case hwait =>
        intro st2 w hw hP
        dsimp only
        exact JPure_add_other st2.2 hP hbne
      case hpar =>
        intro st2 q hq hP
        exact ihp _ _ _ _ _ _ _ _ _ hbne
          (fun hy => hsh ((hpar_sub q hq).2 J hy))
          (fun r hr hr2 => hj r ((hpar_sub q hq).1 r hr) hr2) hP
      case hrace =>
        intro st2 q hq hP
        exact ihr _ _ _ _ _ _ _ _ _ hbne
          (fun hy => hsh ((hrace_sub q hq).2 J hy))
          (fun r hr hr2 => hj r ((hrace_sub q hq).1 r hr) hr2) hP
    -- parallel block
    · intro task step_name source_state block_index block ct2 tis pacts st
        hsrc hsh hj h0
      obtain ⟨hjoinmem, hforkmem, hbr_sub⟩ :=
        shadow_pblock_shape fuel task step_name block_index block ct2 tis
      have hfne : (⟨task.name, step_name ++ "__parallel_" ++
          toString (block_index + 1) ++ "_fork"⟩ : State) ≠ J :=
        fun he => hsh (he ▸ hforkmem)
      have hjoin_ct : (⟨task.name, step_name ++ "__parallel_" ++
          toString (block_index + 1) ++ "_join"⟩ : State) = J →
          ct2 = ct := hj _ hjoinmem
      unfold build_parallel_block
      simp only [add_state_snd]
      cases ct2 with
      | none =>
        refine JPure_fold
          (JPure_add_other st.2
            (JPure_add_state st.2 (JPure_add_state st.2 h0)) hsrc)
          ?_
        intro st2 q hq hP
        exact ihpb _ _ _ _ _ _ st2 q hfne
          (fun hy => hsh ((hbr_sub q hq).2 J hy))
          (fun r hr hr2 => hj r ((hbr_sub q hq).1 r hr) hr2) hP
      | some target =>
        refine JPure_add_completion _
          (JPure_fold
            (JPure_add_other st.2
              (JPure_add_state st.2 (JPure_add_state st.2 h0)) hsrc)
            ?_)
          (fun he => (hjoin_ct he).symm)
        intro st2 q hq hP
        exact ihpb _ _ _ _ _ _ st2 q hfne
          (fun hy => hsh ((hbr_sub q hq).2 J hy))
          (fun r hr hr2 => hj r ((hbr_sub q hq).1 r hr) hr2) hP
    -- race branch
    · intro task step_name block_index decision_state ct2 tis st p
        hdec hsh hj h0
      obtain ⟨hbmem, hpar_sub, hrace_sub⟩ :=
        shadow_rbranch_shape fuel task step_name block_index ct2 tis p
      have hbne : (⟨task.name, step_name ++ "__race_" ++
          toString (block_index + 1) ++ "_branch_" ++
          toString (p.1 + 1)⟩ : State) ≠ J := fun he => hsh (he ▸ hbmem)
      have hfst := race_branch_completion_fst p.2 ct2 tis st.2 []
      unfold build_race_branch
      simp only [add_state_snd]
      rcases hbct : (race_branch_completion p.2 ct2 tis st.2).1 with
        _ | btarget <;> simp only [hbct] <;>
        rw [← hfst, hbct] at hpar_sub hrace_sub
      · -- no branch completion target
        rw [ite_self]
        refine JPure_fold (JPure_fold (JPure_fold (JPure_fold (JPure_fold
          (JPure_add_other (race_branch_completion p.2 ct2 tis st.2).2
            (JPure_add_state (race_branch_completion p.2 ct2 tis st.2).2
              h0) hdec)
          ?hgoto) ?htime) ?hwait) ?hpar) ?hrace
        case hgoto =>
          intro st2 goto hg hP
          dsimp only
          rcases hfind : alFind? tis goto.step with _ | target <;>
            simp only [resolve_task_target, hfind]
          · exact hP
          · exact JPure_add_other _ hP hbne
        case htime =>
          intro st2 q hq hP
          dsimp only
          rcases hfind : alFind? tis q.2.target.step with _ | target <;>
            simp only [resolve_task_target, hfind]
          · exact hP
          · exact JPure_add_other _ hP hbne
        case hwait =>
          intro st2 w hw hP
          exact hP
        case hpar =>
          intro st2 q hq hP
          exact ihp _ _ _ _ _ _ _ _ _ hbne
            (fun hy => hsh ((hpar_sub q hq).2 J hy))
            (fun r hr hr2 => hj r ((hpar_sub q hq).1 r hr) hr2) hP
        case hrace =>
          intro st2 q hq hP
          exact ihr _ _ _ _ _ _ _ _ _ hbne
            (fun hy => hsh ((hrace_sub q hq).2 J hy))
            (fun r hr hr2 => hj r ((hrace_sub q hq).1 r hr) hr2) hP
      · -- branch completion target present
        refine JPure_ite_add
          (JPure_fold (JPure_fold (JPure_fold (JPure_fold (JPure_fold
            (JPure_add_other (race_branch_completion p.2 ct2 tis st.2).2
              (JPure_add_state (race_branch_completion p.2 ct2 tis st.2).2
                h0) hdec)
            ?hgoto) ?htime) ?hwait) ?hpar) ?hrace) hbne
        case hgoto =>
          intro st2 goto hg hP
          dsimp only
          rcases hfind : alFind? tis goto.step with _ | target <;>
            simp only [resolve_task_target, hfind]
          · exact hP
          · exact JPure_add_other _ hP hbne
        case htime =>
          intro st2 q hq hP
          dsimp only
          rcases hfind : alFind? tis q.2.target.step with _ | target <;>
            simp only [resolve_task_target, hfind]
          · exact hP
          · exact JPure_add_other _ hP hbne
        case hwait =>
          intro st2 w hw hP
          dsimp only
          exact JPure_add_other st2.2 hP hbne
        case hpar =>
          intro st2 q hq hP
          exact ihp _ _ _ _ _ _ _ _ _ hbne
            (fun hy => hsh ((hpar_sub q hq).2 J hy))
            (fun r hr hr2 => hj r ((hpar_sub q hq).1 r hr) hr2) hP
        case hrace =>
          intro st2 q hq hP
          exact ihr _ _ _ _ _ _ _ _ _ hbne
            (fun hy => hsh ((hrace_sub q hq).2 J hy))
            (fun r hr hr2 => hj r ((hrace_sub q hq).1 r hr) hr2) hP
    -- race block
    · intro task step_name source_state block_index block ct2 tis pacts st
        hsrc hsh hj h0
      obtain ⟨hdecmem, hbr_sub⟩ :=
        shadow_rblock_shape fuel task step_name block_index block ct2 tis
      have hdne : (⟨task.name, step_name ++ "__race_" ++
          toString (block_index + 1) ++ "_decision"⟩ : State) ≠ J :=
        fun he => hsh (he ▸ hdecmem)
      unfold build_race_block
      simp only [add_state_snd]
      refine JPure_fold
        (JPure_add_other st.2 (JPure_add_state st.2 h0) hsrc) ?_
      intro st2 q hq hP
      exact ihrb _ _ _ _ _ _ st2 q hdne
        (fun hy => hsh ((hbr_sub q hq).2 J hy))
        (fun r hr hr2 => hj r ((hbr_sub q hq).1 r hr) hr2) hP

theorem JPure_of_nil {J : State} {ct : Option State}
    {b : StateMachineBuilder} {E : List PlcError}
    (hnil : b.transitions = []) : JPure J ct (b, E) := by
  intro t ht hfrom
  simp only [hnil] at ht
  exact absurd ht (by simp)

/-- The transition-generation body for a single step preserves join
purity, given shadow freshness for the step's subtree. -/
theorem smBuildStep_JPure (J : State) (ct : Option State) (fuel : Nat)
    (task : TaskDeclaration) (step_index : Nat) (step : StepDeclaration)
    (tis : List (String × State))
    (targets : List (String × Option State)) (st : BuildSt)
    (hsh : J ∉ (shadow_step fuel task step_index step tis targets).2)
    (hj : ∀ q ∈ (shadow_step fuel task step_index step tis targets).1,
      q.1 = J → q.2 = ct)
    (h0 : JPure J ct st) :
    JPure J ct (smBuildStep fuel task step_index step tis targets st) := by
  obtain ⟨-, ihp, -, ihr⟩ := builders_JPure J ct fuel
  obtain ⟨hfmem, hpar_sub, hrace_sub⟩ :=
    shadow_step_shape fuel task step_index step tis targets
  have hfne : (⟨task.name, step.name⟩ : State) ≠ J :=
    fun he => hsh (he ▸ hfmem)
  unfold smBuildStep
  rcases hct : completion_target_for_step task step_index targets with
    _ | target <;> simp only [hct] <;> rw [hct] at hpar_sub hrace_sub
  · -- no completion target
    rw [ite_self]
    refine JPure_fold (JPure_fold (JPure_fold (JPure_fold (JPure_fold h0
      ?hpar) ?hrace) ?hgoto) ?htime) ?hwait
    case hpar =>
      intro st2 q hq hP
      exact ihp _ _ _ _ _ _ _ _ _ hfne
        (fun hy => hsh ((hpar_sub q hq).2 J hy))
        (fun r hr hr2 => hj r ((hpar_sub q hq).1 r hr) hr2) hP
    case hrace =>
      intro st2 q hq hP
      exact ihr _ _ _ _ _ _ _ _ _ hfne
        (fun hy => hsh ((hrace_sub q hq).2 J hy))
        (fun r hr hr2 => hj r ((hrace_sub q hq).1 r hr) hr2) hP
    case hgoto =>
      intro st2 goto hg hP
      dsimp only
      rcases hfind : alFind? tis goto.step with _ | tg <;>
        simp only [resolve_task_target, hfind]
      · exact hP
      · exact JPure_add_other _ hP hfne
    case htime =>
      intro st2 q hq hP
      dsimp only
      rcases hfind : alFind? tis q.2.target.step with _ | tg <;>
        simp only [resolve_task_target, hfind]
      · exact hP
      · exact JPure_add_other _ hP hfne
    case hwait =>
      intro st2 w hw hP
      exact hP
  · -- completion target present
    refine JPure_ite_add
      (JPure_fold (JPure_fold (JPure_fold (JPure_fold (JPure_fold h0
        ?hpar) ?hrace) ?hgoto) ?htime) ?hwait) hfne
    case hpar =>
      intro st2 q hq hP
      exact ihp _ _ _ _ _ _ _ _ _ hfne
        (fun hy => hsh ((hpar_sub q hq).2 J hy))
        (fun r hr hr2 => hj r ((hpar_sub q hq).1 r hr) hr2) hP
    case hrace =>
      intro st2 q hq hP
      exact ihr _ _ _ _ _ _ _ _ _ hfne
        (fun hy => hsh ((hrace_sub q hq).2 J hy))
        (fun r hr hr2 => hj r ((hrace_sub q hq).1 r hr) hr2) hP
    case hgoto =>
      intro st2 goto hg hP
      dsimp only
      rcases hfind : alFind? tis goto.step with _ | tg <;>
        simp only [resolve_task_target, hfind]
      · exact hP
      · exact JPure_add_other _ hP hfne
    case htime =>
      intro st2 q hq hP
      dsimp only
      rcases hfind : alFind? tis q.2.target.step with _ | tg <;>
        simp only [resolve_task_target, hfind]
      · exact hP
      · exact JPure_add_other _ hP hfne
    case hwait =>
      intro st2 w hw hP
      dsimp only
      exact JPure_add_other st2.2 hP hfne

/-! ## C6: parallel-join purity -/

/-- C6 (amended): for every build that returns `Ok` and every synthesized
parallel-join state `J` with enclosing completion target `ct` (as
enumerated by the shadow traversal), provided `J` is not also one of the
other transition-source states (no name capture) and every join
occurrence of `J` is associated with `ct`, every outgoing transition of
`J` is an `always` edge into the state `ct` points at, carrying no
actions and no timers.  (The unamended claim is refuted by
`c6_counterexample_join_capture`: a declared step may capture the
synthesized join name and attach action-carrying edges to it.) -/
theorem parallel_join_purity (fuel : Nat) (tasks : TasksSection)
    (sm : StateMachine) (J : State) (ct : Option State)
    (h : build_state_machine_from_ast fuel tasks = .ok sm)
    (hJ : (J, ct) ∈ (shadow_tasks fuel tasks).1)
    (hother : J ∉ (shadow_tasks fuel tasks).2)
    (huniq : ∀ q ∈ (shadow_tasks fuel tasks).1, q.1 = J → q.2 = ct) :
    ∀ t ∈ sm.transitions, t.from_ = J →
      t.guard = .always ∧ t.actions = [] ∧ t.timers = [] ∧
        ct = some t.to_ := by
  obtain ⟨hW1, htr1, htis1, hsteps1⟩ := smFirstPass_spec tasks.tasks
  have hshape := shadow_tasks_shape fuel tasks
  unfold build_state_machine_from_ast at h
  split at h
  · cases h
  dsimp only at h
  split at h
  · cases h
  case h_2 initial hfound =>
    split at h
    case isFalse => cases h
    case isTrue hempty =>
      injection h with h
      subst h
      have hpure : JPure J ct
          (tasks.tasks.foldl
            (fun (st : BuildSt) task =>
              task.steps.enum.foldl
                (fun (st : BuildSt) (p : Nat × StepDeclaration) =>
                  smBuildStep fuel task p.1 p.2 (smFirstPass tasks.tasks).1
                    (smOnCompleteTargets tasks.tasks
                      (smFirstPass tasks.tasks).1
                      (smFirstPass tasks.tasks).2.2).1 st)
                st)
            ((smFirstPass tasks.tasks).2.1,
              (smOnCompleteTargets tasks.tasks (smFirstPass tasks.tasks).1
                (smFirstPass tasks.tasks).2.2).2)) := by
        refine foldl_preserves (P := JPure J ct) _ tasks.tasks _
          (JPure_of_nil htr1) ?_
        intro st2 task htask hP
        refine foldl_preserves (P := JPure J ct) _ task.steps.enum st2
          hP ?_
        intro st3 p hp hP3
        refine smBuildStep_JPure J ct fuel task p.1 p.2 _ _ st3 ?_ ?_ hP3
        · exact fun hy => hother ((hshape task htask p hp).2 J hy)
        · exact fun r hr hr2 => huniq r ((hshape task htask p hp).1 r hr)
            hr2
      intro t ht hfrom
      exact hpure t ht hfrom

/-- Witness for C6 (amended theorem): the join of `c6Tasks` satisfies the
freshness hypotheses, and all its outgoing transitions are pure `always`
edges into the completion target. -/
theorem parallel_join_purity_witness :
    build_state_machine_from_ast 10 c6Tasks = .ok c6SM ∧
      ((⟨"t", "work__parallel_1_join"⟩ : State),
        some (⟨"t", "done"⟩ : State)) ∈ (shadow_tasks 10 c6Tasks).1 ∧
      (⟨"t", "work__parallel_1_join"⟩ : State) ∉
        (shadow_tasks 10 c6Tasks).2 ∧
      ∀ t ∈ c6SM.transitions,
        t.from_ = (⟨"t", "work__parallel_1_join"⟩ : State) →
        t.guard = .always ∧ t.actions = [] ∧ t.timers = [] ∧
          some (⟨"t", "done"⟩ : State) = some t.to_ :=
  ⟨by decide, by decide, by decide,
    parallel_join_purity 10 c6Tasks c6SM ⟨"t", "work__parallel_1_join"⟩
      (some ⟨"t", "done"⟩) (by decide) (by decide) (by decide)
      (by decide)⟩

/-- Counterexample to C6 as stated: in `captureTasks` a declared step
captures the synthesized join name `work__parallel_1_join`, so the join
state has an outgoing `always` edge carrying an action. -/
theorem c6_counterexample_join_capture :
    build_state_machine_from_ast 10 captureTasks = .ok captureSM ∧
      ((⟨"t", "work__parallel_1_join"⟩ : State),
        some (⟨"t", "work__parallel_1_join"⟩ : State)) ∈
          (shadow_tasks 10 captureTasks).1 ∧
      (⟨(⟨"t", "work__parallel_1_join"⟩ : State),
          (⟨"t", "work"⟩ : State), .always,
          [.extend "c"], []⟩ : Transition) ∈ captureSM.transitions ∧
      ([TransitionAction.extend "c"] ≠ ([] : List TransitionAction)) :=
  ⟨by decide, by decide, by decide, by decide⟩

/-! ## C1: soundness of the safety BFS -/

theorem alContains_mem_keys {K V : Type} [DecidableEq K] :
    ∀ (l : List (K × V)) (k : K), alContains l k = true →
      k ∈ l.map Prod.fst := by
  intro l
  induction l with
  | nil => intro k h; exact absurd h (by simp [alContains])
  | cons p rest ih =>
    intro k h
    unfold alContains at h
    rw [List.map_cons]
    rcases Bool.or_eq_true_iff.mp h with h | h
    · exact List.mem_cons.mpr (.inl (of_decide_eq_true h).symm)
    · exact List.mem_cons.mpr (.inr (ih k h))

theorem alFind?_some_key_mem {K V : Type} [DecidableEq K] :
    ∀ (l : List (K × V)) (k : K) (v : V), alFind? l k = some v →
      k ∈ l.map Prod.fst := by
  intro l
  induction l with
  | nil => intro k v h; exact absurd h (by simp [alFind?])
  | cons p rest ih =>
    intro k v h
    unfold alFind? at h
    rw [List.map_cons]
    split at h
    · next heq => exact List.mem_cons.mpr (.inl heq.symm)
    · exact List.mem_cons.mpr (.inr (ih k v h))

theorem alInsert_key_mem {K V : Type} [DecidableEq K] :
    ∀ (l : List (K × V)) (k : K) (v : V),
      k ∈ (alInsert l k v).map Prod.fst := by
  intro l
  induction l with
  | nil => intro k v; simp [alInsert]
  | cons p rest ih =>
    intro k v
    unfold alInsert
    split
    · rw [List.map_cons]
      exact List.mem_cons.mpr (.inl rfl)
    · rw [List.map_cons]
      exact List.mem_cons.mpr (.inr (ih k v))

theorem alInsert_keys_mono {K V : Type} [DecidableEq K] :
    ∀ (l : List (K × V)) (k : K) (v : V) (x : K),
      x ∈ l.map Prod.fst → x ∈ (alInsert l k v).map Prod.fst := by
  intro l
  induction l with
  | nil => intro k v x h; exact absurd h (by simp)
  | cons p rest ih =>
    intro k v x h
    rw [List.map_cons] at h
    unfold alInsert
    rcases List.mem_cons.mp h with rfl | h
    · split
      · next heq =>
        rw [List.map_cons]
        exact List.mem_cons.mpr (.inl heq)
      · rw [List.map_cons]
        exact List.mem_cons.mpr (.inl rfl)
    · split
      · rw [List.map_cons]
        exact List.mem_cons.mpr (.inr h)
      · rw [List.map_cons]
        exact List.mem_cons.mpr (.inr (ih k v x h))

theorem alInsert_keys_cases {K V : Type} [DecidableEq K] :
    ∀ (l : List (K × V)) (k : K) (v : V) (x : K),
      x ∈ (alInsert l k v).map Prod.fst →
      x ∈ l.map Prod.fst ∨ x = k := by
  intro l
  induction l with
  | nil => intro k v x h; exact .inr (by simpa [alInsert] using h)
  | cons p rest ih =>
    intro k v x h
    unfold alInsert at h
    split at h
    · rw [List.map_cons] at h
      rcases List.mem_cons.mp h with rfl | h
      · exact .inr rfl
      · exact .inl (by rw [List.map_cons]; exact List.mem_cons.mpr (.inr h))
    · rw [List.map_cons] at h
      rcases List.mem_cons.mp h with rfl | h
      · exact .inl (by rw [List.map_cons]; exact List.mem_cons.mpr (.inl rfl))
      · rcases ih k v x h with h | h
        · exact .inl (by rw [List.map_cons]; exact List.mem_cons.mpr (.inr h))
        · exact .inr h

/-- If a closed, conflict-free state set contains the initial concrete
state, it contains every reachable state. -/
theorem reach_in_keys (model : SafetyModel) (rule : RuleBinding)
    (sd : List (ConcreteState × Nat))
    (hinit : initial_concrete_state model ∈ sd.map Prod.fst)
    (hclosed : ∀ s ∈ sd.map Prod.fst, ProcessedB model rule sd s) :
    ∀ s, Reach model s → s ∈ sd.map Prod.fst := by
  intro s hr
  induction hr with
  | init => exact hinit
  | step hr hmem ih => exact (hclosed _ ih).2 _ hmem

/-- If the frontier check keeps the flag true, it was true before and
every candidate successor is recorded. -/
theorem frontierCheck_true (model : SafetyModel)
    (sd : List (ConcreteState × Nat)) (node : SearchNode) :
    ∀ (l : List Nat) (fe : Bool),
      l.foldl (bfsFrontierCheck model sd node) fe = true →
      fe = true ∧ ∀ eid ∈ l,
        alContains sd
          (apply_edge (model.edges.getD eid defaultModelEdge)
            node.state) = true := by
  intro l
  induction l with
  | nil => intro fe h; exact ⟨h, by simp⟩
  | cons a rest ih =>
    intro fe h
    rw [List.foldl_cons] at h
    obtain ⟨h1, h2⟩ := ih _ h
    have hstep : alContains sd
        (apply_edge (model.edges.getD a defaultModelEdge) node.state) =
          true ∧ fe = true := by
      unfold bfsFrontierCheck at h1
      dsimp only at h1
      split at h1
      · next hcc => exact ⟨hcc, h1⟩
      · exact absurd h1 (by simp)
    refine ⟨hstep.2, ?_⟩
    intro eid he
    rcases List.mem_cons.mp he with rfl | he
    · exact hstep.1
    · exact h2 eid he

/-- Accumulated facts about the BFS expansion fold: nodes and queue only
grow, recorded states only accumulate, existing node entries are stable,
every new recorded state is pending, and every candidate successor of the
expanded node ends up recorded. -/
theorem expand_spec (model : SafetyModel) (node : SearchNode)
    (node_id : Nat) :
    ∀ (l : List Nat)
      (acc : List SearchNode × List Nat × List (ConcreteState × Nat)),
      (∃ d, (l.foldl (bfsExpandStep model node node_id) acc).1 =
        acc.1 ++ d) ∧
      (∃ d, (l.foldl (bfsExpandStep model node node_id) acc).2.1 =
        acc.2.1 ++ d) ∧
      (∀ x ∈ acc.2.2.map Prod.fst,
        x ∈ (l.foldl (bfsExpandStep model node node_id) acc).2.2.map
          Prod.fst) ∧
      (∀ i, i < acc.1.length →
        (l.foldl (bfsExpandStep model node node_id) acc).1.get? i =
          acc.1.get? i) ∧
      (∀ s ∈ (l.foldl (bfsExpandStep model node node_id) acc).2.2.map
          Prod.fst,
        s ∈ acc.2.2.map Prod.fst ∨
          Pending (l.foldl (bfsExpandStep model node node_id) acc).1
            (l.foldl (bfsExpandStep model node node_id) acc).2.1 s) ∧
      ∀ eid ∈ l,
        apply_edge (model.edges.getD eid defaultModelEdge) node.state ∈
          (l.foldl (bfsExpandStep model node node_id) acc).2.2.map
            Prod.fst := by
  intro l
  induction l with
  | nil =>
    intro acc
    exact ⟨⟨[], (List.append_nil _).symm⟩, ⟨[], (List.append_nil _).symm⟩,
      fun x hx => hx, fun i hi => rfl, fun s hs => .inl hs, by simp⟩
  | cons a rest ih =>
    intro acc
    rw [List.foldl_cons]
    by_cases hc : (alFind? acc.2.2
        (apply_edge (model.edges.getD a defaultModelEdge) node.state)).any
        (fun depth => depth ≤ node.depth + 1) = true
    · have heq : bfsExpandStep model node node_id acc a = acc := by
        unfold bfsExpandStep
        dsimp only
        rw [if_pos hc]
      rw [heq]
      obtain ⟨h1, h2, h3, h4, h5, h6⟩ := ih acc
      refine ⟨h1, h2, h3, h4, h5, ?_⟩
      intro eid he
      rcases List.mem_cons.mp he with rfl | he
      · rcases hfind : alFind? acc.2.2
            (apply_edge (model.edges.getD eid defaultModelEdge)
              node.state) with _ | v
        · rw [hfind] at hc
          exact absurd hc (by simp)
        · exact h3 _ (alFind?_some_key_mem _ _ _ hfind)
      · exact h6 eid he
    · have heq : bfsExpandStep model node node_id acc a =
          (acc.1 ++ [⟨apply_edge (model.edges.getD a defaultModelEdge)
              node.state, node.depth + 1, some node_id, some a⟩],
           acc.2.1 ++ [acc.1.length],
           alInsert acc.2.2
             (apply_edge (model.edges.getD a defaultModelEdge) node.state)
             (node.depth + 1)) := by
        unfold bfsExpandStep
        dsimp only
        rw [if_neg hc]
      rw [heq]
      obtain ⟨⟨d1, hd1⟩, ⟨d2, hd2⟩, h3, h4, h5, h6⟩ := ih
        (acc.1 ++ [⟨apply_edge (model.edges.getD a defaultModelEdge)
            node.state, node.depth + 1, some node_id, some a⟩],
         acc.2.1 ++ [acc.1.length],
         alInsert acc.2.2
           (apply_edge (model.edges.getD a defaultModelEdge) node.state)
           (node.depth + 1))
      refine ⟨?_, ?_, ?_, ?_, ?_, ?_⟩
      · exact ⟨_, by rw [hd1, List.append_assoc]⟩
      · exact ⟨_, by rw [hd2, List.append_assoc]⟩
      · intro x hx
        exact h3 x (alInsert_keys_mono _ _ _ x hx)
      · intro i hi
        rw [h4 i (by simp; omega)]
        exact List.get?_append hi
      · intro s hs
        rcases h5 s hs with hs2 | hs2
        · rcases alInsert_keys_cases _ _ _ s hs2 with hs3 | hs3
          · exact .inl hs3
          · -- the freshly inserted state is pending
            right
            refine ⟨acc.1.length, ?_, ?_, ?_⟩
            · rw [hd2]
              exact List.mem_append_left _
                (List.mem_append_right _ (List.mem_singleton_self _))
            · rw [hd1, List.length_append, List.length_append]
              simp only [List.length_singleton]
              omega
            · have hget : (rest.foldl (bfsExpandStep model node node_id)
                  (acc.1 ++ [⟨apply_edge
                      (model.edges.getD a defaultModelEdge) node.state,
                    node.depth + 1, some node_id, some a⟩],
                   acc.2.1 ++ [acc.1.length],
                   alInsert acc.2.2
                     (apply_edge (model.edges.getD a defaultModelEdge)
                       node.state) (node.depth + 1))).1.get?
                  acc.1.length = some ⟨apply_edge
                    (model.edges.getD a defaultModelEdge) node.state,
                  node.depth + 1, some node_id, some a⟩ := by
                rw [h4 acc.1.length (by simp), List.get?_concat_length]
              rw [hs3]
              simp only [List.getD] at hget ⊢
              rw [hget, Option.getD_some]
        · exact .inr hs2
      · intro eid he
        rcases List.mem_cons.mp he with rfl | he
        · exact h3 _ (alInsert_key_mem _ _ _)
        · exact h6 eid he

theorem getD_stab {α : Type _} (l l2 : List α) (n : Nat) (d : α)
    (h : l.get? n = l2.get? n) : l.getD n d = l2.getD n d := by
  simp only [List.getD]
  rw [h]

/-- Soundness of the BFS worklist loop: a fully-explored, conflict-free
outcome under the loop invariant implies no reachable state conflicts. -/
theorem bfsLoop_sound (model : SafetyModel) (rule : RuleBinding)
    (max_depth : Nat) :
    ∀ (fuel : Nat) (nodes : List SearchNode) (queue : List Nat)
      (sd : List (ConcreteState × Nat)) (fe : Bool),
      bfsLoop model rule max_depth fuel nodes queue sd fe =
        some ⟨none, true⟩ →
      (fe = true → BfsInv model rule nodes queue sd) →
      ∀ s, Reach model s → ¬ conflictsRule s rule := by
  intro fuel
  induction fuel with
  | zero =>
    intro nodes queue sd fe h hinv
    exact absurd h (by simp [bfsLoop])
  | succ fuel ih =>
    intro nodes queue sd fe h hinv
    rcases queue with _ | ⟨node_id, queue⟩
    · -- queue exhausted: the recorded set is closed and conflict-free
      unfold bfsLoop at h
      injection h with h
      injection h with hcx hfe
      subst hfe
      obtain ⟨hinit, hstates⟩ := hinv rfl
      have hkeys : ∀ s ∈ sd.map Prod.fst, ProcessedB model rule sd s := by
        intro s hs
        rcases hstates s hs with ⟨nid, hnid, -, -⟩ | hp
        · exact absurd hnid (by simp)
        · exact hp
      intro s hr
      exact (hkeys s (reach_in_keys model rule sd hinit hkeys s hr)).1
    · unfold bfsLoop at h
      dsimp only at h
      split at h
      · -- conflict found: outcome carries a counterexample
        injection h with h
        injection h with hcx hfe
        exact absurd hcx (by simp)
      case isFalse hnc =>
        split at h
        case isTrue hdep =>
          refine ih nodes queue sd _ h ?_
          intro hfe2
          obtain ⟨hfeold, hcand⟩ := frontierCheck_true model sd
            (nodes.getD node_id defaultSearchNode) _ _ hfe2
          obtain ⟨hinit, hstates⟩ := hinv hfeold
          refine ⟨hinit, ?_⟩
          intro s hs
          rcases hstates s hs with ⟨nid, hnidq, hlen, hst⟩ | hp
          · rcases List.mem_cons.mp hnidq with rfl | hq2
            · subst hst
              right
              refine ⟨hnc, ?_⟩
              intro eid heid
              exact alContains_mem_keys sd _ (hcand eid heid)
            · exact .inl ⟨nid, hq2, hlen, hst⟩
          · exact .inr hp
        case isFalse hdep =>
          refine ih _ _ _ _ h ?_
          intro hfe2
          obtain ⟨hinit, hstates⟩ := hinv hfe2
          obtain ⟨⟨d1, hd1⟩, ⟨d2, hd2⟩, hmono, hstab, hnew, hsucc⟩ :=
            expand_spec model (nodes.getD node_id defaultSearchNode)
              node_id
              (model.outgoing.getD
                (nodes.getD node_id defaultSearchNode).state.control_state
                []) (nodes, queue, sd)
          refine ⟨hmono _ hinit, ?_⟩
          intro s hs
          rcases hnew s hs with hold | hpend
          · rcases hstates s hold with ⟨nid, hnidq, hlen, hst⟩ | hp
            · rcases List.mem_cons.mp hnidq with rfl | hq2
              · subst hst
                right
                refine ⟨hnc, ?_⟩
                intro eid heid
                exact hsucc eid heid
              · left
                refine ⟨nid, ?_, ?_, ?_⟩
                · rw [hd2]
                  exact List.mem_append_left _ hq2
                · rw [hd1]
                  dsimp only
                  rw [List.length_append]
                  omega
                · rw [getD_stab _ nodes nid defaultSearchNode
                    (hstab nid hlen)]
                  exact hst
            · right
              obtain ⟨hp1, hp2⟩ := hp
              exact ⟨hp1, fun eid heid => hmono _ (hp2 eid heid)⟩
          · exact .inl hpend

/-- Soundness of `analyze_rule`: a conflict-free, fully-explored outcome
means no reachable concrete state violates the rule. -/
theorem analyze_rule_sound (fuel : Nat) (model : SafetyModel)
    (rule : RuleBinding) (max_depth : Nat)
    (h1 : (analyze_rule fuel model rule max_depth).counterexample = none)
    (h2 : (analyze_rule fuel model rule max_depth).fully_explored = true) :
    ∀ s, Reach model s → ¬ conflictsRule s rule := by
  unfold analyze_rule at h1 h2
  dsimp only at h1 h2
  rcases hb : bfsLoop model rule max_depth fuel
      [⟨initial_concrete_state model, 0, none, none⟩] [0]
      [(initial_concrete_state model, 0)] true with _ | oc
  · rw [hb] at h2
    exact absurd h2 (by simp)
  · rw [hb] at h1 h2
    have hoc : oc = ⟨none, true⟩ := by
      cases oc with
      | mk cx feo =>
        simp only [Option.getD_some] at h1 h2
        simp [h1, h2]
    rw [hoc] at hb
    refine bfsLoop_sound model rule max_depth fuel _ _ _ _ hb ?_
    intro _
    refine ⟨by simp, ?_⟩
    intro s hs
    simp only [List.map_cons, List.map_nil] at hs
    rcases List.mem_singleton.mp hs with rfl
    left
    refine ⟨0, by simp, by simp, ?_⟩
    simp [List.getD]

theorem exists_mem_enumFrom {α : Type _} :
    ∀ (l : List α) (n : Nat) (a : α), a ∈ l →
      ∃ i, (i, a) ∈ l.enumFrom n := by
  intro l
  induction l with
  | nil => intro n a h; exact absurd h (by simp)
  | cons b rest ih =>
    intro n a h
    rcases List.mem_cons.mp h with rfl | h
    · exact ⟨n, List.mem_cons_self _ _⟩
    · obtain ⟨i, hi⟩ := ih (n + 1) a h
      exact ⟨i, List.mem_cons_of_mem _ hi⟩

theorem exists_mem_enum {α : Type _} {l : List α} {a : α} (h : a ∈ l) :
    ∃ i, (i, a) ∈ l.enum :=
  exists_mem_enumFrom l 0 a h

theorem safetyRuleStep_diag (fuel : Nat) (model : SafetyModel)
    (program : PlcProgram) (D : Nat)
    (st : List SafetyDiagnostic × Bool × Nat) (p : Nat × SafetyRule) :
    ∃ d, (safetyRuleStep fuel model program D st p).1 = st.1 ++ d := by
  unfold safetyRuleStep
  split
  · exact ⟨[], (List.append_nil _).symm⟩
  · split
    · exact ⟨[], (List.append_nil _).symm⟩
    · dsimp only
      split
      · exact ⟨_, rfl⟩
      · split
        · exact ⟨[], (List.append_nil _).symm⟩
        · exact ⟨[], (List.append_nil _).symm⟩

theorem safetyRuleStep_complete (fuel : Nat) (model : SafetyModel)
    (program : PlcProgram) (D : Nat)
    (st : List SafetyDiagnostic × Bool × Nat) (p : Nat × SafetyRule) :
    (safetyRuleStep fuel model program D st p).2.1 = true →
      st.2.1 = true := by
  unfold safetyRuleStep
  split
  · exact id
  · split
    · exact id
    · dsimp only
      split
      · exact id
      · split
        · exact id
        · intro h
          exact absurd h (by simp)

theorem safetyRuleStep_checked (fuel : Nat) (model : SafetyModel)
    (program : PlcProgram) (D : Nat)
    (st : List SafetyDiagnostic × Bool × Nat) (p : Nat × SafetyRule) :
    st.2.2 ≤ (safetyRuleStep fuel model program D st p).2.2 := by
  unfold safetyRuleStep
  split
  · exact Nat.le_refl _
  · split
    · exact Nat.le_refl _
    · dsimp only
      split
      · exact Nat.le_succ _
      · split
        · exact Nat.le_succ _
        · exact Nat.le_succ _

theorem safetyRuleStep_ours (fuel : Nat) (model : SafetyModel)
    (program : PlcProgram) (D : Nat)
    (st : List SafetyDiagnostic × Bool × Nat) (p : Nat × SafetyRule)
    (binding : RuleBinding) (hrel : p.2.relation = .conflictsWith)
    (hbind : bind_rule model p.2.left.device p.2.left.state
      p.2.right.device p.2.right.state = some binding) :
    ((safetyRuleStep fuel model program D st p).1 = st.1 →
      (analyze_rule fuel model binding D).counterexample = none) ∧
    ((safetyRuleStep fuel model program D st p).2.1 = true →
      (analyze_rule fuel model binding D).counterexample = none →
      (analyze_rule fuel model binding D).fully_explored = true) ∧
    (safetyRuleStep fuel model program D st p).2.2 = st.2.2 + 1 := by
  unfold safetyRuleStep
  rw [if_neg (by simp [hrel]), hbind]
  dsimp only
  rcases hcx : (analyze_rule fuel model binding D).counterexample with
    _ | c
  · dsimp only
    split
    case isTrue hfe => exact ⟨fun _ => rfl, fun _ _ => hfe, rfl⟩
    case isFalse hfe =>
      exact ⟨fun _ => rfl, fun h _ => absurd h (by simp), rfl⟩
  · dsimp only
    refine ⟨?_, ?_, rfl⟩
    · intro hh
      exact absurd hh (by simp)
    · intro _ hnone
      exact absurd hnone (by simp)

theorem safetyFold_diag (fuel : Nat) (model : SafetyModel)
    (program : PlcProgram) (D : Nat) :
    ∀ (l : List (Nat × SafetyRule))
      (st : List SafetyDiagnostic × Bool × Nat),
      ∃ d, (l.foldl (safetyRuleStep fuel model program D) st).1 =
        st.1 ++ d := by
  intro l
  induction l with
  | nil => intro st; exact ⟨[], (List.append_nil _).symm⟩
  | cons a rest ih =>
    intro st
    rw [List.foldl_cons]
    obtain ⟨d1, h1⟩ := safetyRuleStep_diag fuel model program D st a
    obtain ⟨d2, h2⟩ := ih (safetyRuleStep fuel model program D st a)
    exact ⟨d1 ++ d2, by rw [h2, h1, List.append_assoc]⟩

theorem safetyFold_complete (fuel : Nat) (model : SafetyModel)
    (program : PlcProgram) (D : Nat) :
    ∀ (l : List (Nat × SafetyRule))
      (st : List SafetyDiagnostic × Bool × Nat),
      (l.foldl (safetyRuleStep fuel model program D) st).2.1 = true →
      st.2.1 = true := by
  intro l
  induction l with
  | nil => intro st h; exact h
  | cons a rest ih =>
    intro st h
    rw [List.foldl_cons] at h
    exact safetyRuleStep_complete fuel model program D st a (ih _ h)

theorem safetyFold_checked (fuel : Nat) (model : SafetyModel)
    (program : PlcProgram) (D : Nat) :
    ∀ (l : List (Nat × SafetyRule))
      (st : List SafetyDiagnostic × Bool × Nat),
      st.2.2 ≤ (l.foldl (safetyRuleStep fuel model program D) st).2.2 := by
  intro l
  induction l with
  | nil => intro st; exact Nat.le_refl _
  | cons a rest ih =>
    intro st
    rw [List.foldl_cons]
    exact Nat.le_trans (safetyRuleStep_checked fuel model program D st a)
      (ih _)

theorem safety_fold_sound (fuel : Nat) (model : SafetyModel)
    (program : PlcProgram) (D : Nat) (l1 l2 : List (Nat × SafetyRule))
    (i : Nat) (rule : SafetyRule) (binding : RuleBinding)
    (hrel : rule.relation = .conflictsWith)
    (hbind : bind_rule model rule.left.device rule.left.state
      rule.right.device rule.right.state = some binding)
    (hnil : ((l1 ++ (i, rule) :: l2).foldl
      (safetyRuleStep fuel model program D) ([], true, 0)).1 = [])
    (hc : ((l1 ++ (i, rule) :: l2).foldl
        (safetyRuleStep fuel model program D) ([], true, 0)).2.2 = 0 ∨
      ((l1 ++ (i, rule) :: l2).foldl
        (safetyRuleStep fuel model program D) ([], true, 0)).2.1 = true) :
    ∀ s, Reach model s → ¬ conflictsRule s binding := by
  rw [List.foldl_append, List.foldl_cons] at hnil hc
  obtain ⟨dA, hA⟩ := safetyFold_diag fuel model program D l2
    (safetyRuleStep fuel model program D
      (List.foldl (safetyRuleStep fuel model program D) ([], true, 0) l1)
      (i, rule))
  rw [hA] at hnil
  obtain ⟨hA1, -⟩ := List.append_eq_nil.mp hnil
  obtain ⟨dB, hB⟩ := safetyRuleStep_diag fuel model program D
    (List.foldl (safetyRuleStep fuel model program D) ([], true, 0) l1)
    (i, rule)
  rw [hA1] at hB
  obtain ⟨hB1, -⟩ := List.append_eq_nil.mp hB.symm
  obtain ⟨hcx_of, hfe_of, hcount⟩ := safetyRuleStep_ours fuel model
    program D
    (List.foldl (safetyRuleStep fuel model program D) ([], true, 0) l1)
    (i, rule) binding hrel hbind
  have hcx := hcx_of (hA1.trans hB1.symm)
  have hchecked := safetyFold_checked fuel model program D l2
    (safetyRuleStep fuel model program D
      (List.foldl (safetyRuleStep fuel model program D) ([], true, 0) l1)
      (i, rule))
  rw [hcount] at hchecked
  rcases hc with h0 | hcomp
  · omega
  · have hfe2 := safetyFold_complete fuel model program D l2 _ hcomp
    exact analyze_rule_sound fuel model binding D hcx (hfe_of hfe2 hcx)

/-- C1: if the safety verifier returns a report with level `complete`,
then no concrete state reachable from the initial concrete state under
the modeled effect semantics satisfies both sides of any bound
`conflicts_with` rule. -/
theorem safety_complete_sound (fuel : Nat) (program : PlcProgram)
    (constraints : ConstraintSet) (sm : StateMachine)
    (config : SafetyConfig) (report : SafetyReport)
    (h : verify_safety_with_config fuel program constraints sm config =
      .ok report)
    (hlevel : report.level = .complete)
    (rule : SafetyRule) (hrule : rule ∈ constraints.safety)
    (hrel : rule.relation = .conflictsWith) (binding : RuleBinding)
    (hbind : bind_rule (SafetyModel.from_inputs program constraints sm)
      rule.left.device rule.left.state rule.right.device
      rule.right.state = some binding) :
    ∀ s, Reach (SafetyModel.from_inputs program constraints sm) s →
      ¬ conflictsRule s binding := by
  obtain ⟨i, hienum⟩ := exists_mem_enum hrule
  obtain ⟨l1, l2, hsplit⟩ := List.append_of_mem hienum
  unfold verify_safety_with_config at h
  dsimp only at h
  split at h
  case isTrue => cases h
  case isFalse hdiag =>
    injection h with h
    subst h
    dsimp only at hlevel
    simp only [Bool.not_eq_true, Bool.not_eq_false', List.isEmpty_iff]
      at hdiag
    rw [hsplit] at hdiag
    split at hlevel
    case isTrue htrunc =>
      split at hlevel
      case isFalse => cases hlevel
      case isTrue hc =>
        rw [hsplit] at hc
        exact safety_fold_sound fuel _ program _ l1 l2 i rule binding
          hrel hbind hdiag (hc.imp id (fun hf => absurd hf (by simp)))
    case isFalse htrunc =>
      split at hlevel
      case isFalse => cases hlevel
      case isTrue hc =>
        rw [hsplit] at hc
        exact safety_fold_sound fuel _ program _ l1 l2 i rule binding
          hrel hbind hdiag hc

theorem safety_complete_sound_witness :
    verify_safety_with_config 1000 safeProgram safeCS safeSM ⟨none⟩ =
      .ok ⟨.complete, 2, []⟩ ∧
    ¬ conflictsRule
      (initial_concrete_state
        (SafetyModel.from_inputs safeProgram safeCS safeSM))
      ⟨0, 0, 0, 1⟩ :=
  ⟨by decide,
   safety_complete_sound 1000 safeProgram safeCS safeSM ⟨none⟩
     ⟨.complete, 2, []⟩ (by decide) (by decide)
     ⟨⟨"c", "extended"⟩, .conflictsWith, ⟨"c", "retracted"⟩, none⟩
     (by decide) (by decide) ⟨0, 0, 0, 1⟩ (by decide) _ Reach.init⟩

end RustPLC
